import Mathlib

/-!
# Marble machine simulator — a shallow embedding of the simulation core

This file embeds the core of the marble-machine simulator (graph model,
acyclicity validator, seeded mulberry32 generator, the five-phase tick
engine with its eleven node handlers, and the versioned serialization
codec) as executable Lean definitions, and proves the specification's
testable properties about them.

Modelling conventions:
* JavaScript `Map` values (insertion-ordered, unique keys) are embedded as
  association lists with `mget` / `mset` mirroring `Map.get` / `Map.set`
  (`mset` replaces in place, keeping the original position, or appends).
* JavaScript numbers are embedded as `Rat` where the code treats them as
  reals, as `Int` where the code counts downward through zero, and as `Nat`
  for counters that stay non-negative.  32-bit coercions (`| 0`,
  `Math.imul`, `>>>`) are made explicit with `% 2^32` arithmetic.
* In-place object mutation becomes explicit state passing: a handler that
  mutates `ctx.state` is a function `SimState → SimState`; `array.splice`
  at `indexOf` becomes removal of the first equal element.
* `Record<MarbleColor, T>` objects always carry the full eight-color
  palette in palette order everywhere they are constructed, so they are
  embedded as a `ColorMap` structure with one field per color.
* The user controller script (`new Function` over attacker-supplied text)
  is only able to affect the simulation through the three command methods
  of its API, so its state effect is embedded as a function producing a
  list of `ControllerCommand`s plus an optional captured error.
-/

set_option linter.unusedVariables false

namespace MarbleSim

/-- Ordered association-list lookup, mirroring JavaScript `Map.get`. -/
def mget {β : Type} : List (String × β) → String → Option β
  | [], _ => none
  | (k, v) :: rest, key => if k = key then some v else mget rest key

/-- Ordered association-list update, mirroring JavaScript `Map.set`:
replaces the value in place when the key is present (keeping the entry's
position), otherwise appends a new entry. -/
def mset {β : Type} : List (String × β) → String → β → List (String × β)
  | [], key, v => [(key, v)]
  | (k, w) :: rest, key, v =>
      if k = key then (k, v) :: rest else (k, w) :: mset rest key v

/-- `Map.values()` as a list, in insertion order. -/
def mvalues {β : Type} (m : List (String × β)) : List β := m.map Prod.snd

/-- `Map.keys()` as a list, in insertion order. -/
def mkeys {β : Type} (m : List (String × β)) : List String := m.map Prod.fst

/-- Remove the first occurrence of an element (`indexOf` + `splice(idx, 1)`;
a no-op when the element is absent, as `indexOf === -1` is checked). -/
def eraseFirst {α : Type} [DecidableEq α] : List α → α → List α
  | [], _ => []
  | x :: xs, a => if x = a then xs else x :: eraseFirst xs a

/-- Replace the first occurrence of an element by a new value (the embedding
of mutating, through a reference, an object stored in an array; a no-op when
the element is absent). -/
def replaceFirst {α : Type} [DecidableEq α] : List α → α → α → List α
  | [], _, _ => []
  | x :: xs, a, b => if x = a then b :: xs else x :: replaceFirst xs a b

/-- Number of occurrences of an element in a list. -/
def countOf {α : Type} [DecidableEq α] (l : List α) (a : α) : Nat :=
  l.count a

-- ---------------------------------------------------------------------------
-- 32-bit JavaScript arithmetic (src/simulation/rng.ts)
-- ---------------------------------------------------------------------------

/-- `x >>> 0`: interpret an integer as an unsigned 32-bit value. -/
def toUint32 (n : Int) : Nat := (n % (4294967296 : Int)).toNat

/-- `x | 0`: interpret an integer as a signed 32-bit value. -/
def toInt32 (n : Int) : Int :=
  let u := toUint32 n
  if u < 2147483648 then (u : Int) else (u : Int) - 4294967296

/-- `Math.imul`: 32-bit integer multiplication. -/
def imul (a b : Int) : Int := toInt32 (a * b)

/-- `a ^ b` on 32-bit integers. -/
def jsXor (a b : Int) : Int := toInt32 (Nat.xor (toUint32 a) (toUint32 b))

/-- `a | b` on 32-bit integers. -/
def jsOr (a b : Int) : Int := toInt32 (Nat.lor (toUint32 a) (toUint32 b))

/-- `a >>> k`: unsigned right shift, yielding an unsigned 32-bit value. -/
def ushr (a : Int) (k : Nat) : Nat := (toUint32 a) >>> k

/-- `Math.round` (round half away from zero toward `+∞`, as in JavaScript
for all finite inputs). -/
def jsRound (q : Rat) : Int := ⌊q + 1/2⌋

/-- Opaque state for the deterministic PRNG (a single serializable number). -/
structure SeededRNG where
  state : Int
  deriving DecidableEq

/-- `createRng`: create a new RNG from an integer seed (`seed | 0`). -/
def createRng (seed : Int) : SeededRNG := { state := toInt32 seed }

/-- `nextFloat`: mulberry32.  Pure — returns the drawn value in `[0, 1)`
together with the updated RNG state, never mutating the input. -/
def nextFloat (rng : SeededRNG) : Rat × SeededRNG :=
  let t0 : Int := toInt32 (rng.state + 0x6d2b79f5)
  let nextState : SeededRNG := { state := t0 }
  let t1 : Int := imul (jsXor t0 (Int.ofNat (ushr t0 15))) (jsOr t0 1)
  let t2 : Int := jsXor t1 (t1 + imul (jsXor t1 (Int.ofNat (ushr t1 7))) (jsOr t1 61))
  let value : Rat := (toUint32 (jsXor t2 (Int.ofNat (ushr t2 14))) : Rat) / 4294967296
  (value, nextState)

/-- `nextInt`: the next integer in `[0, max)`. -/
def nextInt (rng : SeededRNG) (max : Rat) : Int × SeededRNG :=
  let fn := nextFloat rng
  (⌊fn.1 * max⌋, fn.2)

-- ---------------------------------------------------------------------------
-- Constants (src/lib/constants.ts)
-- ---------------------------------------------------------------------------

/-- Simulation ticks per second. -/
def TICK_RATE : Nat := 60

/-- Safety cap — max marbles alive at once. -/
def MAX_MARBLES : Nat := 1000

/-- Default marble speed in progress-units per tick (`0.02`, i.e. `1/50`;
written as a normalized-fraction literal so that it reduces inside the
kernel, see `DEFAULT_MARBLE_SPEED_eq`). -/
def DEFAULT_MARBLE_SPEED : Rat := ⟨1, 50, by norm_num, by norm_num⟩

/-- Default spawn rate for source nodes (marbles per second). -/
def DEFAULT_SPAWN_RATE : Rat := 1

-- ---------------------------------------------------------------------------
-- Data model (src/simulation/types.ts)
-- ---------------------------------------------------------------------------

/-- The fixed eight-color marble palette. -/
inductive MarbleColor where
  | red | blue | green | yellow | black | white | orange | purple
  deriving DecidableEq

/-- `MARBLE_COLORS`, in declaration order. -/
def MARBLE_COLORS : List MarbleColor :=
  [.red, .blue, .green, .yellow, .black, .white, .orange, .purple]

/-- A complete `Record<MarbleColor, α>`: every record of this shape in the
program is built over the whole palette, so it is embedded as one field per
color. -/
structure ColorMap (α : Type) where
  red : α
  blue : α
  green : α
  yellow : α
  black : α
  white : α
  orange : α
  purple : α
  deriving DecidableEq

/-- Read a color's entry. -/
def ColorMap.get {α : Type} (m : ColorMap α) : MarbleColor → α
  | .red => m.red
  | .blue => m.blue
  | .green => m.green
  | .yellow => m.yellow
  | .black => m.black
  | .white => m.white
  | .orange => m.orange
  | .purple => m.purple

/-- Write a color's entry. -/
def ColorMap.set {α : Type} (m : ColorMap α) : MarbleColor → α → ColorMap α
  | .red, v => { m with red := v }
  | .blue, v => { m with blue := v }
  | .green, v => { m with green := v }
  | .yellow, v => { m with yellow := v }
  | .black, v => { m with black := v }
  | .white, v => { m with white := v }
  | .orange, v => { m with orange := v }
  | .purple, v => { m with purple := v }

/-- A constant color map. -/
def ColorMap.const {α : Type} (v : α) : ColorMap α :=
  ⟨v, v, v, v, v, v, v, v⟩

/-- 2D position; only ever used to derive edge lengths. -/
structure Position where
  x : Rat
  y : Rat
  deriving DecidableEq

/-- Periodically spawns marbles onto its outgoing edge. -/
structure SourceNode where
  id : String
  position : Position
  spawnRate : Rat
  spawnCooldown : Int
  marbleColor : MarbleColor
  deriving DecidableEq

/-- Terminal node — absorbs marbles and counts them. -/
structure SinkNode where
  id : String
  position : Position
  consumed : Nat
  deriving DecidableEq

/-- Routes each arriving marble to one of two output edges via the PRNG. -/
structure SplitterNode where
  id : String
  position : Position
  ratio : Rat
  deriving DecidableEq

/-- An entry of an elevator's queue. -/
structure ElevatorItem where
  marbleId : String
  ticksRemaining : Int
  color : MarbleColor
  deriving DecidableEq

/-- Queues marbles and releases them after a delay. -/
structure ElevatorNode where
  id : String
  position : Position
  delay : Int
  queue : List ElevatorItem
  deriving DecidableEq

/-- A passive track segment. -/
structure RampNode where
  id : String
  position : Position
  deriving DecidableEq

/-- Gate conditions — discriminated union on `kind`. -/
inductive GateCondition where
  | marbleCount (threshold : Nat) (arrivedCount : Nat)
  | tickInterval (period : Nat)
  | manual
  deriving DecidableEq

/-- Marble ID + color pair stored by nodes holding marbles temporarily. -/
structure HeldMarble where
  id : String
  color : MarbleColor
  deriving DecidableEq

/-- Conditional pass/block. -/
structure GateNode where
  id : String
  position : Position
  condition : GateCondition
  isOpen : Bool
  heldMarbles : List HeldMarble
  deriving DecidableEq

/-- Bucket release modes. -/
inductive BucketReleaseMode where
  | all | overflow
  deriving DecidableEq

/-- Fill-based container. -/
structure BucketNode where
  id : String
  position : Position
  capacity : Nat
  currentFill : Nat
  releaseMode : BucketReleaseMode
  deriving DecidableEq

/-- Basin extraction modes. -/
inductive BasinExtractionMode where
  | active | passive
  deriving DecidableEq

/-- Large container holding colored marbles with extraction. -/
structure BasinNode where
  id : String
  position : Position
  contents : ColorMap Nat
  extractionMode : BasinExtractionMode
  extractRate : Int
  extractCooldown : Int
  extractColor : Option MarbleColor
  deriving DecidableEq

/-- Routes marbles by color through a static color→handle map. -/
structure ColorSplitterNode where
  id : String
  position : Position
  outputMap : ColorMap String
  deriving DecidableEq

/-- Controller-triggered FIFO buffer. -/
structure SignalBufferNode where
  id : String
  position : Position
  heldMarbles : List HeldMarble
  releaseCount : Nat
  maxCapacity : Nat
  deriving DecidableEq

/-- Canvas fill orders. -/
inductive FillPattern where
  | leftToRight | sShaped | topToBottom | spiral
  deriving DecidableEq

/-- 2D pixel-grid output. -/
structure CanvasNode where
  id : String
  position : Position
  width : Nat
  height : Nat
  fillPattern : FillPattern
  grid : List (List (Option MarbleColor))
  cursor : Nat
  deriving DecidableEq

/-- Discriminated union of all simulation node types. -/
inductive SimNode where
  | source (d : SourceNode)
  | sink (d : SinkNode)
  | splitter (d : SplitterNode)
  | elevator (d : ElevatorNode)
  | ramp (d : RampNode)
  | gate (d : GateNode)
  | bucket (d : BucketNode)
  | basin (d : BasinNode)
  | colorSplitter (d : ColorSplitterNode)
  | signalBuffer (d : SignalBufferNode)
  | canvas (d : CanvasNode)
  deriving DecidableEq

/-- The shared `id` field. -/
def SimNode.id : SimNode → String
  | .source d => d.id
  | .sink d => d.id
  | .splitter d => d.id
  | .elevator d => d.id
  | .ramp d => d.id
  | .gate d => d.id
  | .bucket d => d.id
  | .basin d => d.id
  | .colorSplitter d => d.id
  | .signalBuffer d => d.id
  | .canvas d => d.id

/-- Whether this node kind needs per-tick evaluation (`PERIODIC_TYPES`). -/
def SimNode.isPeriodicType : SimNode → Bool
  | .gate _ => true
  | .basin _ => true
  | .signalBuffer _ => true
  | _ => false

/-- Whether this node is a source. -/
def SimNode.isSource : SimNode → Bool
  | .source _ => true
  | _ => false

/-- A directed connection between two node handles. -/
structure SimEdge where
  id : String
  from_ : String
  fromHandle : String
  to_ : String
  toHandle : String
  length : Rat
  deriving DecidableEq

/-- A marble lives on an edge with a progress value in `[0, 1]`. -/
structure Marble where
  id : String
  edgeId : String
  progress : Rat
  speed : Rat
  color : MarbleColor
  deriving DecidableEq

/-- Indexed graph structure: node map, edge map, adjacency index. -/
structure SimGraph where
  nodes : List (String × SimNode)
  edges : List (String × SimEdge)
  adjacency : List (String × List String)
  deriving DecidableEq

/-- Target image for the canvas module. -/
structure PixelImage where
  width : Nat
  height : Nat
  palette : List MarbleColor
  pixels : List (List MarbleColor)
  deriving DecidableEq

/-- Top-level simulation state. -/
structure SimState where
  graph : SimGraph
  marbles : List Marble
  tickCount : Nat
  rng : SeededRNG
  targetImage : Option PixelImage
  controllerCode : String
  controllerError : Option String
  deriving DecidableEq

/-- Validation result: success, or failure with human-readable messages. -/
inductive ValidationResult where
  | valid
  | invalid (errors : List String)
  deriving DecidableEq

-- ---------------------------------------------------------------------------
-- Canvas fill patterns (src/simulation/canvas-fill.ts)
-- ---------------------------------------------------------------------------

/-- One pass of the spiral walk.  Each original `for` scan is embedded by
the equivalent arithmetic: the scan of a row/column segment returns the
requested cell when `index` falls inside the segment and otherwise advances
`count` past it.  The `while` loop runs on fuel; each pass strictly
increases `top` and decreases `right`, so `width + height + 1` passes
always suffice. -/
def spiralLoop (index : Int) :
    Nat → Int → Int → Int → Int → Int → Nat × Nat
  | 0, _, _, _, _, _ => (0, 0)
  | fuel + 1, top, bottom, left, right, count =>
    if top ≤ bottom ∧ left ≤ right then
      -- top row, left → right
      if count ≤ index ∧ index ≤ count + (right - left) then
        (top.toNat, (left + (index - count)).toNat)
      else
        let count := count + (right - left + 1)
        let top := top + 1
        -- right column, top → bottom
        if count ≤ index ∧ index ≤ count + (bottom - top) then
          ((top + (index - count)).toNat, right.toNat)
        else
          let count := count + (bottom - top + 1)
          let right := right - 1
          -- bottom row, right → left (only when rows remain)
          if top ≤ bottom ∧ count ≤ index ∧ index ≤ count + (right - left) then
            (bottom.toNat, (right - (index - count)).toNat)
          else
            let count := if top ≤ bottom then count + (right - left + 1) else count
            let bottom := if top ≤ bottom then bottom - 1 else bottom
            -- left column, bottom → top (only when columns remain)
            if left ≤ right ∧ count ≤ index ∧ index ≤ count + (bottom - top) then
              ((bottom - (index - count)).toNat, left.toNat)
            else
              let count := if left ≤ right then count + (bottom - top + 1) else count
              let left := if left ≤ right then left + 1 else left
              spiralLoop index fuel top bottom left right count
    else
      (0, 0)

/-- `spiralPosition`: spiral-inward cell for a linear index. -/
def spiralPosition (index : Nat) (width height : Nat) : Nat × Nat :=
  spiralLoop (index : Int) (width + height + 1) 0 ((height : Int) - 1) 0
    ((width : Int) - 1) 0

/-- `cursorToGridPosition`: map a linear cursor index to a `(row, col)`
grid position for a fill pattern. -/
def cursorToGridPosition (cursor : Nat) (width height : Nat)
    (pattern : FillPattern) : Nat × Nat :=
  match pattern with
  | .leftToRight => (cursor / width, cursor % width)
  | .sShaped =>
      let row := cursor / width
      let colInRow := cursor % width
      let col := if row % 2 = 0 then colInRow else width - 1 - colInRow
      (row, col)
  | .topToBottom => (cursor % height, cursor / height)
  | .spiral => spiralPosition cursor width height

/-- `createEmptyGrid`: a `height × width` grid of empty cells. -/
def createEmptyGrid (width height : Nat) : List (List (Option MarbleColor)) :=
  List.replicate height (List.replicate width none)

-- ---------------------------------------------------------------------------
-- Node behavior registry (src/simulation/behaviors.ts)
-- ---------------------------------------------------------------------------

/-- `generateMarbleId`: deterministic marble ID from tick count, node ID and
current marble array length. -/
def generateMarbleId (s : SimState) (nodeId : String) : String :=
  "m-" ++ toString s.tickCount ++ "-" ++ nodeId ++ "-" ++ toString s.marbles.length

/-- `getOutgoingEdges`: resolve a node's adjacency list against the edge
map, dropping unresolvable edge ids. -/
def getOutgoingEdges (s : SimState) (nodeId : String) : List SimEdge :=
  ((mget s.graph.adjacency nodeId).getD []).filterMap
    (fun eid => mget s.graph.edges eid)

/-- `spawnMarbleOnEdge`: push a fresh marble at progress 0 onto an edge
(the color parameter defaults to white at the call sites that omit it). -/
def spawnMarbleOnEdge (s : SimState) (edgeId : String) (nodeId : String)
    (color : MarbleColor) : SimState :=
  { s with marbles := s.marbles ++
      [{ id := generateMarbleId s nodeId, edgeId := edgeId, progress := 0,
         speed := DEFAULT_MARBLE_SPEED, color := color }] }

/-- Replace a node's entry in the node map. -/
def setNode (s : SimState) (nodeId : String) (n : SimNode) : SimState :=
  { s with graph := { s.graph with nodes := mset s.graph.nodes nodeId n } }

/-- Remove a marble from the live list (`indexOf` + `splice`). -/
def removeMarble (s : SimState) (m : Marble) : SimState :=
  { s with marbles := eraseFirst s.marbles m }

/-- Mutate a marble in place: reroute it onto an edge at progress 0. -/
def rerouteMarble (s : SimState) (m : Marble) (edgeId : String) : SimState :=
  { s with marbles :=
      replaceFirst s.marbles m { m with edgeId := edgeId, progress := 0 } }

/-- Push an already-identified marble (a released held marble) onto an edge
at progress 0 with the default speed. -/
def pushHeldMarble (s : SimState) (edgeId : String) (h : HeldMarble) : SimState :=
  { s with marbles := s.marbles ++
      [{ id := h.id, edgeId := edgeId, progress := 0,
         speed := DEFAULT_MARBLE_SPEED, color := h.color }] }

/-- `handleSource`.  The JavaScript handler holds one mutable reference to
its node for the whole call; each mutation of that reference is embedded by
re-reading the node's current map entry and writing the updated value back. -/
def handleSource (s : SimState) (node : SourceNode) (arrivals : List Marble) :
    SimState :=
  match getOutgoingEdges s node.id with
  | [] => s
  | e0 :: _ =>
    match mget s.graph.nodes node.id with
    | some (.source m) =>
        let m1 := { m with spawnCooldown := m.spawnCooldown - 1 }
        let s1 := setNode s node.id (.source m1)
        let s2 :=
          if m1.spawnCooldown ≤ 0 then
            let sA := spawnMarbleOnEdge s1 e0.id node.id m1.marbleColor
            setNode sA node.id
              (.source { m1 with
                spawnCooldown := jsRound (60 / m1.spawnRate) })
          else s1
        arrivals.foldl (fun st mb => rerouteMarble st mb e0.id) s2
    | _ => s

/-- `handleSink`. -/
def handleSink (s : SimState) (node : SinkNode) (arrivals : List Marble) :
    SimState :=
  match mget s.graph.nodes node.id with
  | some (.sink _) =>
      arrivals.foldl
        (fun st mb =>
          let st1 :=
            match mget st.graph.nodes node.id with
            | some (.sink mm) =>
                setNode st node.id (.sink { mm with consumed := mm.consumed + 1 })
            | _ => st
          removeMarble st1 mb)
        s
  | _ => s

/-- `handleSplitter`. -/
def handleSplitter (s : SimState) (node : SplitterNode)
    (arrivals : List Marble) : SimState :=
  let edges := getOutgoingEdges s node.id
  match edges with
  | e0 :: e1 :: _ =>
      arrivals.foldl
        (fun st mb =>
          let fn := nextFloat st.rng
          let st1 := { st with rng := fn.2 }
          let chosenEdge := if fn.1 < node.ratio then e0 else e1
          rerouteMarble st1 mb chosenEdge.id)
        s
  | [e0] => arrivals.foldl (fun st mb => rerouteMarble st mb e0.id) s
  | [] => s

/-- `handleElevator`. -/
def handleElevator (s : SimState) (node : ElevatorNode)
    (arrivals : List Marble) : SimState :=
  match mget s.graph.nodes node.id with
  | some (.elevator _) =>
      let edges := getOutgoingEdges s node.id
      -- enqueue arrivals
      let sA := arrivals.foldl
        (fun st mb =>
          let st1 := removeMarble st mb
          match mget st1.graph.nodes node.id with
          | some (.elevator mm) =>
              setNode st1 node.id
                (.elevator { mm with queue := mm.queue ++
                  [{ marbleId := mb.id, ticksRemaining := mm.delay,
                     color := mb.color }] })
          | _ => st1)
        s
      -- decrement countdowns, collect and drop released items
      match mget sA.graph.nodes node.id with
      | some (.elevator mB) =>
          let q1 := mB.queue.map
            (fun it => { it with ticksRemaining := it.ticksRemaining - 1 })
          let released := q1.filter (fun it => it.ticksRemaining ≤ 0)
          let sB := setNode sA node.id
            (.elevator { mB with queue := q1.filter (fun it => 0 < it.ticksRemaining) })
          match edges with
          | e0 :: _ =>
              released.foldl
                (fun st it =>
                  pushHeldMarble st e0.id { id := it.marbleId, color := it.color })
                sB
          | [] => sB
      | _ => sA
  | _ => s

/-- `handleRamp`. -/
def handleRamp (s : SimState) (node : RampNode) (arrivals : List Marble) :
    SimState :=
  match getOutgoingEdges s node.id with
  | e0 :: _ => arrivals.foldl (fun st mb => rerouteMarble st mb e0.id) s
  | [] => s

/-- The square-wave openness of a tick-interval gate
(`tickCount % period < period / 2`; a zero period yields `NaN < …`, which
is false). -/
def gateOpenAt (tickCount : Nat) (period : Nat) : Bool :=
  if period = 0 then false
  else decide (((tickCount % period : Nat) : Rat) < (period : Rat) / 2)

/-- `handleGate`. -/
def handleGate (s : SimState) (node : GateNode) (arrivals : List Marble) :
    SimState :=
  match mget s.graph.nodes node.id with
  | some (.gate m) =>
      let edges := getOutgoingEdges s node.id
      -- condition switch
      let s1 :=
        match m.condition with
        | .tickInterval period =>
            setNode s node.id
              (.gate { m with isOpen := gateOpenAt s.tickCount period })
        | .marbleCount threshold arrivedCount =>
            let newCount := arrivedCount + arrivals.length
            if threshold ≤ newCount then
              setNode s node.id
                (.gate { m with
                  isOpen := true
                  condition := .marbleCount threshold 0 })
            else
              setNode s node.id
                (.gate { m with condition := .marbleCount threshold newCount })
        | .manual => s
      -- absorb arrivals into the held FIFO
      let s2 := arrivals.foldl
        (fun st mb =>
          let st1 := removeMarble st mb
          match mget st1.graph.nodes node.id with
          | some (.gate mm) =>
              setNode st1 node.id
                (.gate { mm with heldMarbles := mm.heldMarbles ++
                  [{ id := mb.id, color := mb.color }] })
          | _ => st1)
        s1
      -- release the whole FIFO while open
      match mget s2.graph.nodes node.id with
      | some (.gate mC) =>
          match edges with
          | e0 :: _ =>
              if mC.isOpen then
                let s3 := mC.heldMarbles.foldl
                  (fun st h => pushHeldMarble st e0.id h) s2
                let closed :=
                  match m.condition with
                  | .marbleCount _ _ => false
                  | _ => mC.isOpen
                setNode s3 node.id
                  (.gate { mC with heldMarbles := [], isOpen := closed })
              else s2
          | [] => s2
      | _ => s2
  | _ => s

/-- `handleBucket`. -/
def handleBucket (s : SimState) (node : BucketNode) (arrivals : List Marble) :
    SimState :=
  match mget s.graph.nodes node.id with
  | some (.bucket _) =>
      let edges := getOutgoingEdges s node.id
      let sA := arrivals.foldl
        (fun st mb =>
          let st1 := removeMarble st mb
          match mget st1.graph.nodes node.id with
          | some (.bucket mm) =>
              setNode st1 node.id
                (.bucket { mm with currentFill := mm.currentFill + 1 })
          | _ => st1)
        s
      match mget sA.graph.nodes node.id with
      | some (.bucket mB) =>
          match edges with
          | e0 :: _ =>
              if mB.capacity ≤ mB.currentFill then
                match mB.releaseMode with
                | .all =>
                    let s1 := (List.range mB.capacity).foldl
                      (fun st _ => spawnMarbleOnEdge st e0.id node.id .white) sA
                    setNode s1 node.id (.bucket { mB with currentFill := 0 })
                | .overflow =>
                    let excess := mB.currentFill - mB.capacity
                    let s1 := (List.range excess).foldl
                      (fun st _ => spawnMarbleOnEdge st e0.id node.id .white) sA
                    setNode s1 node.id
                      (.bucket { mB with currentFill := mB.capacity })
              else sA
          | [] => sA
      | _ => sA
  | _ => s

/-- The `colorToExtract` computation of the basin handler: the target
color when it is set and available; with no target set, the first available
color of the palette (`Object.entries` iterates the record's keys in
insertion order, and every basin contents record in the program is created
over the whole palette in `MARBLE_COLORS` order); otherwise nothing. -/
def basinPick (contents : ColorMap Nat) (target : Option MarbleColor) :
    Option MarbleColor :=
  match target with
  | some c => if 0 < contents.get c then some c else none
  | none => MARBLE_COLORS.find? (fun c => 0 < contents.get c)

/-- `handleBasin`. -/
def handleBasin (s : SimState) (node : BasinNode) (arrivals : List Marble) :
    SimState :=
  match mget s.graph.nodes node.id with
  | some (.basin _) =>
      let edges := getOutgoingEdges s node.id
      -- absorb arriving marbles into contents
      let sA := arrivals.foldl
        (fun st mb =>
          let st1 := removeMarble st mb
          match mget st1.graph.nodes node.id with
          | some (.basin mm) =>
              setNode st1 node.id
                (.basin { mm with
                  contents := mm.contents.set mb.color (mm.contents.get mb.color + 1) })
          | _ => st1)
        s
      match edges with
      | [] => sA
      | e0 :: _ =>
          match mget sA.graph.nodes node.id with
          | some (.basin mB) =>
              let cd := mB.extractCooldown - 1
              if cd ≤ 0 then
                let mB1 := { mB with extractCooldown := mB.extractRate }
                match basinPick mB1.contents mB1.extractColor with
                | some c =>
                    let s1 := setNode sA node.id
                      (.basin { mB1 with
                        contents := mB1.contents.set c (mB1.contents.get c - 1) })
                    spawnMarbleOnEdge s1 e0.id node.id c
                | none => setNode sA node.id (.basin mB1)
              else setNode sA node.id (.basin { mB with extractCooldown := cd })
          | _ => sA
  | _ => s

/-- `handleColorSplitter`.  An empty-string handle id is falsy in
JavaScript, so it never reaches the map lookup. -/
def handleColorSplitter (s : SimState) (node : ColorSplitterNode)
    (arrivals : List Marble) : SimState :=
  let edges := getOutgoingEdges s node.id
  let edgeByHandle := edges.foldl (fun m e => mset m e.fromHandle e) []
  arrivals.foldl
    (fun st mb =>
      let handleId := node.outputMap.get mb.color
      let targetEdge := if handleId = "" then none else mget edgeByHandle handleId
      match targetEdge with
      | some te => rerouteMarble st mb te.id
      | none => removeMarble st mb)
    s

/-- `handleSignalBuffer`. -/
def handleSignalBuffer (s : SimState) (node : SignalBufferNode)
    (arrivals : List Marble) : SimState :=
  match mget s.graph.nodes node.id with
  | some (.signalBuffer _) =>
      let edges := getOutgoingEdges s node.id
      let sA := arrivals.foldl
        (fun st mb =>
          let st1 := removeMarble st mb
          match mget st1.graph.nodes node.id with
          | some (.signalBuffer mm) =>
              if mm.heldMarbles.length < mm.maxCapacity then
                setNode st1 node.id
                  (.signalBuffer { mm with heldMarbles := mm.heldMarbles ++
                    [{ id := mb.id, color := mb.color }] })
              else st1
          | _ => st1)
        s
      match mget sA.graph.nodes node.id with
      | some (.signalBuffer mB) =>
          match edges with
          | e0 :: _ =>
              if 0 < mB.releaseCount then
                let toRelease := min mB.releaseCount mB.heldMarbles.length
                let released := mB.heldMarbles.take toRelease
                let sB := setNode sA node.id
                  (.signalBuffer { mB with
                    heldMarbles := mB.heldMarbles.drop toRelease
                    releaseCount := 0 })
                released.foldl (fun st h => pushHeldMarble st e0.id h) sB
              else sA
          | [] => sA
      | _ => sA
  | _ => s

/-- Write one grid cell, guarded like `if (grid[row]) grid[row][col] = c`. -/
def setGridCell (grid : List (List (Option MarbleColor))) (row col : Nat)
    (c : MarbleColor) : List (List (Option MarbleColor)) :=
  match grid.get? row with
  | some rowList => grid.set row (rowList.set col (some c))
  | none => grid

/-- `handleCanvas`. -/
def handleCanvas (s : SimState) (node : CanvasNode) (arrivals : List Marble) :
    SimState :=
  match mget s.graph.nodes node.id with
  | some (.canvas m0) =>
      let totalCells := m0.width * m0.height
      arrivals.foldl
        (fun st mb =>
          let st1 := removeMarble st mb
          match mget st1.graph.nodes node.id with
          | some (.canvas mm) =>
              if totalCells ≤ mm.cursor then st1
              else
                let pos := cursorToGridPosition mm.cursor mm.width mm.height
                  mm.fillPattern
                setNode st1 node.id
                  (.canvas { mm with
                    grid := setGridCell mm.grid pos.1 pos.2 mb.color
                    cursor := mm.cursor + 1 })
          | _ => st1)
        s
  | _ => s

/-- The handler registry: dispatch by the node's type tag.  The `as`-casts
of `ctx.node` in the handlers become the typed payloads here. -/
def runHandler (s : SimState) (node : SimNode) (arrivals : List Marble) :
    SimState :=
  match node with
  | .source d => handleSource s d arrivals
  | .sink d => handleSink s d arrivals
  | .splitter d => handleSplitter s d arrivals
  | .elevator d => handleElevator s d arrivals
  | .ramp d => handleRamp s d arrivals
  | .gate d => handleGate s d arrivals
  | .bucket d => handleBucket s d arrivals
  | .basin d => handleBasin s d arrivals
  | .colorSplitter d => handleColorSplitter s d arrivals
  | .signalBuffer d => handleSignalBuffer s d arrivals
  | .canvas d => handleCanvas s d arrivals

-- ---------------------------------------------------------------------------
-- Controller execution (src/simulation/controller.ts)
-- ---------------------------------------------------------------------------

/-- The command surface of the controller API.  User controller code is
arbitrary script text; its only way of affecting the simulation is through
these three API methods, so a script's state effect is the ordered list of
commands it issues. -/
inductive ControllerCommand where
  | extractFromBasin (nodeId : String) (color : MarbleColor)
  | releaseBuffer (nodeId : String) (count : Rat)
  | setBasinExtractColor (nodeId : String) (color : Option MarbleColor)
  deriving DecidableEq

/-- Apply one controller API command to the (cloned) state. -/
def applyCommand (s : SimState) : ControllerCommand → SimState
  | .extractFromBasin nodeId color =>
      match mget s.graph.nodes nodeId with
      | some (.basin m) =>
          if 0 < m.contents.get color then
            setNode s nodeId
              (.basin { m with extractColor := some color, extractCooldown := 0 })
          else s
      | _ => s
  | .releaseBuffer nodeId count =>
      match mget s.graph.nodes nodeId with
      | some (.signalBuffer m) =>
          setNode s nodeId
            (.signalBuffer { m with releaseCount := (max 0 ⌊count⌋).toNat })
      | _ => s
  | .setBasinExtractColor nodeId color =>
      match mget s.graph.nodes nodeId with
      | some (.basin m) => setNode s nodeId (.basin { m with extractColor := color })
      | _ => s

/-- A controller script, abstracted to its observable effect: given the
read-only state view it returns the commands it issues and, when it throws,
the captured error message. -/
def ControllerScript : Type := SimState → List ControllerCommand × Option String

/-- `executeController`: run the user script's commands against the state
and record the captured error (or clear it on success). -/
def executeController (script : ControllerScript) (s : SimState) : SimState :=
  let outcome := script s
  let s1 := outcome.1.foldl applyCommand s
  { s1 with controllerError := outcome.2 }

-- ---------------------------------------------------------------------------
-- Tick engine (src/simulation/engine.ts)
-- ---------------------------------------------------------------------------

/-- Phase 1: every marble's progress increases by its own speed. -/
def advanceMarbles (s : SimState) : SimState :=
  let advanced := s.marbles.map (fun m => { m with progress := m.progress + m.speed })
  { s with marbles := advanced }

/-- The arrival grouping of phase 2: marbles with progress `≥ 1.0` whose
edge resolves, grouped by the edge's destination node in first-arrival
order (`arrivalsByNode`). -/
def arrivalGroups (s : SimState) : List (String × List Marble) :=
  s.marbles.foldl
    (fun groups m =>
      if m.progress < 1 then groups
      else
        match mget s.graph.edges m.edgeId with
        | none => groups
        | some edge =>
            match mget groups edge.to_ with
            | some existing => mset groups edge.to_ (existing ++ [m])
            | none => mset groups edge.to_ [m])
    []

/-- Phase 2: dispatch each node's arrivals to its registered handler and
record the processed node ids (the module-level `processedNodes` set,
cleared at the start of this phase and read by phase 5). -/
def processArrivals (s : SimState) : SimState × List String :=
  (arrivalGroups s).foldl
    (fun acc kv =>
      match mget acc.1.graph.nodes kv.1 with
      | none => acc
      | some node => (runHandler acc.1 node kv.2, acc.2 ++ [kv.1]))
    (s, [])

/-- `String.prototype.trim`: drop leading and trailing whitespace.  (The
built-in `String.trim` is implemented with substring auxiliaries that do
not reduce in the kernel, so the embedding spells it out over the
character list.) -/
def jsTrim (s : String) : String :=
  ⟨((s.data.dropWhile Char.isWhitespace).reverse.dropWhile
      Char.isWhitespace).reverse⟩

/-- Phase 3: run the controller when script text is attached. -/
def runController (script : ControllerScript) (s : SimState) : SimState :=
  if jsTrim s.controllerCode = "" then s else executeController script s

/-- Phase 4: source nodes spawn marbles on cooldown, skipping any source
with a fresh progress-0 marble on one of its outgoing edges, and skipping
the whole phase at the global marble ceiling.  The `Map.values()` iteration
reads each node's current value at its turn. -/
def spawnMarbles (s : SimState) : SimState :=
  if MAX_MARBLES ≤ s.marbles.length then s
  else
    (mkeys s.graph.nodes).foldl
      (fun st nid =>
        match mget st.graph.nodes nid with
        | some (.source d) =>
            let alreadyProcessed := st.marbles.any
              (fun m =>
                match mget st.graph.edges m.edgeId with
                | some edge => edge.from_ = d.id ∧ m.progress = 0
                | none => false)
            if alreadyProcessed then st else handleSource st d []
        | _ => st)
      s

/-- Phase 5: evaluate gate/basin/buffer nodes that were not already handled
in phase 2, with an empty arrival list. -/
def tickPeriodicNodes (s : SimState) (processed : List String) : SimState :=
  (mkeys s.graph.nodes).foldl
    (fun st nid =>
      match mget st.graph.nodes nid with
      | some node =>
          if node.isPeriodicType ∧ nid ∉ processed then runHandler st node []
          else st
      | none => st)
    s

/-- `tick`: advance the world by one tick.  The `structuredClone` of the
input becomes, in this pure embedding, the starting value that the five
phases transform; `tickOnHeap` below makes the clone-allocation explicit. -/
def tick (script : ControllerScript) (s : SimState) : SimState :=
  let next := { s with tickCount := s.tickCount + 1 }
  let next1 := advanceMarbles next
  let pa := processArrivals next1
  let next2 := runController script pa.1
  let next3 := spawnMarbles next2
  tickPeriodicNodes next3 pa.2

/-- `tick` iterated `n` times. -/
def tickN (script : ControllerScript) (n : Nat) (s : SimState) : SimState :=
  match n with
  | 0 => s
  | n + 1 => tick script (tickN script n s)

/-- The caller-visible heap discipline of `tick`: the caller passes a
reference to its state object; `tick` allocates a fresh deep copy
(`structuredClone`) and every subsequent phase mutates only that copy.
The heap is a list of live state objects addressed by index; `tickOnHeap`
reads the caller's cell, appends the fully-ticked clone as a new cell, and
returns the new cell's address. -/
def tickOnHeap (script : ControllerScript) (heap : List SimState) (a : Nat) :
    Option (List SimState × Nat) :=
  match heap.get? a with
  | none => none
  | some s => some (heap ++ [tick script s], heap.length)

-- ---------------------------------------------------------------------------
-- Graph construction, validation, and immutable mutation (src/simulation/graph.ts)
-- ---------------------------------------------------------------------------

/-- `Map.delete`. -/
def mdelete {β : Type} (m : List (String × β)) (key : String) :
    List (String × β) :=
  m.filter (fun kv => kv.1 ≠ key)

/-- The shared `position` field. -/
def SimNode.position : SimNode → Position
  | .source d => d.position
  | .sink d => d.position
  | .splitter d => d.position
  | .elevator d => d.position
  | .ramp d => d.position
  | .gate d => d.position
  | .bucket d => d.position
  | .basin d => d.position
  | .colorSplitter d => d.position
  | .signalBuffer d => d.position
  | .canvas d => d.position

/-- `createEmptyGraph`. -/
def createEmptyGraph : SimGraph := { nodes := [], edges := [], adjacency := [] }

/-- `buildSimGraph`: index raw node/edge arrays into a `SimGraph` with the
adjacency map initialized per node and filled per edge. -/
def buildSimGraph (nodes : List SimNode) (edges : List SimEdge) : SimGraph :=
  let nodeMap := nodes.foldl (fun m n => mset m n.id n) []
  let adjacency0 := nodes.foldl (fun m n => mset m n.id []) []
  let indexed := edges.foldl
    (fun (acc : List (String × SimEdge) × List (String × List String)) e =>
      let edgeMap := mset acc.1 e.id e
      match mget acc.2 e.from_ with
      | some list => (edgeMap, mset acc.2 e.from_ (list ++ [e.id]))
      | none => (edgeMap, acc.2))
    ([], adjacency0)
  { nodes := nodeMap, edges := indexed.1, adjacency := indexed.2 }

/-- In-degree initialization of `validateDAG`: zero per node, then one
increment per edge target. -/
def initInDegree (g : SimGraph) : List (String × Int) :=
  let d0 := g.nodes.foldl (fun m kv => mset m kv.1 0) []
  g.edges.foldl
    (fun m kv => mset m kv.2.to_ (((mget m kv.2.to_).getD 0) + 1)) d0

/-- Process the outgoing edge list of one dequeued node: decrement each
resolvable target's in-degree and enqueue targets that reach exactly zero.
Returns the updated in-degree map and the enqueued node ids. -/
def kahnVisit (g : SimGraph) (outgoing : List String)
    (deg : List (String × Int)) : List (String × Int) × List String :=
  outgoing.foldl
    (fun acc eid =>
      match mget g.edges eid with
      | none => acc
      | some edge =>
          let newDegree := ((mget acc.1 edge.to_).getD 1) - 1
          let deg1 := mset acc.1 edge.to_ newDegree
          if newDegree = 0 then (deg1, acc.2 ++ [edge.to_])
          else (deg1, acc.2))
    (deg, [])

/-- The `while (queue.length > 0)` loop of `validateDAG`, on fuel.  Each
iteration dequeues one node; every node id enters the queue at most once,
so `|nodes| + |edges| + 1` iterations always suffice. -/
def kahnLoop (g : SimGraph) :
    Nat → List String → List (String × Int) → Nat → Nat × List (String × Int)
  | 0, _, deg, visited => (visited, deg)
  | _ + 1, [], deg, visited => (visited, deg)
  | fuel + 1, current :: rest, deg, visited =>
      let step := kahnVisit g ((mget g.adjacency current).getD []) deg
      kahnLoop g fuel (rest ++ step.2) step.1 (visited + 1)

/-- The failure message of `validateDAG`. -/
def cycleMessage (cycleNodes : List String) : String :=
  "Cycle detected involving nodes: " ++ String.intercalate ", " cycleNodes

/-- `validateDAG`: Kahn's algorithm — success iff every node is visited;
otherwise the nodes whose in-degree stayed positive are reported. -/
def validateDAG (g : SimGraph) : ValidationResult :=
  let inDegree := initInDegree g
  let queue := (inDegree.filter (fun kv => kv.2 = 0)).map Prod.fst
  let result := kahnLoop g (g.nodes.length + g.edges.length + 1) queue inDegree 0
  if result.1 = g.nodes.length then .valid
  else
    let cycleNodes := (result.2.filter (fun kv => 0 < kv.2)).map Prod.fst
    .invalid [cycleMessage cycleNodes]

/-- `computeEdgeLengths`: recompute each edge's length from its endpoints'
positions, keeping the stored length when an endpoint is missing.  The
Euclidean `distance` uses floating-point square roots, which have no exact
rational embedding; since no property proved here depends on the numeric
length values, the metric is a parameter. -/
def computeEdgeLengths (dist : Position → Position → Rat) (g : SimGraph) :
    SimGraph :=
  let newEdges := g.edges.foldl
    (fun m kv =>
      let e := kv.2
      let len :=
        match mget g.nodes e.from_, mget g.nodes e.to_ with
        | some fromNode, some toNode => dist fromNode.position toNode.position
        | _, _ => e.length
      mset m kv.1 { e with length := len })
    []
  { g with edges := newEdges }

/-- `addNode`: pure insertion with adjacency initialization. -/
def addNode (g : SimGraph) (node : SimNode) : SimGraph :=
  let nodes := mset g.nodes node.id node
  let adjacency :=
    if (mget g.adjacency node.id).isSome then g.adjacency
    else mset g.adjacency node.id []
  { g with nodes := nodes, adjacency := adjacency }

/-- `removeNode`: cascade-delete the node, its incident edges, and every
adjacency reference to them. -/
def removeNode (g : SimGraph) (nodeId : String) : SimGraph :=
  let nodes := mdelete g.nodes nodeId
  let doomed := fun (eid : String) =>
    match mget g.edges eid with
    | some e => e.from_ = nodeId || e.to_ = nodeId
    | none => false
  let edges := g.edges.filter
    (fun kv => !(kv.2.from_ = nodeId || kv.2.to_ = nodeId))
  let adjacency := (g.adjacency.filter (fun kv => kv.1 ≠ nodeId)).map
    (fun kv => (kv.1, kv.2.filter (fun eid => !doomed eid)))
  { nodes := nodes, edges := edges, adjacency := adjacency }

/-- Result of `addEdge`: the new graph, or the validation failure. -/
inductive AddEdgeResult where
  | graph (g : SimGraph)
  | validationFailed (errors : List String)
  deriving DecidableEq

/-- `addEdge`: build the candidate graph with the edge inserted, validate
it, and return the failure instead of a graph when validation fails. -/
def addEdge (g : SimGraph) (edge : SimEdge) : AddEdgeResult :=
  let edges := mset g.edges edge.id edge
  let list := ((mget g.adjacency edge.from_).getD []) ++ [edge.id]
  let adjacency := mset g.adjacency edge.from_ list
  let candidate : SimGraph := { g with edges := edges, adjacency := adjacency }
  match validateDAG candidate with
  | .valid => .graph candidate
  | .invalid errors => .validationFailed errors

/-- `removeEdge`: a no-op when the edge id does not exist. -/
def removeEdge (g : SimGraph) (edgeId : String) : SimGraph :=
  match mget g.edges edgeId with
  | none => g
  | some edge =>
      let edges := mdelete g.edges edgeId
      let adjacency :=
        match mget g.adjacency edge.from_ with
        | some list =>
            mset g.adjacency edge.from_ (list.filter (fun eid => eid ≠ edgeId))
        | none => g.adjacency
      { g with edges := edges, adjacency := adjacency }

-- ---------------------------------------------------------------------------
-- Serialization (src/simulation/persistence.ts, schemas.ts)
-- ---------------------------------------------------------------------------

/-- Parsed JSON values (the output of `JSON.parse`). -/
inductive Json where
  | null
  | bool (b : Bool)
  | num (q : Rat)
  | str (s : String)
  | arr (elems : List Json)
  | obj (fields : List (String × Json))

/-- Read an object field.  `z.object` parses in strip mode: required keys
are read and validated, unknown keys are ignored. -/
def Json.getField : Json → String → Option Json
  | .obj fields, key => mget fields key
  | _, _ => none

/-- `z.string()`. -/
def decodeString : Json → Option String
  | .str s => some s
  | _ => none

/-- `z.boolean()`. -/
def decodeBool : Json → Option Bool
  | .bool b => some b
  | _ => none

/-- `z.number()`. -/
def decodeNumber : Json → Option Rat
  | .num q => some q
  | _ => none

/-- `z.number().positive()`. -/
def decodeNumPos : Json → Option Rat
  | .num q => if 0 < q then some q else none
  | _ => none

/-- `z.number().nonnegative()`. -/
def decodeNumNonneg : Json → Option Rat
  | .num q => if 0 ≤ q then some q else none
  | _ => none

/-- `z.number().min(0).max(1)`. -/
def decodeRatio : Json → Option Rat
  | .num q => if 0 ≤ q ∧ q ≤ 1 then some q else none
  | _ => none

/-- `z.number().int().nonnegative()`, kept as `Int`. -/
def decodeIntNonneg : Json → Option Int
  | .num q => if q.den = 1 ∧ 0 ≤ q.num then some q.num else none
  | _ => none

/-- `z.number().int().positive()`, kept as `Int`. -/
def decodeIntPos : Json → Option Int
  | .num q => if q.den = 1 ∧ 0 < q.num then some q.num else none
  | _ => none

/-- `z.number().int().nonnegative()`, as `Nat`. -/
def decodeNatNonneg : Json → Option Nat
  | .num q => if q.den = 1 ∧ 0 ≤ q.num then some q.num.toNat else none
  | _ => none

/-- `z.number().int().positive()`, as `Nat`. -/
def decodeNatPos : Json → Option Nat
  | .num q => if q.den = 1 ∧ 0 < q.num then some q.num.toNat else none
  | _ => none

/-- The serialized name of a marble color. -/
def colorKey : MarbleColor → String
  | .red => "red"
  | .blue => "blue"
  | .green => "green"
  | .yellow => "yellow"
  | .black => "black"
  | .white => "white"
  | .orange => "orange"
  | .purple => "purple"

/-- `z.enum(MARBLE_COLORS)`. -/
def decodeColor (j : Json) : Option MarbleColor :=
  match j with
  | .str s => MARBLE_COLORS.find? (fun c => colorKey c = s)
  | _ => none

/-- `MarbleColorSchema.nullable()`. -/
def decodeColorOrNull (j : Json) : Option (Option MarbleColor) :=
  match j with
  | .null => some none
  | _ => (decodeColor j).map some

/-- `PositionSchema`. -/
def decodePosition (j : Json) : Option Position := do
  let x ← j.getField "x" >>= decodeNumber
  let y ← j.getField "y" >>= decodeNumber
  pure { x := x, y := y }

/-- An enum-keyed `z.record` over the color palette: every palette key must
be present with a valid value. -/
def decodeColorMap {α : Type} (dec : Json → Option α) (j : Json) :
    Option (ColorMap α) := do
  let r ← j.getField "red" >>= dec
  let b ← j.getField "blue" >>= dec
  let g ← j.getField "green" >>= dec
  let y ← j.getField "yellow" >>= dec
  let k ← j.getField "black" >>= dec
  let w ← j.getField "white" >>= dec
  let o ← j.getField "orange" >>= dec
  let p ← j.getField "purple" >>= dec
  pure ⟨r, b, g, y, k, w, o, p⟩

/-- `HeldMarbleSchema`. -/
def decodeHeldMarble (j : Json) : Option HeldMarble := do
  let id ← j.getField "id" >>= decodeString
  let color ← j.getField "color" >>= decodeColor
  pure { id := id, color := color }

/-- `ElevatorQueueItemSchema`. -/
def decodeQueueItem (j : Json) : Option ElevatorItem := do
  let marbleId ← j.getField "marbleId" >>= decodeString
  let ticksRemaining ← j.getField "ticksRemaining" >>= decodeIntNonneg
  let color ← j.getField "color" >>= decodeColor
  pure { marbleId := marbleId, ticksRemaining := ticksRemaining, color := color }

/-- `z.array(schema)`. -/
def decodeArray {α : Type} (dec : Json → Option α) : Json → Option (List α)
  | .arr elems => elems.mapM dec
  | _ => none

/-- `GateConditionSchema` (discriminated union on `kind`). -/
def decodeCondition (j : Json) : Option GateCondition := do
  let kind ← j.getField "kind" >>= decodeString
  match kind with
  | "marbleCount" => do
      let threshold ← j.getField "threshold" >>= decodeNatPos
      let arrivedCount ← j.getField "arrivedCount" >>= decodeNatNonneg
      pure (.marbleCount threshold arrivedCount)
  | "tickInterval" => do
      let period ← j.getField "period" >>= decodeNatPos
      pure (.tickInterval period)
  | "manual" => pure .manual
  | _ => none

/-- `FillPatternSchema`. -/
def decodeFillPattern (j : Json) : Option FillPattern := do
  let s ← decodeString j
  match s with
  | "left-to-right" => pure .leftToRight
  | "s-shaped" => pure .sShaped
  | "top-to-bottom" => pure .topToBottom
  | "spiral" => pure .spiral
  | _ => none

/-- A grid cell (`MarbleColorSchema.nullable()`). -/
def decodeGrid (j : Json) : Option (List (List (Option MarbleColor))) :=
  decodeArray (decodeArray decodeColorOrNull) j

/-- `SimNodeSchema`: discriminated union on `type`, one object schema per
node kind, each validating exactly the kind's required fields. -/
def decodeNode (j : Json) : Option SimNode := do
  let t ← j.getField "type" >>= decodeString
  let id ← j.getField "id" >>= decodeString
  let position ← j.getField "position" >>= decodePosition
  match t with
  | "source" => do
      let spawnRate ← j.getField "spawnRate" >>= decodeNumPos
      let spawnCooldown ← j.getField "spawnCooldown" >>= decodeIntNonneg
      let marbleColor ← j.getField "marbleColor" >>= decodeColor
      pure (SimNode.source
        { id := id, position := position, spawnRate := spawnRate,
          spawnCooldown := spawnCooldown, marbleColor := marbleColor })
  | "sink" => do
      let consumed ← j.getField "consumed" >>= decodeNatNonneg
      pure (.sink { id := id, position := position, consumed := consumed })
  | "splitter" => do
      let ratio ← j.getField "ratio" >>= decodeRatio
      pure (.splitter { id := id, position := position, ratio := ratio })
  | "elevator" => do
      let delay ← j.getField "delay" >>= decodeIntPos
      let queue ← j.getField "queue" >>= decodeArray decodeQueueItem
      pure (SimNode.elevator
        { id := id, position := position, delay := delay, queue := queue })
  | "ramp" => pure (.ramp { id := id, position := position })
  | "gate" => do
      let condition ← j.getField "condition" >>= decodeCondition
      let isOpen ← j.getField "isOpen" >>= decodeBool
      let heldMarbles ← j.getField "heldMarbles" >>= decodeArray decodeHeldMarble
      pure (SimNode.gate
        { id := id, position := position, condition := condition,
          isOpen := isOpen, heldMarbles := heldMarbles })
  | "bucket" => do
      let capacity ← j.getField "capacity" >>= decodeNatPos
      let currentFill ← j.getField "currentFill" >>= decodeNatNonneg
      let releaseModeStr ← j.getField "releaseMode" >>= decodeString
      let releaseMode ←
        match releaseModeStr with
        | "all" => some BucketReleaseMode.all
        | "overflow" => some BucketReleaseMode.overflow
        | _ => none
      pure (SimNode.bucket
        { id := id, position := position, capacity := capacity,
          currentFill := currentFill, releaseMode := releaseMode })
  | "basin" => do
      let contents ← j.getField "contents" >>= decodeColorMap decodeNatNonneg
      let modeStr ← j.getField "extractionMode" >>= decodeString
      let extractionMode ←
        match modeStr with
        | "active" => some BasinExtractionMode.active
        | "passive" => some BasinExtractionMode.passive
        | _ => none
      let extractRate ← j.getField "extractRate" >>= decodeIntPos
      let extractCooldown ← j.getField "extractCooldown" >>= decodeIntNonneg
      let extractColor ← j.getField "extractColor" >>= decodeColorOrNull
      pure (SimNode.basin
        { id := id, position := position, contents := contents,
          extractionMode := extractionMode, extractRate := extractRate,
          extractCooldown := extractCooldown, extractColor := extractColor })
  | "colorSplitter" => do
      let outputMap ← j.getField "outputMap" >>= decodeColorMap decodeString
      pure (SimNode.colorSplitter
        { id := id, position := position, outputMap := outputMap })
  | "signalBuffer" => do
      let heldMarbles ← j.getField "heldMarbles" >>= decodeArray decodeHeldMarble
      let releaseCount ← j.getField "releaseCount" >>= decodeNatNonneg
      let maxCapacity ← j.getField "maxCapacity" >>= decodeNatPos
      pure (SimNode.signalBuffer
        { id := id, position := position, heldMarbles := heldMarbles,
          releaseCount := releaseCount, maxCapacity := maxCapacity })
  | "canvas" => do
      let width ← j.getField "width" >>= decodeNatPos
      let height ← j.getField "height" >>= decodeNatPos
      let fillPattern ← j.getField "fillPattern" >>= decodeFillPattern
      let grid ← j.getField "grid" >>= decodeGrid
      let cursor ← j.getField "cursor" >>= decodeNatNonneg
      pure (SimNode.canvas
        { id := id, position := position, width := width, height := height,
          fillPattern := fillPattern, grid := grid, cursor := cursor })
  | _ => none

/-- `SimEdgeSchema`. -/
def decodeEdge (j : Json) : Option SimEdge := do
  let id ← j.getField "id" >>= decodeString
  let from_ ← j.getField "from" >>= decodeString
  let fromHandle ← j.getField "fromHandle" >>= decodeString
  let to_ ← j.getField "to" >>= decodeString
  let toHandle ← j.getField "toHandle" >>= decodeString
  let length ← j.getField "length" >>= decodeNumNonneg
  pure
    { id := id, from_ := from_, fromHandle := fromHandle, to_ := to_,
      toHandle := toHandle, length := length }

/-- `SerializedGraphSchema`: `{ version: 1, nodes, edges }`. -/
def decodeGraphPayload (j : Json) : Option (List SimNode × List SimEdge) := do
  let versionJ ← j.getField "version"
  match versionJ with
  | .num q => if q = 1 then some () else none
  | _ => none
  let nodes ← j.getField "nodes" >>= decodeArray decodeNode
  let edges ← j.getField "edges" >>= decodeArray decodeEdge
  pure (nodes, edges)

-- Encoders: the JSON value produced by `JSON.stringify` of the payload.

/-- Encode a position. -/
def encodePosition (p : Position) : Json := .obj [("x", .num p.x), ("y", .num p.y)]

/-- Encode a color. -/
def encodeColor (c : MarbleColor) : Json := .str (colorKey c)

/-- Encode a complete color record in palette order. -/
def encodeColorMap {α : Type} (enc : α → Json) (m : ColorMap α) : Json :=
  .obj (MARBLE_COLORS.map (fun c => (colorKey c, enc (m.get c))))

/-- Encode a held marble. -/
def encodeHeldMarble (h : HeldMarble) : Json :=
  .obj [("id", .str h.id), ("color", encodeColor h.color)]

/-- Encode an elevator queue item. -/
def encodeQueueItem (it : ElevatorItem) : Json :=
  .obj [("marbleId", .str it.marbleId),
        ("ticksRemaining", .num (it.ticksRemaining : Rat)),
        ("color", encodeColor it.color)]

/-- Encode a gate condition. -/
def encodeCondition : GateCondition → Json
  | .marbleCount threshold arrivedCount =>
      .obj [("kind", .str "marbleCount"),
            ("threshold", .num (threshold : Rat)),
            ("arrivedCount", .num (arrivedCount : Rat))]
  | .tickInterval period =>
      .obj [("kind", .str "tickInterval"), ("period", .num (period : Rat))]
  | .manual => .obj [("kind", .str "manual")]

/-- Encode a fill pattern. -/
def encodeFillPattern : FillPattern → Json
  | .leftToRight => .str "left-to-right"
  | .sShaped => .str "s-shaped"
  | .topToBottom => .str "top-to-bottom"
  | .spiral => .str "spiral"

/-- Encode a grid. -/
def encodeGrid (grid : List (List (Option MarbleColor))) : Json :=
  .arr (grid.map (fun row => .arr (row.map
    (fun cell => match cell with
      | some c => encodeColor c
      | none => .null))))

/-- Encode a node with its kind's fields. -/
def encodeNode : SimNode → Json
  | .source d =>
      .obj [("id", .str d.id), ("type", .str "source"),
            ("position", encodePosition d.position),
            ("spawnRate", .num d.spawnRate),
            ("spawnCooldown", .num (d.spawnCooldown : Rat)),
            ("marbleColor", encodeColor d.marbleColor)]
  | .sink d =>
      .obj [("id", .str d.id), ("type", .str "sink"),
            ("position", encodePosition d.position),
            ("consumed", .num (d.consumed : Rat))]
  | .splitter d =>
      .obj [("id", .str d.id), ("type", .str "splitter"),
            ("position", encodePosition d.position),
            ("ratio", .num d.ratio)]
  | .elevator d =>
      .obj [("id", .str d.id), ("type", .str "elevator"),
            ("position", encodePosition d.position),
            ("delay", .num (d.delay : Rat)),
            ("queue", .arr (d.queue.map encodeQueueItem))]
  | .ramp d =>
      .obj [("id", .str d.id), ("type", .str "ramp"),
            ("position", encodePosition d.position)]
  | .gate d =>
      .obj [("id", .str d.id), ("type", .str "gate"),
            ("position", encodePosition d.position),
            ("condition", encodeCondition d.condition),
            ("isOpen", .bool d.isOpen),
            ("heldMarbles", .arr (d.heldMarbles.map encodeHeldMarble))]
  | .bucket d =>
      .obj [("id", .str d.id), ("type", .str "bucket"),
            ("position", encodePosition d.position),
            ("capacity", .num (d.capacity : Rat)),
            ("currentFill", .num (d.currentFill : Rat)),
            ("releaseMode", .str (match d.releaseMode with
              | .all => "all"
              | .overflow => "overflow"))]
  | .basin d =>
      .obj [("id", .str d.id), ("type", .str "basin"),
            ("position", encodePosition d.position),
            ("contents", encodeColorMap (fun (n : Nat) => Json.num (n : Rat)) d.contents),
            ("extractionMode", .str (match d.extractionMode with
              | .active => "active"
              | .passive => "passive")),
            ("extractRate", .num (d.extractRate : Rat)),
            ("extractCooldown", .num (d.extractCooldown : Rat)),
            ("extractColor", match d.extractColor with
              | some c => encodeColor c
              | none => .null)]
  | .colorSplitter d =>
      .obj [("id", .str d.id), ("type", .str "colorSplitter"),
            ("position", encodePosition d.position),
            ("outputMap", encodeColorMap Json.str d.outputMap)]
  | .signalBuffer d =>
      .obj [("id", .str d.id), ("type", .str "signalBuffer"),
            ("position", encodePosition d.position),
            ("heldMarbles", .arr (d.heldMarbles.map encodeHeldMarble)),
            ("releaseCount", .num (d.releaseCount : Rat)),
            ("maxCapacity", .num (d.maxCapacity : Rat))]
  | .canvas d =>
      .obj [("id", .str d.id), ("type", .str "canvas"),
            ("position", encodePosition d.position),
            ("width", .num (d.width : Rat)),
            ("height", .num (d.height : Rat)),
            ("fillPattern", encodeFillPattern d.fillPattern),
            ("grid", encodeGrid d.grid),
            ("cursor", .num (d.cursor : Rat))]

/-- Encode an edge. -/
def encodeEdge (e : SimEdge) : Json :=
  .obj [("id", .str e.id), ("from", .str e.from_),
        ("fromHandle", .str e.fromHandle), ("to", .str e.to_),
        ("toHandle", .str e.toHandle), ("length", .num e.length)]

/-- `serializeGraph`: the versioned payload value
`{ version: 1, nodes: [...], edges: [...] }`. -/
def serializeGraph (g : SimGraph) : Json :=
  .obj [("version", .num 1),
        ("nodes", .arr ((mvalues g.nodes).map encodeNode)),
        ("edges", .arr ((mvalues g.edges).map encodeEdge))]

/-- `DeserializeResult`. -/
inductive DeserializeResult where
  | ok (g : SimGraph)
  | error (msg : String)
  deriving DecidableEq

/-- `deserializeGraph`.  The input is the outcome of `JSON.parse`: a parse
exception (the `catch` branch) or a parsed value.  A schema failure rejects
the whole import; on success the graph is rebuilt with `buildSimGraph` and
its edge lengths recomputed. -/
def deserializeGraph (dist : Position → Position → Rat)
    (input : Except String Json) : DeserializeResult :=
  match input with
  | .error e => .error ("Invalid JSON: " ++ e)
  | .ok raw =>
      match decodeGraphPayload raw with
      | none => .error "Validation failed"
      | some payload =>
          .ok (computeEdgeLengths dist (buildSimGraph payload.1 payload.2))

-- ---------------------------------------------------------------------------
-- Specification-level predicates
-- ---------------------------------------------------------------------------

/-- The numeric constraints that the import schemas put on a node's fields
(fields modelled as `Nat` are constrained by their type). -/
def nodeSchemaOK : SimNode → Bool
  | .source d => 0 < d.spawnRate ∧ 0 ≤ d.spawnCooldown
  | .sink _ => true
  | .splitter d => 0 ≤ d.ratio ∧ d.ratio ≤ 1
  | .elevator d => 0 < d.delay ∧ d.queue.all (fun it => 0 ≤ it.ticksRemaining)
  | .ramp _ => true
  | .gate d =>
      match d.condition with
      | .marbleCount threshold _ => 0 < threshold
      | .tickInterval period => 0 < period
      | .manual => true
  | .bucket d => 0 < d.capacity
  | .basin d => 0 < d.extractRate ∧ 0 ≤ d.extractCooldown
  | .colorSplitter _ => true
  | .signalBuffer d => 0 < d.maxCapacity
  | .canvas d => 0 < d.width ∧ 0 < d.height

/-- The numeric constraint the import schema puts on an edge. -/
def edgeSchemaOK (e : SimEdge) : Bool := 0 ≤ e.length

/-- A graph is well keyed when re-indexing its own node and edge values
reproduces it exactly: maps are keyed by element ids without duplicates and
the adjacency index is the canonical one (the data-model invariant
"adjacency always equals the edge map's from-relationships"). -/
def WellKeyed (g : SimGraph) : Prop :=
  buildSimGraph (mvalues g.nodes) (mvalues g.edges) = g

instance : DecidablePred WellKeyed := fun g =>
  inferInstanceAs (Decidable (_ = _))

/-- Every edge's endpoints are present in the node map. -/
def EdgesClosed (g : SimGraph) : Prop :=
  ∀ e ∈ mvalues g.edges,
    (mget g.nodes e.from_).isSome ∧ (mget g.nodes e.to_).isSome

instance : DecidablePred EdgesClosed := fun g =>
  inferInstanceAs (Decidable (∀ _ ∈ _, _))

/-- One directed edge step between node ids. -/
def EdgeStep (g : SimGraph) (a b : String) : Prop :=
  ∃ e ∈ mvalues g.edges, e.from_ = a ∧ e.to_ = b

/-- A directed cycle: a nonempty edge path from some node back to itself. -/
def HasCycle (g : SimGraph) : Prop :=
  ∃ n, Relation.TransGen (EdgeStep g) n n

/-- Acyclicity. -/
def Acyclic (g : SimGraph) : Prop := ¬ HasCycle g

-- ---------------------------------------------------------------------------
-- Handler frame lemmas
-- ---------------------------------------------------------------------------

/-- The parts of a state no node handler may modify: the graph's edges and
adjacency, the step counter, the controller text, and the target image. -/
structure Frame where
  edges : List (String × SimEdge)
  adjacency : List (String × List String)
  tickCount : Nat
  controllerCode : String
  targetImage : Option PixelImage

/-- Project a state onto its handler-immutable parts. -/
def frameOf (s : SimState) : Frame :=
  ⟨s.graph.edges, s.graph.adjacency, s.tickCount, s.controllerCode,
   s.targetImage⟩

/-- The node map is keyed by the nodes' own ids. -/
def NodesKeyed (g : SimGraph) : Prop := ∀ kv ∈ g.nodes, (kv.2 : SimNode).id = kv.1

/-- The edge map is keyed by the edges' own ids. -/
def EdgesKeyed (g : SimGraph) : Prop := ∀ kv ∈ g.edges, (kv.2 : SimEdge).id = kv.1

instance (g : SimGraph) : Decidable (NodesKeyed g) :=
  show Decidable (∀ kv ∈ g.nodes, (kv.2 : SimNode).id = kv.1) from
    inferInstance

instance (g : SimGraph) : Decidable (EdgesKeyed g) :=
  show Decidable (∀ kv ∈ g.edges, (kv.2 : SimEdge).id = kv.1) from
    inferInstance

/-- What one invocation of a node handler (for the node with id `hid`,
arrival list `arr`, whose outgoing edge ids at entry are among `out0`)
does to the rest of the state: the frame is untouched, other nodes' map
entries are untouched, keyedness of the node map is kept, and any marble
predicate that rejects both the arrivals and every fresh progress-0 marble
on the handler's own outgoing edges selects the same marbles after as
before. -/
def Preserves (hid : String) (arr : List Marble) (out0 : List String)
    (s t : SimState) : Prop :=
  frameOf t = frameOf s ∧
  (∀ k, k ≠ hid → mget t.graph.nodes k = mget s.graph.nodes k) ∧
  (∀ k, k ≠ hid →
    countOf (mkeys t.graph.nodes) k = countOf (mkeys s.graph.nodes) k) ∧
  (NodesKeyed s.graph → NodesKeyed t.graph) ∧
  t.controllerError = s.controllerError ∧
  ∀ p : Marble → Bool, (∀ mb ∈ arr, p mb = false) →
    (∀ w : Marble, w.edgeId ∈ out0 → w.progress = 0 → p w = false) →
    t.marbles.filter p = s.marbles.filter p

/-- The outgoing edge ids of a node at a given state. -/
def outIds (s : SimState) (nid : String) : List String :=
  (getOutgoingEdges s nid).map SimEdge.id

/-- A demonstration source node. -/
def demoSource : SimNode :=
  SimNode.source
    { id := "s", position := ⟨0, 0⟩, spawnRate := 60,
      spawnCooldown := 1, marbleColor := .red }

/-- A demonstration sink node. -/
def demoSink : SimNode :=
  SimNode.sink { id := "k", position := ⟨100, 0⟩, consumed := 0 }

/-- A demonstration edge from the source to the sink. -/
def demoEdge : SimEdge :=
  { id := "e1", from_ := "s", fromHandle := "output", to_ := "k"
    toHandle := "input", length := 100 }

/-- A one-source, one-sink demonstration state. -/
def demoState : SimState :=
  { graph := buildSimGraph [demoSource, demoSink] [demoEdge]
    marbles := []
    tickCount := 0
    rng := createRng 42
    targetImage := none
    controllerCode := ""
    controllerError := none }

/-- A controller host that issues no commands. -/
def silentScript : ControllerScript := fun _ => ([], none)

/-- A controller host that issues commands and reports a failure. -/
def noisyScript : ControllerScript :=
  fun _ => ([.releaseBuffer "buf" 3, .setBasinExtractColor "bas" (some .red)],
    some "boom")

-- ---------------------------------------------------------------------------
-- Claim theorems: C6 (bucket), C5 (basin)
-- ---------------------------------------------------------------------------

/-- The marble list left after a handler has spliced out its arrivals. -/
def eraseAll (ms : List Marble) (arr : List Marble) : List Marble :=
  arr.foldl eraseFirst ms

/-- The marbles appended by `n` consecutive `spawnMarbleOnEdge` calls. -/
def spawnBatch (eid nid : String) (c : MarbleColor) (tc : Nat) (len : Nat)
    (n : Nat) : List Marble :=
  (List.range n).map (fun i =>
    { id := "m-" ++ toString tc ++ "-" ++ nid ++ "-" ++ toString (len + i),
      edgeId := eid, progress := 0, speed := DEFAULT_MARBLE_SPEED, color := c })

/-- A demonstration bucket in overflow mode with one outgoing edge. -/
def bucketDemoNode : BucketNode :=
  { id := "b", position := ⟨0, 0⟩, capacity := 2, currentFill := 1,
    releaseMode := .overflow }

/-- The demonstration bucket's outgoing edge. -/
def bucketDemoEdge : SimEdge :=
  { id := "eb", from_ := "b", fromHandle := "output", to_ := "k",
    toHandle := "input", length := 10 }

/-- A state holding the demonstration bucket. -/
def bucketDemoState : SimState :=
  { graph := buildSimGraph [.bucket bucketDemoNode] [bucketDemoEdge]
    marbles := [{ id := "x1", edgeId := "ein", progress := 1, speed := DEFAULT_MARBLE_SPEED,
                  color := .red },
                { id := "x2", edgeId := "ein", progress := 1, speed := DEFAULT_MARBLE_SPEED,
                  color := .blue }]
    tickCount := 7
    rng := createRng 1
    targetImage := none
    controllerCode := ""
    controllerError := none }

/-- The demonstration bucket's two arriving marbles. -/
def bucketDemoArr : List Marble :=
  [{ id := "x1", edgeId := "ein", progress := 1, speed := DEFAULT_MARBLE_SPEED, color := .red },
   { id := "x2", edgeId := "ein", progress := 1, speed := DEFAULT_MARBLE_SPEED, color := .blue }]

/-- An edgeless overflow bucket of capacity 1. -/
def cexBucketNode : BucketNode :=
  { id := "b", position := ⟨0, 0⟩, capacity := 1, currentFill := 0,
    releaseMode := .overflow }

/-- A state holding the edgeless bucket and its two incoming marbles. -/
def cexBucketState : SimState :=
  { graph := buildSimGraph [.bucket cexBucketNode] []
    marbles := [{ id := "x1", edgeId := "ein", progress := 1, speed := DEFAULT_MARBLE_SPEED,
                  color := .red },
                { id := "x2", edgeId := "ein", progress := 1, speed := DEFAULT_MARBLE_SPEED,
                  color := .blue }]
    tickCount := 7
    rng := createRng 1
    targetImage := none
    controllerCode := ""
    controllerError := none }

-- Basin (C5)

/-- The per-color counters left after absorbing an arrival list. -/
def absorbContents (cm : ColorMap Nat) (arr : List Marble) : ColorMap Nat :=
  arr.foldl (fun cm mb => cm.set mb.color (cm.get mb.color + 1)) cm

/-- A demonstration basin with no target color, two blue marbles stored and
its cooldown about to expire. -/
def demoBasinNode : BasinNode :=
  { id := "d", position := ⟨0, 0⟩, contents := ⟨0, 2, 0, 0, 0, 0, 0, 0⟩,
    extractionMode := .active, extractRate := 5, extractCooldown := 1,
    extractColor := none }

/-- The demonstration basin's outgoing edge. -/
def demoBasinEdge : SimEdge :=
  { id := "ed", from_ := "d", fromHandle := "output", to_ := "k",
    toHandle := "input", length := 10 }

/-- A green marble arriving at the demonstration basin. -/
def demoGreenMarble : Marble :=
  { id := "g1", edgeId := "ein", progress := 1, speed := DEFAULT_MARBLE_SPEED,
    color := .green }

/-- A state holding the demonstration basin and the arriving marble. -/
def demoBasinState : SimState :=
  { graph := buildSimGraph [.basin demoBasinNode] [demoBasinEdge]
    marbles := [demoGreenMarble]
    tickCount := 0
    rng := createRng 2
    targetImage := none
    controllerCode := ""
    controllerError := none }

/-- A basin whose target color red is out of stock while blue is available. -/
def cexBasinNode : BasinNode :=
  { id := "d", position := ⟨0, 0⟩, contents := ⟨0, 1, 0, 0, 0, 0, 0, 0⟩,
    extractionMode := .active, extractRate := 5, extractCooldown := 1,
    extractColor := some .red }

/-- A state holding the out-of-stock-target basin. -/
def cexBasinState : SimState :=
  { graph := buildSimGraph [.basin cexBasinNode]
      [{ id := "ed", from_ := "d", fromHandle := "output", to_ := "k",
         toHandle := "input", length := 10 }]
    marbles := []
    tickCount := 0
    rng := createRng 2
    targetImage := none
    controllerCode := ""
    controllerError := none }

-- ---------------------------------------------------------------------------
-- Shared infrastructure for the per-tick source / dangling-marble claims
-- ---------------------------------------------------------------------------

/-- The outgoing edge ids of a node, read off the graph alone. -/
def gOutIds (g : SimGraph) (nid : String) : List String :=
  (((mget g.adjacency nid).getD []).filterMap
    (fun eid => mget g.edges eid)).map SimEdge.id

/-- Adjacency consistency: every edge listed under a node's adjacency entry
that resolves in the edge map leaves from that node.  (`buildSimGraph`
constructs the adjacency index exactly this way.) -/
def adjConsistent (g : SimGraph) : Bool :=
  (mkeys g.adjacency).all (fun nid =>
    ((mget g.adjacency nid).getD []).all (fun eid =>
      match mget g.edges eid with
      | some e => e.from_ == nid
      | none => true))

/-- The loop body of `arrivalGroups`, named for the proofs below. -/
def agStep (s : SimState) (groups : List (String × List Marble)) (m : Marble) :
    List (String × List Marble) :=
  if m.progress < 1 then groups
  else
    match mget s.graph.edges m.edgeId with
    | none => groups
    | some edge =>
        match mget groups edge.to_ with
        | some existing => mset groups edge.to_ (existing ++ [m])
        | none => mset groups edge.to_ [m]

/-- The loop body of `spawnMarbles`, named for the proofs below. -/
def spawnStep (st : SimState) (nid : String) : SimState :=
  match mget st.graph.nodes nid with
  | some (.source d) =>
      let alreadyProcessed := st.marbles.any
        (fun m =>
          match mget st.graph.edges m.edgeId with
          | some edge => edge.from_ = d.id ∧ m.progress = 0
          | none => false)
      if alreadyProcessed then st else handleSource st d []
  | _ => st

/-- The loop body of `tickPeriodicNodes`, named for the proofs below. -/
def periodicStep (processed : List String) (st : SimState) (nid : String) :
    SimState :=
  match mget st.graph.nodes nid with
  | some node =>
      if node.isPeriodicType ∧ nid ∉ processed then runHandler st node []
      else st
  | none => st

/-- Cross-node, cross-phase preservation: relative to one protected node id
`did` and a fixed family `Cond` of marble predicates, a phase segment keeps
the frame, the protected node's map entry, the protected id's key
multiplicity, node-map keyedness, the controller error, and the selection
of every predicate in the family. -/
def PhasePreserves (did : String) (Cond : (Marble → Bool) → Prop)
    (s t : SimState) : Prop :=
  frameOf t = frameOf s ∧
  mget t.graph.nodes did = mget s.graph.nodes did ∧
  countOf (mkeys t.graph.nodes) did = countOf (mkeys s.graph.nodes) did ∧
  (NodesKeyed s.graph → NodesKeyed t.graph) ∧
  t.controllerError = s.controllerError ∧
  ∀ p : Marble → Bool, Cond p → t.marbles.filter p = s.marbles.filter p

/-- The loop body of `processArrivals`, named for the proofs below. -/
def paStep (acc : SimState × List String) (kv : String × List Marble) :
    SimState × List String :=
  match mget acc.1.graph.nodes kv.1 with
  | none => acc
  | some node => (runHandler acc.1 node kv.2, acc.2 ++ [kv.1])

/-- The marble-list effect of the source handler's arrival-reroute loop. -/
def rerouteAllL (ms : List Marble) (arr : List Marble) (eid : String) :
    List Marble :=
  arr.foldl
    (fun ms2 mb => replaceFirst ms2 mb { mb with edgeId := eid, progress := 0 })
    ms

/-- A fresh emission attributable to node `did`: a progress-0 marble on one
of `did`'s outgoing edges whose id is not among the pre-tick marble ids. -/
def freshOwn (g : SimGraph) (did : String) (ids : List String) (w : Marble) :
    Bool :=
  decide (w.edgeId ∈ gOutIds g did ∧ w.progress = 0 ∧ w.id ∉ ids)

/-- The spawn phase's `alreadyProcessed` footprint: a progress-0 marble on
an edge leaving `did`. -/
def pFoot (g : SimGraph) (did : String) (w : Marble) : Bool :=
  match mget g.edges w.edgeId with
  | some e => decide (e.from_ = did ∧ w.progress = 0)
  | none => false

/-- The predicate family carried through a tick for the single-emission
claim: fresh own-edge emissions, the footprint predicate, and equality with
any live arrival of the protected node. -/
def c7Cond (g0 : SimGraph) (did : String) (ids : List String)
    (p : Marble → Bool) : Prop :=
  p = freshOwn g0 did ids ∨ p = pFoot g0 did ∨
  ∃ v : Marble, 1 ≤ v.progress ∧
    (∃ e, mget g0.edges v.edgeId = some e ∧ e.to_ = did) ∧
    p = fun w => decide (w = v)

/-- The source record inside `demoState`. -/
def c7SourceNode : SourceNode :=
  { id := "s", position := ⟨0, 0⟩, spawnRate := 60,
    spawnCooldown := 1, marbleColor := .red }

/-- Protected-node-free phase preservation: the frame, keyedness, the
controller error and a fixed family of marble predicates survive a phase
segment. -/
def MarblesPreserves (Cond : (Marble → Bool) → Prop) (s t : SimState) :
    Prop :=
  frameOf t = frameOf s ∧
  (NodesKeyed s.graph → NodesKeyed t.graph) ∧
  t.controllerError = s.controllerError ∧
  ∀ p : Marble → Bool, Cond p → t.marbles.filter p = s.marbles.filter p

/-- A marble referencing an edge id that no edge carries. -/
def danglingMarble : Marble :=
  { id := "zz", edgeId := "ghost", progress := 0,
    speed := DEFAULT_MARBLE_SPEED, color := .blue }

/-- A state holding the dangling marble next to a normal source and sink. -/
def danglingState : SimState :=
  { graph := buildSimGraph [demoSource, demoSink] [demoEdge]
    marbles := [danglingMarble]
    tickCount := 0
    rng := createRng 7
    targetImage := none
    controllerCode := ""
    controllerError := none }

-- ---------------------------------------------------------------------------
-- Kahn validator correctness: counting infrastructure
-- ---------------------------------------------------------------------------

/-- In-degree of a node id: the number of edge-map entries targeting it. -/
def indegI (g : SimGraph) (n : String) : Int :=
  (g.edges.countP (fun kv => decide (kv.2.to_ = n)) : Nat)

/-- Number of edges into `n` whose origin has already been eliminated
(lies in the visited list `S`). -/
def cutI (g : SimGraph) (S : List String) (n : String) : Int :=
  (g.edges.countP
    (fun kv => decide (kv.2.to_ = n) && decide (kv.2.from_ ∈ S)) : Nat)

/-- Number of edges from `c` into `n`. -/
def outCnt (g : SimGraph) (c n : String) : Int :=
  (g.edges.countP
    (fun kv => decide (kv.2.from_ = c) && decide (kv.2.to_ = n)) : Nat)

/-- Every edge into `n` originates inside `S`. -/
def inAllFrom (g : SimGraph) (S : List String) (n : String) : Prop :=
  ∀ kv ∈ g.edges, (kv.2 : SimEdge).to_ = n → kv.2.from_ ∈ S

-- ---------------------------------------------------------------------------
-- Rank of an element in a visit-order list
-- ---------------------------------------------------------------------------

/-- Index of the first occurrence of an element in a list. -/
def rankIn : List String → String → Nat
  | [], _ => 0
  | x :: xs, n => if x = n then 0 else rankIn xs n + 1

-- ---------------------------------------------------------------------------
-- Graph well-formedness assumed by the Kahn analysis
-- ---------------------------------------------------------------------------

/-- Structural invariants of an indexed graph under which `validateDAG`
implements Kahn's algorithm faithfully: maps keyed without duplicates, edge
endpoints resolving to nodes, and an adjacency index listing exactly the
edge ids leaving each node (the invariant maintained by `buildSimGraph`,
`addNode`, `addEdge`, `removeNode` and `removeEdge`). -/
structure KahnOK (g : SimGraph) : Prop where
  nodesNodup : (mkeys g.nodes).Nodup
  edgesNodup : (mkeys g.edges).Nodup
  closedFrom : ∀ kv ∈ g.edges, (kv.2 : SimEdge).from_ ∈ mkeys g.nodes
  closedTo : ∀ kv ∈ g.edges, (kv.2 : SimEdge).to_ ∈ mkeys g.nodes
  adjVal : ∀ kv ∈ g.adjacency,
    (kv.2 : List String) =
      (g.edges.filter (fun kv2 => kv2.2.from_ = kv.1)).map Prod.fst
  adjCov : ∀ kv ∈ g.edges, (kv.2 : SimEdge).from_ ∈ mkeys g.adjacency

-- ---------------------------------------------------------------------------
-- The inner visit of one dequeued node
-- ---------------------------------------------------------------------------

/-- Whether an outgoing edge id resolves to an edge targeting `n`. -/
def resTo (g : SimGraph) (n : String) (eid : String) : Bool :=
  match mget g.edges eid with
  | some e => decide (e.to_ = n)
  | none => false

/-- Number of ids in a worklist resolving to edges into `n`. -/
def dcnt (g : SimGraph) (L : List String) (n : String) : Int :=
  (L.countP (resTo g n) : Nat)

/-- The loop body over one outgoing edge id inside `kahnVisit`. -/
def kvStep (g : SimGraph) (acc : List (String × Int) × List String)
    (eid : String) : List (String × Int) × List String :=
  match mget g.edges eid with
  | none => acc
  | some edge =>
      let newDegree := ((mget acc.1 edge.to_).getD 1) - 1
      let deg1 := mset acc.1 edge.to_ newDegree
      if newDegree = 0 then (deg1, acc.2 ++ [edge.to_])
      else (deg1, acc.2)

-- ---------------------------------------------------------------------------
-- The dequeue loop invariant
-- ---------------------------------------------------------------------------

/-- Invariant of the Kahn elimination loop: `S` is the (ordered) list of
already-visited nodes, `q` the pending queue, `m` the current in-degree
map.  Queue entries have all in-edges inside `S`; visited nodes are
topologically ordered; unvisited unqueued nodes still have a pending
in-edge. -/
structure KahnInv (g : SimGraph) (S q : List String)
    (m : List (String × Int)) : Prop where
  subV : ∀ n ∈ S ++ q, n ∈ mkeys g.nodes
  nd : (S ++ q).Nodup
  degs : ∀ n, mget m n =
    if n ∈ mkeys g.nodes then some (indegI g n - cutI g S n) else none
  qAll : ∀ n ∈ q, inAllFrom g S n
  topo : ∀ b ∈ S, ∀ kv ∈ g.edges, (kv.2 : SimEdge).to_ = b →
    kv.2.from_ ∈ S ∧ rankIn S kv.2.from_ < rankIn S b
  missed : ∀ n ∈ mkeys g.nodes, n ∉ S ++ q → ¬ inAllFrom g S n
  keys : mkeys m = mkeys g.nodes

/-- The candidate graph `addEdge` builds before validation: the edge
inserted in the edge map and appended to its origin's adjacency list. -/
def addEdgeCandidate (g : SimGraph) (edge : SimEdge) : SimGraph :=
  { g with edges := mset g.edges edge.id edge,
           adjacency := mset g.adjacency edge.from_
             (((mget g.adjacency edge.from_).getD []) ++ [edge.id]) }

/-- A two-node, one-edge well-formed graph for the C4 witness. -/
def c4Graph : SimGraph :=
  { nodes := [("a", .ramp { id := "a", position := { x := 0, y := 0 } }),
              ("b", .ramp { id := "b", position := { x := 1, y := 0 } })],
    edges := [("e1", { id := "e1", from_ := "a", fromHandle := "out",
                       to_ := "b", toHandle := "in", length := 1 })],
    adjacency := [("a", ["e1"]), ("b", [])] }

-- ---------------------------------------------------------------------------
-- Claim C3 witness
-- ---------------------------------------------------------------------------

/-- Base graph for the C3 witness: two nodes joined by one edge. -/
def c3Graph : SimGraph :=
  { nodes := [("x", .ramp { id := "x", position := { x := 0, y := 0 } }),
              ("y", .ramp { id := "y", position := { x := 1, y := 0 } })],
    edges := [("d1", { id := "d1", from_ := "x", fromHandle := "out",
                       to_ := "y", toHandle := "in", length := 1 })],
    adjacency := [("x", ["d1"]), ("y", [])] }

/-- The back edge whose insertion into `c3Graph` closes a cycle. -/
def c3EdgeYX : SimEdge :=
  { id := "d2", from_ := "y", fromHandle := "out", to_ := "x",
    toHandle := "in", length := 1 }

/-- A small well-keyed, schema-conforming graph for the C8 witness. -/
def c8Graph : SimGraph :=
  { nodes := [("p", .ramp { id := "p", position := { x := 0, y := 0 } }),
              ("q", .ramp { id := "q", position := { x := 3, y := 4 } })],
    edges := [("w1", { id := "w1", from_ := "p", fromHandle := "out",
                       to_ := "q", toHandle := "in", length := 0 })],
    adjacency := [("p", ["w1"]), ("q", [])] }

/-- A well-keyed graph (its only edge set is empty, so its edges trivially
reference present nodes) whose single source node violates the import
schema: `spawnRate` is zero while the schema demands a positive number. -/
def c8BadGraph : SimGraph :=
  { nodes := [("s", .source
      { id := "s", position := { x := 0, y := 0 }, spawnRate := 0,
        spawnCooldown := 0, marbleColor := .white })],
    edges := [],
    adjacency := [("s", [])] }

/-- A version-1 payload carrying an unknown extra field. -/
def c9UnknownFieldJson : Json :=
  .obj [("version", .num 1), ("nodes", .arr []), ("edges", .arr []),
        ("mystery", .str "ignored")]

-- ===========================================================================
-- Theorems
-- ===========================================================================

-- ===========================================================================
-- Theorems
-- ===========================================================================

-- ---------------------------------------------------------------------------
-- Association-list lemmas
-- ---------------------------------------------------------------------------
theorem mget_mset_self {β : Type} (m : List (String × β)) (k : String) (v : β) :
    mget (mset m k v) k = some v := by
  induction m with
  | nil => simp [mset, mget]
  | cons kv rest ih =>
      by_cases h : kv.1 = k
      · simp [mset, h, mget]
      · simp [mset, h, mget, ih]

theorem mget_mset_ne {β : Type} (m : List (String × β)) (k k' : String) (v : β)
    (h : k' ≠ k) : mget (mset m k v) k' = mget m k' := by
  induction m with
  | nil => simp [mset, mget, Ne.symm h]
  | cons kv rest ih =>
      by_cases hk : kv.1 = k
      · simp only [mset, if_pos hk, mget]
        rw [if_neg (hk ▸ Ne.symm h), if_neg (by rw [hk]; exact Ne.symm h)]
      · simp only [mset, if_neg hk, mget, ih]

theorem mget_mem {β : Type} {m : List (String × β)} {k : String} {v : β}
    (h : mget m k = some v) : (k, v) ∈ m := by
  induction m with
  | nil => simp [mget] at h
  | cons kv rest ih =>
      obtain ⟨k1, v1⟩ := kv
      by_cases hk : k1 = k
      · subst hk
        have h2 : v1 = v := by simpa [mget] using h
        subst h2
        exact List.mem_cons_self _ _
      · simp only [mget, if_neg hk] at h
        exact List.mem_cons_of_mem _ (ih h)

theorem filter_eraseFirst_of_neg {α : Type} [DecidableEq α] (p : α → Bool)
    (l : List α) (a : α) (h : p a = false) :
    (eraseFirst l a).filter p = l.filter p := by
  induction l with
  | nil => rfl
  | cons x xs ih =>
      by_cases hx : x = a
      · simp [eraseFirst, hx, List.filter_cons, h]
      · simp only [eraseFirst, if_neg hx, List.filter_cons]
        rw [ih]

theorem filter_replaceFirst_of_neg {α : Type} [DecidableEq α] (p : α → Bool)
    (l : List α) (a b : α) (ha : p a = false) (hb : p b = false) :
    (replaceFirst l a b).filter p = l.filter p := by
  induction l with
  | nil => rfl
  | cons x xs ih =>
      by_cases hx : x = a
      · simp [replaceFirst, hx, List.filter_cons, ha, hb]
      · simp only [replaceFirst, if_neg hx, List.filter_cons]
        rw [ih]

theorem countOf_mkeys_mset_ne {β : Type} (m : List (String × β))
    (hid k : String) (v : β) (hk : k ≠ hid) :
    countOf (mkeys (mset m hid v)) k = countOf (mkeys m) k := by
  induction m with
  | nil =>
      simp [mset, mkeys, countOf, List.count_cons, hk]
  | cons kv rest ih =>
      have ih2 := ih
      simp only [countOf, mkeys] at ih2
      by_cases h1 : kv.1 = hid
      · simp [mset, if_pos h1, mkeys, countOf, List.count_cons, h1]
      · simp only [mset, if_neg h1, mkeys, List.map_cons, countOf,
          List.count_cons]
        rw [ih2]

theorem NodesKeyed.get {g : SimGraph} (h : NodesKeyed g) {k : String}
    {n : SimNode} (hget : mget g.nodes k = some n) : n.id = k :=
  h (k, n) (mget_mem hget)

theorem EdgesKeyed.resolve {g : SimGraph} (h : EdgesKeyed g) {k : String}
    {e : SimEdge} (hget : mget g.edges k = some e) : e.id = k :=
  h (k, e) (mget_mem hget)

theorem Preserves.refl {hid : String} {arr : List Marble} {out0 : List String}
    {s : SimState} : Preserves hid arr out0 s s :=
  ⟨Eq.refl _, fun _ _ => Eq.refl _, fun _ _ => Eq.refl _, fun h => h, Eq.refl _, fun _ _ _ => Eq.refl _⟩

theorem Preserves.trans {hid : String} {arr : List Marble} {out0 : List String}
    {s t u : SimState} (h1 : Preserves hid arr out0 s t)
    (h2 : Preserves hid arr out0 t u) : Preserves hid arr out0 s u := by
  obtain ⟨f1, n1, c1, k1, e1, m1⟩ := h1
  obtain ⟨f2, n2, c2, k2, e2, m2⟩ := h2
  refine ⟨f2.trans f1, fun k hk => (n2 k hk).trans (n1 k hk),
    fun k hk => (c2 k hk).trans (c1 k hk), fun h => k2 (k1 h),
    e2.trans e1, fun p hp hw => ?_⟩
  rw [m2 p hp hw, m1 p hp hw]

theorem keyed_mset (l : List (String × SimNode)) (hid : String) (v : SimNode)
    (hl : ∀ kv ∈ l, (kv.2 : SimNode).id = kv.1) (hv : v.id = hid) :
    ∀ kv ∈ mset l hid v, (kv.2 : SimNode).id = kv.1 := by
  induction l with
  | nil =>
      intro kv hkv
      simp only [mset, List.mem_singleton] at hkv
      rw [hkv]
      exact hv
  | cons kw rest ih =>
      intro kv hkv
      simp only [mset] at hkv
      by_cases hk : kw.1 = hid
      · rw [if_pos hk] at hkv
        rcases List.mem_cons.mp hkv with h | h
        · rw [h]; simpa [hk] using hv
        · exact hl kv (List.mem_cons_of_mem _ h)
      · rw [if_neg hk] at hkv
        rcases List.mem_cons.mp hkv with h | h
        · exact hl kv (h ▸ List.mem_cons_self _ _)
        · exact ih (fun kv hkv => hl kv (List.mem_cons_of_mem _ hkv)) kv h

theorem Preserves.setNode {hid : String} {arr : List Marble}
    {out0 : List String} {s : SimState} {v : SimNode}
    (hv : NodesKeyed s.graph → v.id = hid) :
    Preserves hid arr out0 s (setNode s hid v) :=
  ⟨Eq.refl _, fun k hk => mget_mset_ne _ _ _ _ hk,
   fun k hk => countOf_mkeys_mset_ne _ _ _ _ hk,
   fun hkeyed kv hkv => keyed_mset _ hid v hkeyed (hv hkeyed) kv hkv,
   Eq.refl _, fun _ _ _ => Eq.refl _⟩

theorem Preserves.removeMarble {hid : String} {arr : List Marble}
    {out0 : List String} {s : SimState} {mb : Marble} (hmem : mb ∈ arr) :
    Preserves hid arr out0 s (removeMarble s mb) := by
  exact ⟨Eq.refl _, fun _ _ => Eq.refl _, fun _ _ => Eq.refl _, fun h => h,
    Eq.refl _,
    fun p hp hw => filter_eraseFirst_of_neg p s.marbles mb (hp mb hmem)⟩

theorem Preserves.rerouteMarble {hid : String} {arr : List Marble}
    {out0 : List String} {s : SimState} {mb : Marble} {eid : String}
    (hmem : mb ∈ arr) (heid : eid ∈ out0) :
    Preserves hid arr out0 s (rerouteMarble s mb eid) := by
  exact ⟨Eq.refl _, fun _ _ => Eq.refl _, fun _ _ => Eq.refl _, fun h => h,
    Eq.refl _,
    fun p hp hw => filter_replaceFirst_of_neg p s.marbles mb _ (hp mb hmem)
      (hw { mb with edgeId := eid, progress := 0 } heid rfl)⟩

theorem Preserves.pushHeldMarble {hid : String} {arr : List Marble}
    {out0 : List String} {s : SimState} {eid : String} {h : HeldMarble}
    (heid : eid ∈ out0) :
    Preserves hid arr out0 s (pushHeldMarble s eid h) := by
  refine ⟨Eq.refl _, fun _ _ => Eq.refl _, fun _ _ => Eq.refl _, fun hk => hk, Eq.refl _, fun p hp hw => ?_⟩
  show (s.marbles ++ [_]).filter p = s.marbles.filter p
  rw [List.filter_append]
  simp [List.filter_cons,
    hw { id := h.id, edgeId := eid, progress := 0,
         speed := DEFAULT_MARBLE_SPEED, color := h.color } heid rfl]

theorem Preserves.spawnMarbleOnEdge {hid : String} {arr : List Marble}
    {out0 : List String} {s : SimState} {eid nid : String} {c : MarbleColor}
    (heid : eid ∈ out0) :
    Preserves hid arr out0 s (spawnMarbleOnEdge s eid nid c) := by
  refine ⟨Eq.refl _, fun _ _ => Eq.refl _, fun _ _ => Eq.refl _, fun hk => hk, Eq.refl _, fun p hp hw => ?_⟩
  show (s.marbles ++ [_]).filter p = s.marbles.filter p
  rw [List.filter_append]
  simp [List.filter_cons,
    hw { id := generateMarbleId s nid, edgeId := eid, progress := 0,
         speed := DEFAULT_MARBLE_SPEED, color := c } heid rfl]

theorem Preserves.withRng {hid : String} {arr : List Marble}
    {out0 : List String} {s : SimState} {r : SeededRNG} :
    Preserves hid arr out0 s { s with rng := r } :=
  ⟨Eq.refl _, fun _ _ => Eq.refl _, fun _ _ => Eq.refl _, fun h => h, Eq.refl _,
   fun _ _ _ => Eq.refl _⟩

theorem Preserves.foldl {hid : String} {arr : List Marble} {out0 : List String}
    {α : Type} (f : SimState → α → SimState) (l : List α)
    (h : ∀ st a, a ∈ l → Preserves hid arr out0 st (f st a)) :
    ∀ s : SimState, Preserves hid arr out0 s (l.foldl f s) := by
  induction l with
  | nil => intro s; exact Preserves.refl
  | cons a t ih =>
      intro s
      rw [List.foldl_cons]
      exact (h s a (List.mem_cons_self _ _)).trans
        (ih (fun st b hb => h st b (List.mem_cons_of_mem _ hb)) _)

theorem preserves_handleSource (s : SimState) (d : SourceNode)
    (arr : List Marble) :
    Preserves d.id arr (outIds s d.id) s (handleSource s d arr) := by
  unfold handleSource
  split
  · exact Preserves.refl
  next e0 rest heq =>
    have heid : e0.id ∈ outIds s d.id := by
      rw [outIds, heq]
      exact List.mem_map_of_mem _ (List.mem_cons_self _ _)
    split
    next m hm =>
      refine Preserves.trans ?_
        (Preserves.foldl _ arr
          (fun st a ha => Preserves.rerouteMarble ha heid) _)
      dsimp only
      split
      · refine Preserves.trans
          (Preserves.trans ?_ (Preserves.spawnMarbleOnEdge heid))
          (Preserves.setNode (fun hkeyed => ?_))
        · refine Preserves.setNode (fun hkeyed => ?_)
          show m.id = d.id
          exact hkeyed.get hm
        · show m.id = d.id
          have hfetch : mget (spawnMarbleOnEdge
              (setNode s d.id (SimNode.source
                { m with spawnCooldown := m.spawnCooldown - 1 }))
              e0.id d.id m.marbleColor).graph.nodes d.id =
              some (SimNode.source
                { m with spawnCooldown := m.spawnCooldown - 1 }) :=
            mget_mset_self _ _ _
          exact hkeyed.get hfetch
      · refine Preserves.setNode (fun hkeyed => ?_)
        show m.id = d.id
        exact hkeyed.get hm
    · exact Preserves.refl

theorem preserves_handleSink (s : SimState) (d : SinkNode)
    (arr : List Marble) :
    Preserves d.id arr (outIds s d.id) s (handleSink s d arr) := by
  unfold handleSink
  split
  · refine Preserves.foldl _ arr (fun st a ha => ?_) s
    dsimp only
    refine Preserves.trans ?_ (Preserves.removeMarble ha)
    split
    next mm hmm =>
      refine Preserves.setNode (fun hkeyed => ?_)
      show mm.id = d.id
      exact hkeyed.get hmm
    · exact Preserves.refl
  · exact Preserves.refl

theorem preserves_handleSplitter (s : SimState) (d : SplitterNode)
    (arr : List Marble) :
    Preserves d.id arr (outIds s d.id) s (handleSplitter s d arr) := by
  unfold handleSplitter
  dsimp only
  split
  next e0 e1 rest heq =>
    have h0 : e0.id ∈ outIds s d.id := by
      rw [outIds, heq]
      exact List.mem_map_of_mem _ (List.mem_cons_self _ _)
    have h1 : e1.id ∈ outIds s d.id := by
      rw [outIds, heq]
      exact List.mem_map_of_mem _ (List.mem_cons_of_mem _ (List.mem_cons_self _ _))
    refine Preserves.foldl _ arr (fun st a ha => ?_) s
    dsimp only
    split
    · exact Preserves.trans Preserves.withRng (Preserves.rerouteMarble ha h0)
    · exact Preserves.trans Preserves.withRng (Preserves.rerouteMarble ha h1)
  next e0 heq =>
    have h0 : e0.id ∈ outIds s d.id := by
      rw [outIds, heq]
      exact List.mem_map_of_mem _ (List.mem_cons_self _ _)
    exact Preserves.foldl _ arr
      (fun st a ha => Preserves.rerouteMarble ha h0) s
  · exact Preserves.refl

theorem preserves_handleRamp (s : SimState) (d : RampNode)
    (arr : List Marble) :
    Preserves d.id arr (outIds s d.id) s (handleRamp s d arr) := by
  unfold handleRamp
  split
  next e0 rest heq =>
    have h0 : e0.id ∈ outIds s d.id := by
      rw [outIds, heq]
      exact List.mem_map_of_mem _ (List.mem_cons_self _ _)
    exact Preserves.foldl _ arr
      (fun st a ha => Preserves.rerouteMarble ha h0) s
  · exact Preserves.refl

theorem mem_mset_sub {β : Type} {m : List (String × β)} {k : String} {v : β} :
    ∀ kv ∈ mset m k v, kv = (k, v) ∨ kv ∈ m := by
  induction m with
  | nil =>
      intro kv hkv
      simp only [mset, List.mem_singleton] at hkv
      exact Or.inl hkv
  | cons kw rest ih =>
      intro kv hkv
      simp only [mset] at hkv
      by_cases hk : kw.1 = k
      · rw [if_pos hk] at hkv
        rcases List.mem_cons.mp hkv with h | h
        · exact Or.inl (by rw [h, hk])
        · exact Or.inr (List.mem_cons_of_mem _ h)
      · rw [if_neg hk] at hkv
        rcases List.mem_cons.mp hkv with h | h
        · exact Or.inr (h ▸ List.mem_cons_self _ _)
        · rcases ih kv h with h2 | h2
          · exact Or.inl h2
          · exact Or.inr (List.mem_cons_of_mem _ h2)

theorem mem_handleFold {l : List SimEdge} :
    ∀ (m0 : List (String × SimEdge)) (kv : String × SimEdge),
      kv ∈ l.foldl (fun m e => mset m e.fromHandle e) m0 →
      kv.2 ∈ l ∨ kv ∈ m0 := by
  induction l with
  | nil => intro m0 kv hkv; exact Or.inr hkv
  | cons e rest ih =>
      intro m0 kv hkv
      rw [List.foldl_cons] at hkv
      rcases ih _ kv hkv with h | h
      · exact Or.inl (List.mem_cons_of_mem _ h)
      · rcases mem_mset_sub kv h with h2 | h2
        · left
          rw [h2]
          exact List.mem_cons_self _ _
        · exact Or.inr h2

theorem preserves_handleElevator (s : SimState) (d : ElevatorNode)
    (arr : List Marble) :
    Preserves d.id arr (outIds s d.id) s (handleElevator s d arr) := by
  unfold handleElevator
  split
  next _ =>
    dsimp only
    split
    next mB hmB =>
      split
      next e0 rest heq =>
        have h0 : e0.id ∈ outIds s d.id := by
          rw [outIds, heq]
          exact List.mem_map_of_mem _ (List.mem_cons_self _ _)
        refine Preserves.trans
          (Preserves.trans ?_ (Preserves.setNode (fun hkeyed => ?_)))
          (Preserves.foldl _ _
            (fun st it hit => Preserves.pushHeldMarble h0) _)
        · refine Preserves.foldl _ arr (fun st a ha => ?_) s
          dsimp only
          split
          next mm hmm =>
            refine Preserves.trans (Preserves.removeMarble ha)
              (Preserves.setNode (fun hkeyed => ?_))
            show mm.id = d.id
            exact hkeyed.get hmm
          · exact Preserves.removeMarble ha
        · show mB.id = d.id
          exact hkeyed.get hmB
      next heq =>
        refine Preserves.trans ?_ (Preserves.setNode (fun hkeyed => ?_))
        · refine Preserves.foldl _ arr (fun st a ha => ?_) s
          dsimp only
          split
          next mm hmm =>
            refine Preserves.trans (Preserves.removeMarble ha)
              (Preserves.setNode (fun hkeyed => ?_))
            show mm.id = d.id
            exact hkeyed.get hmm
          · exact Preserves.removeMarble ha
        · show mB.id = d.id
          exact hkeyed.get hmB
    next hmB =>
      refine Preserves.foldl _ arr (fun st a ha => ?_) s
      dsimp only
      split
      next mm hmm =>
        refine Preserves.trans (Preserves.removeMarble ha)
          (Preserves.setNode (fun hkeyed => ?_))
        show mm.id = d.id
        exact hkeyed.get hmm
      · exact Preserves.removeMarble ha
  · exact Preserves.refl

theorem preserves_handleBucket (s : SimState) (d : BucketNode)
    (arr : List Marble) :
    Preserves d.id arr (outIds s d.id) s (handleBucket s d arr) := by
  unfold handleBucket
  split
  next _ =>
    dsimp only
    split
    next mB hmB =>
      split
      next e0 rest heq =>
        have h0 : e0.id ∈ outIds s d.id := by
          rw [outIds, heq]
          exact List.mem_map_of_mem _ (List.mem_cons_self _ _)
        split
        · split
          · refine Preserves.trans
              (Preserves.trans ?_
                (Preserves.foldl _ _
                  (fun st a ha => Preserves.spawnMarbleOnEdge h0) _))
              (Preserves.setNode (fun hkeyed => ?_))
            · refine Preserves.foldl _ arr (fun st a ha => ?_) s
              dsimp only
              split
              next mm hmm =>
                refine Preserves.trans (Preserves.removeMarble ha)
                  (Preserves.setNode (fun hkeyed => ?_))
                show mm.id = d.id
                exact hkeyed.get hmm
              · exact Preserves.removeMarble ha
            · show mB.id = d.id
              have hgr : ∀ (l : List Nat) (st : SimState),
                  (l.foldl (fun st (_ : Nat) =>
                    spawnMarbleOnEdge st e0.id d.id .white) st).graph =
                  st.graph := by
                intro l
                induction l with
                | nil => intro st; rfl
                | cons a t ih => intro st; rw [List.foldl_cons]; exact ih _
              rw [hgr] at hkeyed
              exact hkeyed.get hmB
          · refine Preserves.trans
              (Preserves.trans ?_
                (Preserves.foldl _ _
                  (fun st a ha => Preserves.spawnMarbleOnEdge h0) _))
              (Preserves.setNode (fun hkeyed => ?_))
            · refine Preserves.foldl _ arr (fun st a ha => ?_) s
              dsimp only
              split
              next mm hmm =>
                refine Preserves.trans (Preserves.removeMarble ha)
                  (Preserves.setNode (fun hkeyed => ?_))
                show mm.id = d.id
                exact hkeyed.get hmm
              · exact Preserves.removeMarble ha
            · show mB.id = d.id
              have hgr : ∀ (l : List Nat) (st : SimState),
                  (l.foldl (fun st (_ : Nat) =>
                    spawnMarbleOnEdge st e0.id d.id .white) st).graph =
                  st.graph := by
                intro l
                induction l with
                | nil => intro st; rfl
                | cons a t ih => intro st; rw [List.foldl_cons]; exact ih _
              rw [hgr] at hkeyed
              exact hkeyed.get hmB
        · refine Preserves.foldl _ arr (fun st a ha => ?_) s
          dsimp only
          split
          next mm hmm =>
            refine Preserves.trans (Preserves.removeMarble ha)
              (Preserves.setNode (fun hkeyed => ?_))
            show mm.id = d.id
            exact hkeyed.get hmm
          · exact Preserves.removeMarble ha
      next heq =>
        refine Preserves.foldl _ arr (fun st a ha => ?_) s
        dsimp only
        split
        next mm hmm =>
          refine Preserves.trans (Preserves.removeMarble ha)
            (Preserves.setNode (fun hkeyed => ?_))
          show mm.id = d.id
          exact hkeyed.get hmm
        · exact Preserves.removeMarble ha
    next hmB =>
      refine Preserves.foldl _ arr (fun st a ha => ?_) s
      dsimp only
      split
      next mm hmm =>
        refine Preserves.trans (Preserves.removeMarble ha)
          (Preserves.setNode (fun hkeyed => ?_))
        show mm.id = d.id
        exact hkeyed.get hmm
      · exact Preserves.removeMarble ha
  · exact Preserves.refl

theorem preserves_handleBasin (s : SimState) (d : BasinNode)
    (arr : List Marble) :
    Preserves d.id arr (outIds s d.id) s (handleBasin s d arr) := by
  unfold handleBasin
  split
  next _ =>
    dsimp only
    split
    next heq =>
      refine Preserves.foldl _ arr (fun st a ha => ?_) s
      dsimp only
      split
      next mm hmm =>
        refine Preserves.trans (Preserves.removeMarble ha)
          (Preserves.setNode (fun hkeyed => ?_))
        show mm.id = d.id
        exact hkeyed.get hmm
      · exact Preserves.removeMarble ha
    next e0 rest heq =>
      have h0 : e0.id ∈ outIds s d.id := by
        rw [outIds, heq]
        exact List.mem_map_of_mem _ (List.mem_cons_self _ _)
      have habsorb : Preserves d.id arr (outIds s d.id) s
          (arr.foldl (fun st mb =>
            let st1 := removeMarble st mb
            match mget st1.graph.nodes d.id with
            | some (.basin mm) =>
                setNode st1 d.id
                  (.basin { mm with
                    contents := mm.contents.set mb.color
                      (mm.contents.get mb.color + 1) })
            | _ => st1) s) := by
        refine Preserves.foldl _ arr (fun st a ha => ?_) s
        dsimp only
        split
        next mm hmm =>
          refine Preserves.trans (Preserves.removeMarble ha)
            (Preserves.setNode (fun hkeyed => ?_))
          show mm.id = d.id
          exact hkeyed.get hmm
        · exact Preserves.removeMarble ha
      split
      next mB hmB =>
        split
        · split
          · refine Preserves.trans
              (Preserves.trans habsorb (Preserves.setNode (fun hkeyed => ?_)))
              (Preserves.spawnMarbleOnEdge h0)
            show mB.id = d.id
            exact hkeyed.get hmB
          · refine Preserves.trans habsorb (Preserves.setNode (fun hkeyed => ?_))
            show mB.id = d.id
            exact hkeyed.get hmB
        · refine Preserves.trans habsorb (Preserves.setNode (fun hkeyed => ?_))
          show mB.id = d.id
          exact hkeyed.get hmB
      next hmB => exact habsorb
  · exact Preserves.refl

theorem preserves_handleColorSplitter (s : SimState) (d : ColorSplitterNode)
    (arr : List Marble) :
    Preserves d.id arr (outIds s d.id) s (handleColorSplitter s d arr) := by
  unfold handleColorSplitter
  dsimp only
  refine Preserves.foldl _ arr (fun st a ha => ?_) s
  dsimp only
  split
  next te hte =>
    have hmem : te.id ∈ outIds s d.id := by
      have h2 : (d.outputMap.get a.color, te) ∈
          (getOutgoingEdges s d.id).foldl
            (fun m e => mset m e.fromHandle e) [] := by
        by_cases hempty : d.outputMap.get a.color = ""
        · rw [if_pos hempty] at hte
          exact absurd hte (by simp)
        · rw [if_neg hempty] at hte
          exact mget_mem hte
      rcases mem_handleFold _ _ h2 with h3 | h3
      · exact List.mem_map_of_mem _ h3
      · simp at h3
    exact Preserves.rerouteMarble ha hmem
  next hte => exact Preserves.removeMarble ha

theorem preserves_handleSignalBuffer (s : SimState) (d : SignalBufferNode)
    (arr : List Marble) :
    Preserves d.id arr (outIds s d.id) s (handleSignalBuffer s d arr) := by
  unfold handleSignalBuffer
  split
  next _ =>
    dsimp only
    have habsorb : Preserves d.id arr (outIds s d.id) s
        (arr.foldl (fun st mb =>
          let st1 := removeMarble st mb
          match mget st1.graph.nodes d.id with
          | some (.signalBuffer mm) =>
              if mm.heldMarbles.length < mm.maxCapacity then
                setNode st1 d.id
                  (.signalBuffer { mm with heldMarbles := mm.heldMarbles ++
                    [{ id := mb.id, color := mb.color }] })
              else st1
          | _ => st1) s) := by
      refine Preserves.foldl _ arr (fun st a ha => ?_) s
      dsimp only
      split
      next mm hmm =>
        split
        · refine Preserves.trans (Preserves.removeMarble ha)
            (Preserves.setNode (fun hkeyed => ?_))
          show mm.id = d.id
          exact hkeyed.get hmm
        · exact Preserves.removeMarble ha
      · exact Preserves.removeMarble ha
    split
    next mB hmB =>
      split
      next e0 rest heq =>
        have h0 : e0.id ∈ outIds s d.id := by
          rw [outIds, heq]
          exact List.mem_map_of_mem _ (List.mem_cons_self _ _)
        split
        · refine Preserves.trans
            (Preserves.trans habsorb (Preserves.setNode (fun hkeyed => ?_)))
            (Preserves.foldl _ _
              (fun st h hmem => Preserves.pushHeldMarble h0) _)
          show mB.id = d.id
          exact hkeyed.get hmB
        · exact habsorb
      next heq => exact habsorb
    next hmB => exact habsorb
  · exact Preserves.refl

theorem preserves_handleCanvas (s : SimState) (d : CanvasNode)
    (arr : List Marble) :
    Preserves d.id arr (outIds s d.id) s (handleCanvas s d arr) := by
  unfold handleCanvas
  split
  next m0 hm0 =>
    dsimp only
    refine Preserves.foldl _ arr (fun st a ha => ?_) s
    dsimp only
    split
    next mm hmm =>
      split
      · exact Preserves.removeMarble ha
      · refine Preserves.trans (Preserves.removeMarble ha)
          (Preserves.setNode (fun hkeyed => ?_))
        show mm.id = d.id
        exact hkeyed.get hmm
    · exact Preserves.removeMarble ha
  · exact Preserves.refl

theorem preserves_handleGate (s : SimState) (d : GateNode)
    (arr : List Marble) :
    Preserves d.id arr (outIds s d.id) s (handleGate s d arr) := by
  unfold handleGate
  split
  next m hm =>
    dsimp only
    have habsorb : ∀ b : SimState, Preserves d.id arr (outIds s d.id) b
        (arr.foldl (fun st mb =>
          let st1 := removeMarble st mb
          match mget st1.graph.nodes d.id with
          | some (.gate mm) =>
              setNode st1 d.id
                (.gate { mm with heldMarbles := mm.heldMarbles ++
                  [{ id := mb.id, color := mb.color }] })
          | _ => st1) b) := by
      refine Preserves.foldl _ arr (fun st a ha => ?_)
      dsimp only
      split
      next mm hmm =>
        refine Preserves.trans (Preserves.removeMarble ha)
          (Preserves.setNode (fun hkeyed => ?_))
        show mm.id = d.id
        exact hkeyed.get hmm
      · exact Preserves.removeMarble ha
    have hcond : Preserves d.id arr (outIds s d.id) s
        (match m.condition with
         | .tickInterval period =>
             setNode s d.id
               (.gate { m with isOpen := gateOpenAt s.tickCount period })
         | .marbleCount threshold arrivedCount =>
             let newCount := arrivedCount + arr.length
             if threshold ≤ newCount then
               setNode s d.id
                 (.gate { m with
                   isOpen := true
                   condition := .marbleCount threshold 0 })
             else
               setNode s d.id
                 (.gate { m with condition := .marbleCount threshold newCount })
         | .manual => s) := by
      split
      · refine Preserves.setNode (fun hkeyed => ?_)
        show m.id = d.id
        exact hkeyed.get hm
      · dsimp only
        split
        · refine Preserves.setNode (fun hkeyed => ?_)
          show m.id = d.id
          exact hkeyed.get hm
        · refine Preserves.setNode (fun hkeyed => ?_)
          show m.id = d.id
          exact hkeyed.get hm
      · exact Preserves.refl
    split
    next mC hmC =>
      split
      next e0 rest heq =>
        have h0 : e0.id ∈ outIds s d.id := by
          rw [outIds, heq]
          exact List.mem_map_of_mem _ (List.mem_cons_self _ _)
        split
        · refine Preserves.trans
            (Preserves.trans (Preserves.trans hcond (habsorb _))
              (Preserves.foldl _ _
                (fun st h hh => Preserves.pushHeldMarble h0) _))
            (Preserves.setNode (fun hkeyed => ?_))
          show mC.id = d.id
          have hgr : ∀ (l : List HeldMarble) (st : SimState),
              (l.foldl (fun st h => pushHeldMarble st e0.id h) st).graph =
              st.graph := by
            intro l
            induction l with
            | nil => intro st; rfl
            | cons a t ih => intro st; rw [List.foldl_cons]; exact ih _
          rw [hgr] at hkeyed
          exact hkeyed.get hmC
        · exact Preserves.trans hcond (habsorb _)
      next heq => exact Preserves.trans hcond (habsorb _)
    next hmC => exact Preserves.trans hcond (habsorb _)
  · exact Preserves.refl

/-- Any handler invocation, dispatched by node type. -/
theorem preserves_runHandler (s : SimState) (node : SimNode)
    (arr : List Marble) :
    Preserves node.id arr (outIds s node.id) s (runHandler s node arr) := by
  cases node with
  | source d => exact preserves_handleSource s d arr
  | sink d => exact preserves_handleSink s d arr
  | splitter d => exact preserves_handleSplitter s d arr
  | elevator d => exact preserves_handleElevator s d arr
  | ramp d => exact preserves_handleRamp s d arr
  | gate d => exact preserves_handleGate s d arr
  | bucket d => exact preserves_handleBucket s d arr
  | basin d => exact preserves_handleBasin s d arr
  | colorSplitter d => exact preserves_handleColorSplitter s d arr
  | signalBuffer d => exact preserves_handleSignalBuffer s d arr
  | canvas d => exact preserves_handleCanvas s d arr

-- ---------------------------------------------------------------------------
-- Phase-level frame lemmas
-- ---------------------------------------------------------------------------
theorem processArrivals_fold_frame (gs : List (String × List Marble)) :
    ∀ acc : SimState × List String,
      frameOf ((gs.foldl (fun acc kv =>
        match mget acc.1.graph.nodes kv.1 with
        | none => acc
        | some node => (runHandler acc.1 node kv.2, acc.2 ++ [kv.1])) acc).1) =
      frameOf acc.1 := by
  induction gs with
  | nil => intro acc; rfl
  | cons kv rest ih =>
      intro acc
      rw [List.foldl_cons]
      refine Eq.trans (ih _) ?_
      split
      · rfl
      next node hnode => exact (preserves_runHandler acc.1 node kv.2).1

theorem processArrivals_frame (s : SimState) :
    frameOf (processArrivals s).1 = frameOf s := by
  unfold processArrivals
  exact processArrivals_fold_frame (arrivalGroups s) (s, [])

theorem applyCommand_frame (s : SimState) (c : ControllerCommand) :
    frameOf (applyCommand s c) = frameOf s := by
  unfold applyCommand
  cases c <;> dsimp only <;> (try split) <;> (try split) <;> rfl

theorem executeController_frame (script : ControllerScript) (s : SimState) :
    frameOf (executeController script s) = frameOf s := by
  unfold executeController
  dsimp only
  have h : ∀ (cs : List ControllerCommand) (st : SimState),
      frameOf (cs.foldl applyCommand st) = frameOf st := by
    intro cs
    induction cs with
    | nil => intro st; rfl
    | cons c rest ih =>
        intro st
        rw [List.foldl_cons]
        exact (ih _).trans (applyCommand_frame st c)
  exact h _ s

theorem runController_frame (script : ControllerScript) (s : SimState) :
    frameOf (runController script s) = frameOf s := by
  unfold runController
  split
  · rfl
  · exact executeController_frame script s

theorem spawnMarbles_frame (s : SimState) :
    frameOf (spawnMarbles s) = frameOf s := by
  unfold spawnMarbles
  split
  · rfl
  · have h : ∀ (ks : List String) (st : SimState),
        frameOf (ks.foldl (fun st nid =>
          match mget st.graph.nodes nid with
          | some (.source d) =>
              if st.marbles.any (fun m =>
                  match mget st.graph.edges m.edgeId with
                  | some edge => edge.from_ = d.id ∧ m.progress = 0
                  | none => false)
              then st else handleSource st d []
          | _ => st) st) = frameOf st := by
      intro ks
      induction ks with
      | nil => intro st; rfl
      | cons k rest ih =>
          intro st
          rw [List.foldl_cons]
          refine (ih _).trans ?_
          split
          next d hd =>
            split
            · rfl
            · exact (preserves_handleSource st d []).1
          · rfl
    exact h _ s

theorem tickPeriodicNodes_frame (s : SimState) (processed : List String) :
    frameOf (tickPeriodicNodes s processed) = frameOf s := by
  unfold tickPeriodicNodes
  have h : ∀ (ks : List String) (st : SimState),
      frameOf (ks.foldl (fun st nid =>
        match mget st.graph.nodes nid with
        | some node =>
            if node.isPeriodicType ∧ nid ∉ processed then runHandler st node []
            else st
        | none => st) st) = frameOf st := by
    intro ks
    induction ks with
    | nil => intro st; rfl
    | cons k rest ih =>
        intro st
        rw [List.foldl_cons]
        refine (ih _).trans ?_
        split
        next node hnode =>
          split
          · exact (preserves_runHandler st node []).1
          · rfl
        · rfl
  exact h _ s

theorem tick_frame (script : ControllerScript) (s : SimState) :
    frameOf (tick script s) =
    frameOf { s with tickCount := s.tickCount + 1 } := by
  unfold tick
  dsimp only
  rw [tickPeriodicNodes_frame, spawnMarbles_frame, runController_frame,
    processArrivals_frame]
  rfl

theorem tick_controllerCode (script : ControllerScript) (s : SimState) :
    (tick script s).controllerCode = s.controllerCode := by
  have h2 := congrArg Frame.controllerCode (tick_frame script s)
  exact h2

theorem tickN_controllerCode (script : ControllerScript) (n : Nat)
    (s : SimState) : (tickN script n s).controllerCode = s.controllerCode := by
  induction n with
  | zero => rfl
  | succ k ih => exact (tick_controllerCode script _).trans ih

theorem empty_trim : jsTrim "" = "" := by decide

theorem runController_noScript (scr : ControllerScript) (t : SimState)
    (h : t.controllerCode = "") : runController scr t = t := by
  unfold runController
  rw [if_pos (by rw [h]; exact empty_trim)]

theorem tick_script_agnostic (scr₁ scr₂ : ControllerScript) (s : SimState)
    (h : s.controllerCode = "") : tick scr₁ s = tick scr₂ s := by
  unfold tick
  dsimp only
  have hcode : (processArrivals
      (advanceMarbles { s with tickCount := s.tickCount + 1 })).1.controllerCode
      = "" := by
    have h1 := processArrivals_frame
      (advanceMarbles { s with tickCount := s.tickCount + 1 })
    have h2 := congrArg Frame.controllerCode h1
    exact h2.trans h
  rw [runController_noScript scr₁ _ hcode, runController_noScript scr₂ _ hcode]

-- ---------------------------------------------------------------------------
-- Claim theorems: C1, C2
-- ---------------------------------------------------------------------------

/-- C1 — Determinism of the step engine: for every graph and seed, two
independent runs of the tick engine from identical initial simulation
states (with no controller script attached, so that only the engine proper
runs) produce, after every tick, identical marble lists — same ids,
progress, edge, color, in the same order — and identical generator state;
this holds even when the two runs are driven by two different controller
hosts, since the controller phase is skipped for script-free states. -/
theorem engine_determinism (scr₁ scr₂ : ControllerScript) (s₁ s₂ : SimState)
    (hEq : s₁ = s₂) (hCode : s₁.controllerCode = "") (n : Nat) :
    (tickN scr₁ n s₁).marbles = (tickN scr₂ n s₂).marbles ∧
    (tickN scr₁ n s₁).rng = (tickN scr₂ n s₂).rng := by
  subst hEq
  have hAll : tickN scr₁ n s₁ = tickN scr₂ n s₁ := by
    induction n with
    | zero => rfl
    | succ k ih =>
        show tick scr₁ (tickN scr₁ k s₁) = tick scr₂ (tickN scr₂ k s₁)
        rw [← ih]
        exact tick_script_agnostic scr₁ scr₂ _
          ((tickN_controllerCode scr₁ k s₁).trans hCode)
  rw [hAll]
  exact ⟨rfl, rfl⟩

/-- Witness for C1 at a concrete state and two different controller hosts. -/
theorem engine_determinism_witness :
    (tickN silentScript 3 demoState).marbles =
      (tickN noisyScript 3 demoState).marbles ∧
    (tickN silentScript 3 demoState).rng =
      (tickN noisyScript 3 demoState).rng :=
  engine_determinism silentScript noisyScript demoState demoState rfl (by rfl) 3

/-- C2 — Immutability of the prior state: `tick` deep-clones the caller's
state object (`structuredClone`) and every phase mutates only the clone.
On the explicit heap of live state objects, ticking the state at address
`a` leaves every existing cell — in particular the caller's state, with
its graph, marble list, step counter and generator state — exactly as it
was, and returns the fully-ticked clone at a fresh address. -/
theorem tick_immutable (script : ControllerScript) (heap : List SimState)
    (a : Nat) (heap' : List SimState) (b : Nat)
    (h : tickOnHeap script heap a = some (heap', b)) :
    (∀ i, i < heap.length → heap'.get? i = heap.get? i) ∧
    heap'.get? a = heap.get? a ∧
    b = heap.length ∧
    ∃ s, heap.get? a = some s ∧ heap'.get? b = some (tick script s) := by
  unfold tickOnHeap at h
  cases hget : heap.get? a with
  | none => rw [hget] at h; exact absurd h (by simp)
  | some s =>
      rw [hget] at h
      have hpair : heap' = heap ++ [tick script s] ∧ b = heap.length := by
        have := Option.some.inj h
        exact ⟨(congrArg Prod.fst this).symm, (congrArg Prod.snd this).symm⟩
      obtain ⟨h1, h2⟩ := hpair
      subst h1
      subst h2
      have hlt : a < heap.length := by
        by_contra hge
        rw [List.get?_eq_none.mpr (Nat.le_of_not_lt hge)] at hget
        cases hget
      refine ⟨?_, ?_, rfl, s, rfl, ?_⟩
      · intro i hi
        exact List.get?_append hi
      · exact (List.get?_append hlt).trans hget
      · rw [List.get?_append_right (Nat.le_refl _)]
        simp

/-- Witness for C2 on a concrete one-cell heap. -/
theorem tick_immutable_witness :
    (∀ i, i < [demoState].length →
      ([demoState] ++ [tick silentScript demoState]).get? i =
        [demoState].get? i) ∧
    ([demoState] ++ [tick silentScript demoState]).get? 0 =
      [demoState].get? 0 ∧
    1 = [demoState].length ∧
    ∃ s, [demoState].get? 0 = some s ∧
      ([demoState] ++ [tick silentScript demoState]).get? 1 =
        some (tick silentScript s) :=
  tick_immutable silentScript [demoState] 0
    ([demoState] ++ [tick silentScript demoState]) 1 rfl

theorem mset_mset {β : Type} (m : List (String × β)) (k : String)
    (v1 v2 : β) : mset (mset m k v1) k v2 = mset m k v2 := by
  induction m with
  | nil => simp [mset]
  | cons kv rest ih =>
      by_cases hk : kv.1 = k
      · simp [mset, hk]
      · simp [mset, hk, ih]

theorem mset_eq_of_mget {β : Type} {m : List (String × β)} {k : String}
    {v : β} (h : mget m k = some v) : mset m k v = m := by
  induction m with
  | nil => simp [mget] at h
  | cons kv rest ih =>
      by_cases hk : kv.1 = k
      · simp only [mget, if_pos hk, Option.some.injEq] at h
        obtain ⟨k1, v1⟩ := kv
        simp only at hk h
        simp [mset, hk, h]
      · simp only [mget, if_neg hk] at h
        simp [mset, hk, ih h]

/-- The fully-characterized state left by the bucket handler's arrival
absorption loop. -/
theorem bucket_absorb_state (nid : String) (arr : List Marble) :
    ∀ (s : SimState) (b0 : BucketNode),
      mget s.graph.nodes nid = some (.bucket b0) →
      (arr.foldl (fun st mb =>
        let st1 := removeMarble st mb
        match mget st1.graph.nodes nid with
        | some (.bucket mm) =>
            setNode st1 nid
              (.bucket { mm with currentFill := mm.currentFill + 1 })
        | _ => st1) s) =
      { s with
        marbles := eraseAll s.marbles arr
        graph := { s.graph with nodes := mset s.graph.nodes nid (SimNode.bucket { b0 with currentFill := b0.currentFill + arr.length }) } } := by
  induction arr with
  | nil =>
      intro s b0 h
      show s = _
      have hval : ({ b0 with currentFill := b0.currentFill + ([] : List Marble).length } :
          BucketNode) = b0 := by
        simp
      rw [hval, mset_eq_of_mget h]
      rfl
  | cons mb rest ih =>
      intro s b0 h
      rw [List.foldl_cons]
      dsimp only
      have hfetch : mget (removeMarble s mb).graph.nodes nid =
          some (.bucket b0) := h
      rw [hfetch]
      dsimp only
      rw [ih (setNode (removeMarble s mb) nid
          (.bucket { b0 with currentFill := b0.currentFill + 1 }))
        { b0 with currentFill := b0.currentFill + 1 }
        (mget_mset_self _ _ _)]
      show ({ s with
        marbles := eraseAll (eraseFirst s.marbles mb) rest
        graph := { s.graph with nodes := mset (mset s.graph.nodes nid (SimNode.bucket { b0 with currentFill := b0.currentFill + 1 })) nid (SimNode.bucket { b0 with currentFill := b0.currentFill + 1 + rest.length }) } } : SimState) = _
      rw [mset_mset]
      have harith : b0.currentFill + 1 + rest.length =
          b0.currentFill + (mb :: rest).length := by
        simp only [List.length_cons]
        omega
      rw [harith]
      rfl

theorem spawnFold_state (eid nid : String) (c : MarbleColor) (n : Nat) :
    ∀ st : SimState,
      ((List.range n).foldl (fun st _ => spawnMarbleOnEdge st eid nid c) st) =
      { st with marbles := st.marbles ++
          spawnBatch eid nid c st.tickCount st.marbles.length n } := by
  induction n with
  | zero =>
      intro st
      show st = _
      simp [spawnBatch]
  | succ n ih =>
      intro st
      rw [List.range_succ, List.foldl_append, ih st, List.foldl_cons,
        List.foldl_nil]
      simp only [spawnMarbleOnEdge, generateMarbleId, spawnBatch,
        List.range_succ, List.map_append, List.map_cons, List.map_nil,
        List.length_append, List.length_map, List.length_range,
        List.append_assoc]

/-- C6 (amended) — Overflow-bucket clamp invariant: for every bucket node
in overflow release mode **with at least one outgoing edge**, after its
handler runs in any tick its `currentFill` is clamped to
`min (currentFill + arrivals) capacity`, which never exceeds the capacity,
and exactly the excess beyond the capacity
(`currentFill + arrivals − capacity`, i.e. nothing while fill stays below
capacity) is emitted onto the first outgoing edge.  Without an outgoing
edge the release branch of the handler is unreachable and the fill is not
clamped, which is what forces the amendment. -/
theorem bucket_overflow_clamp (s : SimState) (d : BucketNode)
    (arr : List Marble) (hn : mget s.graph.nodes d.id = some (.bucket d))
    (hmode : d.releaseMode = .overflow) (e0 : SimEdge) (rest : List SimEdge)
    (hEdges : getOutgoingEdges s d.id = e0 :: rest) :
    ∃ spawned : List Marble,
      mget (handleBucket s d arr).graph.nodes d.id =
        some (.bucket { d with
          currentFill := min (d.currentFill + arr.length) d.capacity }) ∧
      min (d.currentFill + arr.length) d.capacity ≤ d.capacity ∧
      (handleBucket s d arr).marbles = eraseAll s.marbles arr ++ spawned ∧
      spawned.length = (d.currentFill + arr.length) - d.capacity := by
  unfold handleBucket
  rw [hn]
  dsimp only
  rw [bucket_absorb_state d.id arr s d hn, hEdges]
  have hfetch2 : mget ({ s with marbles := eraseAll s.marbles arr, graph := { s.graph with nodes := mset s.graph.nodes d.id (SimNode.bucket { d with currentFill := d.currentFill + arr.length }) } } : SimState).graph.nodes d.id = some (SimNode.bucket { d with currentFill := d.currentFill + arr.length }) := mget_mset_self _ _ _
  rw [hfetch2]
  dsimp only
  by_cases hcap : d.capacity ≤ d.currentFill + arr.length
  · rw [if_pos hcap, hmode]
    dsimp only
    rw [spawnFold_state]
    refine ⟨spawnBatch e0.id d.id .white s.tickCount
      (eraseAll s.marbles arr).length (d.currentFill + arr.length - d.capacity),
      ?_, Nat.min_le_right _ _, ?_, ?_⟩
    · show mget (mset _ d.id _) d.id = _
      rw [mget_mset_self, Nat.min_eq_right hcap]
    · rfl
    · simp [spawnBatch]
  · rw [if_neg hcap]
    refine ⟨[], ?_, Nat.min_le_right _ _, by simp,
      by simp only [List.length_nil]; omega⟩
    show mget (mset _ d.id _) d.id = _
    rw [mget_mset_self, Nat.min_eq_left (Nat.le_of_not_le hcap)]

/-- Witness for C6 on the concrete overflow bucket. -/
theorem bucket_overflow_clamp_witness :
    ∃ spawned : List Marble,
      mget (handleBucket bucketDemoState bucketDemoNode
          bucketDemoArr).graph.nodes bucketDemoNode.id =
        some (.bucket { bucketDemoNode with
          currentFill := min (bucketDemoNode.currentFill +
            bucketDemoArr.length) bucketDemoNode.capacity }) ∧
      min (bucketDemoNode.currentFill + bucketDemoArr.length)
        bucketDemoNode.capacity ≤ bucketDemoNode.capacity ∧
      (handleBucket bucketDemoState bucketDemoNode bucketDemoArr).marbles =
        eraseAll bucketDemoState.marbles bucketDemoArr ++ spawned ∧
      spawned.length = (bucketDemoNode.currentFill + bucketDemoArr.length) -
        bucketDemoNode.capacity :=
  bucket_overflow_clamp bucketDemoState bucketDemoNode bucketDemoArr
    (by decide) rfl bucketDemoEdge [] (by decide)

/-- Counterexample to C6 as stated: a bucket in overflow mode with no
outgoing edge absorbs two arrivals past its capacity of 1 and its
`currentFill` ends at 2 > 1 — the clamp never runs, refuting
"currentFill never exceeds its capacity". -/
theorem bucket_overflow_clamp_cex :
    cexBucketNode.releaseMode = .overflow ∧
    cexBucketNode.capacity = 1 ∧
    mget (handleBucket cexBucketState cexBucketNode
        cexBucketState.marbles).graph.nodes "b" =
      some (.bucket { cexBucketNode with currentFill := 2 }) ∧
    ¬ (2 ≤ cexBucketNode.capacity) := by
  decide

/-- The fully-characterized state left by the basin handler's arrival
absorption loop. -/
theorem basin_absorb_state (nid : String) (arr : List Marble) :
    ∀ (s : SimState) (b0 : BasinNode),
      mget s.graph.nodes nid = some (.basin b0) →
      (arr.foldl (fun st mb =>
        let st1 := removeMarble st mb
        match mget st1.graph.nodes nid with
        | some (.basin mm) =>
            setNode st1 nid
              (.basin { mm with
                contents := mm.contents.set mb.color (mm.contents.get mb.color + 1) })
        | _ => st1) s) =
      { s with
        marbles := eraseAll s.marbles arr
        graph := { s.graph with nodes := mset s.graph.nodes nid (SimNode.basin { b0 with contents := absorbContents b0.contents arr }) } } := by
  induction arr with
  | nil =>
      intro s b0 h
      show s = _
      have hval : ({ b0 with contents := absorbContents b0.contents [] } :
          BasinNode) = b0 := rfl
      rw [hval, mset_eq_of_mget h]
      rfl
  | cons mb rest ih =>
      intro s b0 h
      rw [List.foldl_cons]
      dsimp only
      have hfetch : mget (removeMarble s mb).graph.nodes nid =
          some (.basin b0) := h
      rw [hfetch]
      dsimp only
      rw [ih (setNode (removeMarble s mb) nid
          (.basin { b0 with
            contents := b0.contents.set mb.color (b0.contents.get mb.color + 1) }))
        { b0 with
          contents := b0.contents.set mb.color (b0.contents.get mb.color + 1) }
        (mget_mset_self _ _ _)]
      show ({ s with
        marbles := eraseAll (eraseFirst s.marbles mb) rest
        graph := { s.graph with nodes := mset (mset s.graph.nodes nid (SimNode.basin { b0 with contents := b0.contents.set mb.color (b0.contents.get mb.color + 1) })) nid (SimNode.basin { b0 with contents := absorbContents (b0.contents.set mb.color (b0.contents.get mb.color + 1)) rest }) } } : SimState) = _
      rw [mset_mset]
      rfl

/-- C5 (amended) — Basin extraction: for every basin node with at least one
outgoing edge whose extraction cooldown reaches zero in a tick, after
absorbing its arrivals into the per-color counters the handler extracts one
marble of the target color **when a target color is set and available**;
extracts one marble of the first available palette color **when no target
color is set**; and extracts nothing otherwise — in particular, when the
target color is set but unavailable, nothing is emitted even if other
colors are available (this is where the original claim fails), and when the
basin is empty nothing is emitted.  Extraction decrements the chosen
color's counter, resets the cooldown to the extraction rate, and emits one
marble of that color at progress 0 on the first outgoing edge. -/
theorem basin_extraction (s : SimState) (d : BasinNode) (arr : List Marble)
    (hn : mget s.graph.nodes d.id = some (.basin d))
    (e0 : SimEdge) (rest : List SimEdge)
    (hEdges : getOutgoingEdges s d.id = e0 :: rest)
    (hCd : d.extractCooldown - 1 ≤ 0) :
    match basinPick (absorbContents d.contents arr) d.extractColor with
    | some c =>
        mget (handleBasin s d arr).graph.nodes d.id =
          some (.basin { d with
            contents := (absorbContents d.contents arr).set c
              ((absorbContents d.contents arr).get c - 1)
            extractCooldown := d.extractRate }) ∧
        (handleBasin s d arr).marbles = eraseAll s.marbles arr ++
          [{ id := "m-" ++ toString s.tickCount ++ "-" ++ d.id ++ "-" ++
              toString (eraseAll s.marbles arr).length,
             edgeId := e0.id, progress := 0, speed := DEFAULT_MARBLE_SPEED,
             color := c }]
    | none =>
        mget (handleBasin s d arr).graph.nodes d.id =
          some (.basin { d with
            contents := absorbContents d.contents arr
            extractCooldown := d.extractRate }) ∧
        (handleBasin s d arr).marbles = eraseAll s.marbles arr := by
  have hunfold : handleBasin s d arr =
      (match basinPick (absorbContents d.contents arr) d.extractColor with
       | some c =>
          spawnMarbleOnEdge (setNode ({ s with
            marbles := eraseAll s.marbles arr
            graph := { s.graph with nodes := mset s.graph.nodes d.id (SimNode.basin { d with contents := absorbContents d.contents arr }) } } : SimState) d.id
            (.basin { d with
              contents := (absorbContents d.contents arr).set c
                ((absorbContents d.contents arr).get c - 1)
              extractCooldown := d.extractRate }))
            e0.id d.id c
       | none =>
          setNode ({ s with
            marbles := eraseAll s.marbles arr
            graph := { s.graph with nodes := mset s.graph.nodes d.id (SimNode.basin { d with contents := absorbContents d.contents arr }) } } : SimState) d.id
            (.basin { d with
              contents := absorbContents d.contents arr
              extractCooldown := d.extractRate })) := by
    unfold handleBasin
    rw [hn]
    dsimp only
    rw [basin_absorb_state d.id arr s d hn, hEdges]
    have hfetch2 : mget ({ s with marbles := eraseAll s.marbles arr, graph := { s.graph with nodes := mset s.graph.nodes d.id (SimNode.basin { d with contents := absorbContents d.contents arr }) } } : SimState).graph.nodes d.id = some (SimNode.basin { d with contents := absorbContents d.contents arr }) := mget_mset_self _ _ _
    rw [hfetch2]
    dsimp only
    rw [if_pos hCd]
  rcases hpick : basinPick (absorbContents d.contents arr) d.extractColor with
    _ | c
  · rw [hunfold, hpick]
    constructor
    · exact mget_mset_self _ _ _
    · rfl
  · rw [hunfold, hpick]
    constructor
    · show mget (mset _ d.id _) d.id = _
      rw [mget_mset_self]
    · rfl

/-- Witness for C5 on the concrete basin: the green arrival is absorbed,
the palette fallback picks blue (the first available color), its counter
drops from 2 to 1, the cooldown resets to the extraction rate 5, and one
blue marble is emitted on the outgoing edge. -/
theorem basin_extraction_witness :
    demoBasinNode.extractCooldown - 1 ≤ 0 ∧
    mget (handleBasin demoBasinState demoBasinNode
        [demoGreenMarble]).graph.nodes demoBasinNode.id =
      some (.basin { demoBasinNode with
        contents := ⟨0, 1, 1, 0, 0, 0, 0, 0⟩
        extractCooldown := 5 }) ∧
    (handleBasin demoBasinState demoBasinNode [demoGreenMarble]).marbles =
      [{ id := "m-0-d-0", edgeId := "ed", progress := 0,
         speed := DEFAULT_MARBLE_SPEED, color := .blue }] := by
  have h := basin_extraction demoBasinState demoBasinNode [demoGreenMarble]
    (by decide) demoBasinEdge [] rfl (by decide)
  have hp : basinPick (absorbContents demoBasinNode.contents
      [demoGreenMarble]) demoBasinNode.extractColor = some .blue := by decide
  rw [hp] at h
  obtain ⟨ha, hb⟩ := h
  refine ⟨by decide, ?_, ?_⟩
  · rw [ha]; decide
  · rw [hb]; rfl

/-- Counterexample to C5 as stated: a basin whose target color (red) has a
zero counter emits nothing on cooldown expiry even though a blue marble is
available and an outgoing edge exists — there is no "otherwise one marble
of any available color" fallback when a target color is set. -/
theorem basin_extraction_cex :
    cexBasinNode.extractColor = some .red ∧
    cexBasinNode.contents.get .red = 0 ∧
    cexBasinNode.contents.get .blue = 1 ∧
    cexBasinNode.extractCooldown - 1 ≤ 0 ∧
    getOutgoingEdges cexBasinState "d" ≠ [] ∧
    (handleBasin cexBasinState cexBasinNode []).marbles = [] ∧
    mget (handleBasin cexBasinState cexBasinNode []).graph.nodes "d" =
      some (.basin { cexBasinNode with extractCooldown := 5 }) := by
  decide

theorem outIds_eq_gOutIds (s : SimState) (nid : String) :
    outIds s nid = gOutIds s.graph nid := rfl

theorem gOutIds_frame_congr {s t : SimState} (h : frameOf t = frameOf s)
    (nid : String) : gOutIds t.graph nid = gOutIds s.graph nid := by
  have he := congrArg Frame.edges h
  have ha := congrArg Frame.adjacency h
  unfold gOutIds
  rw [show t.graph.edges = s.graph.edges from he,
      show t.graph.adjacency = s.graph.adjacency from ha]

theorem mget_ne_none_of_mem {β : Type} {m : List (String × β)} {k : String}
    {v : β} (h : (k, v) ∈ m) : mget m k ≠ none := by
  induction m with
  | nil => cases h
  | cons kv rest ih =>
      rcases List.mem_cons.mp h with h | h
      · unfold mget
        rw [← h]
        simp
      · unfold mget
        by_cases hk : kv.1 = k
        · simp [hk]
        · simpa [hk] using ih h

/-- Membership of an id in the adjacency-resolved out-edge list names an
edge of the graph leaving from that node. -/
theorem gOutIds_owner {g : SimGraph} (hek : EdgesKeyed g)
    (hadj : adjConsistent g = true) {nid eid : String}
    (h : eid ∈ gOutIds g nid) :
    ∃ e : SimEdge, mget g.edges eid = some e ∧ e.from_ = nid := by
  unfold gOutIds at h
  rcases List.mem_map.mp h with ⟨e, he, heid⟩
  rcases List.mem_filterMap.mp he with ⟨a, ha, hres⟩
  have hid : e.id = a := hek.resolve hres
  have hkey : a ∈ (mget g.adjacency nid).getD [] := ha
  have hnid : nid ∈ mkeys g.adjacency := by
    rcases hadjv : mget g.adjacency nid with _ | lst
    · rw [hadjv] at hkey
      cases hkey
    · rcases mget_mem hadjv with hm
      exact List.mem_map.mpr ⟨(nid, lst), hm, rfl⟩
  have hcons := List.all_eq_true.mp hadj nid hnid
  have hcons2 := List.all_eq_true.mp hcons a hkey
  rw [hres] at hcons2
  refine ⟨e, ?_, ?_⟩
  · rw [← heid, hid]
    exact hres
  · exact of_decide_eq_true hcons2

theorem mkeys_mset_nodup {β : Type} (m : List (String × β)) (k : String)
    (v : β) (h : (mkeys m).Nodup) : (mkeys (mset m k v)).Nodup := by
  induction m with
  | nil => simp [mset, mkeys]
  | cons kv rest ih =>
      simp only [mkeys, List.map_cons, List.nodup_cons] at h
      by_cases hk : kv.1 = k
      · simp only [mset, if_pos hk, mkeys, List.map_cons, List.nodup_cons]
        exact ⟨h.1, h.2⟩
      · simp only [mset, if_neg hk, mkeys, List.map_cons, List.nodup_cons]
        constructor
        · intro hmem
          have hsub : kv.1 ∈ mkeys rest ∨ kv.1 = k := by
            rcases List.mem_map.mp hmem with ⟨kw, hkw, hfst⟩
            rcases mem_mset_sub kw hkw with h2 | h2
            · right
              rw [← hfst, h2]
            · left
              exact List.mem_map.mpr ⟨kw, h2, hfst⟩
          rcases hsub with h1 | h1
          · exact h.1 h1
          · exact hk h1
        · exact ih h.2

theorem arrivalGroups_eq_fold (s : SimState) :
    arrivalGroups s = s.marbles.foldl (agStep s) [] := rfl

/-- Every marble filed in an arrival group is a live marble with progress
at least 1 whose edge resolves to an edge ending at the group's node. -/
theorem arrivalGroups_mem (s : SimState) :
    ∀ kv ∈ arrivalGroups s, ∀ mb ∈ kv.2,
      mb ∈ s.marbles ∧ 1 ≤ mb.progress ∧
      ∃ e, mget s.graph.edges mb.edgeId = some e ∧ e.to_ = kv.1 := by
  have key : ∀ (ms : List Marble) (gs0 : List (String × List Marble)),
      (∀ kv ∈ gs0, ∀ mb ∈ kv.2,
        mb ∈ s.marbles ∧ 1 ≤ mb.progress ∧
        ∃ e, mget s.graph.edges mb.edgeId = some e ∧ e.to_ = kv.1) →
      (∀ mb ∈ ms, mb ∈ s.marbles) →
      ∀ kv ∈ ms.foldl (agStep s) gs0,
        ∀ mb ∈ kv.2,
          mb ∈ s.marbles ∧ 1 ≤ mb.progress ∧
          ∃ e, mget s.graph.edges mb.edgeId = some e ∧ e.to_ = kv.1 := by
    intro ms
    induction ms with
    | nil => intro gs0 h0 _; exact h0
    | cons m rest ih =>
        intro gs0 h0 hms
        rw [List.foldl_cons]
        have hmem : m ∈ s.marbles := hms m (List.mem_cons_self _ _)
        have hrest : ∀ mb ∈ rest, mb ∈ s.marbles :=
          fun mb hmb => hms mb (List.mem_cons_of_mem _ hmb)
        unfold agStep
        by_cases hp : m.progress < 1
        · rw [if_pos hp]
          exact ih gs0 h0 hrest
        · rw [if_neg hp]
          rcases hres : mget s.graph.edges m.edgeId with _ | edge
          · exact ih gs0 h0 hrest
          · have hP : m ∈ s.marbles ∧ 1 ≤ m.progress ∧
                ∃ e, mget s.graph.edges m.edgeId = some e ∧ e.to_ = edge.to_ :=
              ⟨hmem, le_of_not_lt hp, edge, hres, rfl⟩
            dsimp only
            rcases hgrp : mget gs0 edge.to_ with _ | existing
            · dsimp only
              refine ih _ ?_ hrest
              intro kv hkv mb hmb
              rcases mem_mset_sub kv hkv with h | h
              · rw [h] at hmb ⊢
                rw [List.mem_singleton.mp hmb]
                exact hP
              · exact h0 kv h mb hmb
            · dsimp only
              refine ih _ ?_ hrest
              intro kv hkv mb hmb
              rcases mem_mset_sub kv hkv with h | h
              · rw [h] at hmb ⊢
                rcases List.mem_append.mp hmb with h2 | h2
                · exact h0 (edge.to_, existing) (mget_mem hgrp) mb h2
                · rw [List.mem_singleton.mp h2]
                  exact hP
              · exact h0 kv h mb hmb
  rw [arrivalGroups_eq_fold]
  exact key s.marbles [] (by intro kv h; cases h) (fun mb h => h)

/-- The arrival grouping holds each destination node at most once. -/
theorem arrivalGroups_keys_nodup (s : SimState) :
    (mkeys (arrivalGroups s)).Nodup := by
  have key : ∀ (ms : List Marble) (gs0 : List (String × List Marble)),
      (mkeys gs0).Nodup → (mkeys (ms.foldl (agStep s) gs0)).Nodup := by
    intro ms
    induction ms with
    | nil => intro gs0 h0; exact h0
    | cons m rest ih =>
        intro gs0 h0
        rw [List.foldl_cons]
        unfold agStep
        by_cases hp : m.progress < 1
        · rw [if_pos hp]; exact ih gs0 h0
        · rw [if_neg hp]
          rcases hres : mget s.graph.edges m.edgeId with _ | edge
          · exact ih gs0 h0
          · dsimp only
            rcases hgrp : mget gs0 edge.to_ with _ | existing
            · dsimp only
              exact ih _ (mkeys_mset_nodup _ _ _ h0)
            · dsimp only
              exact ih _ (mkeys_mset_nodup _ _ _ h0)
  rw [arrivalGroups_eq_fold]
  exact key s.marbles [] List.nodup_nil

/-- No arrival group stores more copies of a marble value than the live
marble list holds. -/
theorem arrivalGroups_count (s : SimState) :
    ∀ kv ∈ arrivalGroups s, ∀ v : Marble,
      countOf kv.2 v ≤ countOf s.marbles v := by
  have key : ∀ (ms : List Marble) (gs0 : List (String × List Marble))
      (pre : List Marble),
      (∀ kv ∈ gs0, ∀ v : Marble, countOf kv.2 v ≤ countOf pre v) →
      ∀ kv ∈ ms.foldl (agStep s) gs0,
        ∀ v : Marble, countOf kv.2 v ≤ countOf (pre ++ ms) v := by
    intro ms
    induction ms with
    | nil =>
        intro gs0 pre h0 kv hkv v
        simpa using h0 kv hkv v
    | cons m rest ih =>
        intro gs0 pre h0
        rw [List.foldl_cons]
        have hstep : ∀ gs1 : List (String × List Marble),
            (∀ kv ∈ gs1, ∀ v : Marble,
              countOf kv.2 v ≤ countOf (pre ++ [m]) v) →
            ∀ kv ∈ rest.foldl (agStep s) gs1,
              ∀ v : Marble, countOf kv.2 v ≤ countOf (pre ++ m :: rest) v := by
          intro gs1 h1 kv hkv v
          have h2 := ih gs1 (pre ++ [m]) h1 kv hkv v
          rw [List.append_assoc] at h2
          simpa using h2
        have hmono : ∀ kv ∈ gs0, ∀ v : Marble,
            countOf kv.2 v ≤ countOf (pre ++ [m]) v := by
          intro kv hkv v
          refine (h0 kv hkv v).trans ?_
          unfold countOf
          rw [List.count_append]
          omega
        unfold agStep
        by_cases hp : m.progress < 1
        · rw [if_pos hp]
          exact hstep gs0 hmono
        · rw [if_neg hp]
          rcases hres : mget s.graph.edges m.edgeId with _ | edge
          · exact hstep gs0 hmono
          · dsimp only
            rcases hgrp : mget gs0 edge.to_ with _ | existing
            · dsimp only
              refine hstep _ ?_
              intro kv hkv v
              rcases mem_mset_sub kv hkv with h | h
              · rw [h]
                show countOf [m] v ≤ countOf (pre ++ [m]) v
                unfold countOf
                rw [List.count_append]
                omega
              · exact hmono kv h v
            · dsimp only
              refine hstep _ ?_
              intro kv hkv v
              rcases mem_mset_sub kv hkv with h | h
              · rw [h]
                show countOf (existing ++ [m]) v ≤ countOf (pre ++ [m]) v
                have hex := h0 (edge.to_, existing) (mget_mem hgrp) v
                dsimp only at hex
                unfold countOf at hex ⊢
                rw [List.count_append, List.count_append]
                omega
              · exact hmono kv h v
  intro kv hkv v
  rw [arrivalGroups_eq_fold] at hkv
  have h := key s.marbles [] [] (by intro kv h; cases h) kv hkv v
  simpa using h

/-- Arrival groups are never empty. -/
theorem arrivalGroups_nonempty (s : SimState) :
    ∀ kv ∈ arrivalGroups s, kv.2 ≠ [] := by
  have key : ∀ (ms : List Marble) (gs0 : List (String × List Marble)),
      (∀ kv ∈ gs0, kv.2 ≠ []) →
      ∀ kv ∈ ms.foldl (agStep s) gs0, kv.2 ≠ [] := by
    intro ms
    induction ms with
    | nil => intro gs0 h0; exact h0
    | cons m rest ih =>
        intro gs0 h0
        rw [List.foldl_cons]
        unfold agStep
        by_cases hp : m.progress < 1
        · rw [if_pos hp]; exact ih gs0 h0
        · rw [if_neg hp]
          rcases hres : mget s.graph.edges m.edgeId with _ | edge
          · exact ih gs0 h0
          · dsimp only
            rcases hgrp : mget gs0 edge.to_ with _ | existing
            · dsimp only
              refine ih _ ?_
              intro kv hkv
              rcases mem_mset_sub kv hkv with h | h
              · rw [h]; simp
              · exact h0 kv h
            · dsimp only
              refine ih _ ?_
              intro kv hkv
              rcases mem_mset_sub kv hkv with h | h
              · rw [h]; simp
              · exact h0 kv h
  rw [arrivalGroups_eq_fold]
  exact key s.marbles [] (by intro kv h; cases h)

theorem spawnMarbles_eq (s : SimState) :
    spawnMarbles s =
      if MAX_MARBLES ≤ s.marbles.length then s
      else (mkeys s.graph.nodes).foldl spawnStep s := rfl

theorem tickPeriodicNodes_eq (s : SimState) (processed : List String) :
    tickPeriodicNodes s processed =
      (mkeys s.graph.nodes).foldl (periodicStep processed) s := rfl

theorem PhasePreserves.reflPhase {did : String} {Cond : (Marble → Bool) → Prop}
    {s : SimState} : PhasePreserves did Cond s s :=
  ⟨Eq.refl _, Eq.refl _, Eq.refl _, fun h => h, Eq.refl _, fun _ _ => Eq.refl _⟩

theorem PhasePreserves.transPhase {did : String} {Cond : (Marble → Bool) → Prop}
    {s t u : SimState} (h1 : PhasePreserves did Cond s t)
    (h2 : PhasePreserves did Cond t u) : PhasePreserves did Cond s u := by
  obtain ⟨f1, n1, c1, k1, e1, m1⟩ := h1
  obtain ⟨f2, n2, c2, k2, e2, m2⟩ := h2
  exact ⟨f2.trans f1, n2.trans n1, c2.trans c1, fun h => k2 (k1 h),
    e2.trans e1, fun p hp => (m2 p hp).trans (m1 p hp)⟩

/-- Any single-handler effect converts to a phase-preservation step when
the handled node is not the protected one and the predicate family rejects
its arrivals and its fresh own-edge spawns. -/
theorem Preserves.toPhase {hid : String} {arr : List Marble}
    {out0 : List String} {s t : SimState} {did : String}
    {Cond : (Marble → Bool) → Prop}
    (h : Preserves hid arr out0 s t) (hne : hid ≠ did)
    (hc : ∀ p, Cond p → (∀ mb ∈ arr, p mb = false) ∧
      (∀ w : Marble, w.edgeId ∈ out0 → w.progress = 0 → p w = false)) :
    PhasePreserves did Cond s t :=
  ⟨h.1, h.2.1 did (fun hd => hne hd.symm),
   h.2.2.1 did (fun hd => hne hd.symm), h.2.2.2.1, h.2.2.2.2.1,
   fun p hp => h.2.2.2.2.2 p (hc p hp).1 (hc p hp).2⟩

theorem getOutgoingEdges_congr {s t : SimState}
    (he : t.graph.edges = s.graph.edges)
    (ha : t.graph.adjacency = s.graph.adjacency) (nid : String) :
    getOutgoingEdges t nid = getOutgoingEdges s nid := by
  unfold getOutgoingEdges
  rw [he, ha]

theorem gOutIds_eq_of {s : SimState} {g : SimGraph}
    (he : s.graph.edges = g.edges) (ha : s.graph.adjacency = g.adjacency)
    (nid : String) : outIds s nid = gOutIds g nid := by
  unfold outIds getOutgoingEdges gOutIds
  rw [he, ha]

theorem processArrivals_eq (s : SimState) :
    processArrivals s = (arrivalGroups s).foldl paStep (s, []) := rfl

/-- The arrival-dispatch loop over a list of groups, none of which belongs
to the protected node, is a phase-preservation segment. -/
theorem groupFold_phase (did : String) (Cond : (Marble → Bool) → Prop)
    (g0 : SimGraph) (gs : List (String × List Marble))
    (hne : ∀ kv ∈ gs, kv.1 ≠ did)
    (hstep : ∀ p, Cond p → ∀ kv ∈ gs,
      (∀ mb ∈ kv.2, p mb = false) ∧
      (∀ w : Marble, w.edgeId ∈ gOutIds g0 kv.1 → w.progress = 0 →
        p w = false)) :
    ∀ acc : SimState × List String,
      acc.1.graph.edges = g0.edges → acc.1.graph.adjacency = g0.adjacency →
      NodesKeyed acc.1.graph →
      PhasePreserves did Cond acc.1 ((gs.foldl paStep acc).1) := by
  induction gs with
  | nil => intro acc _ _ _; exact PhasePreserves.reflPhase
  | cons kv rest ih =>
      intro acc he ha hkeyed
      rw [List.foldl_cons]
      show PhasePreserves did Cond acc.1 ((rest.foldl paStep
        (match mget acc.1.graph.nodes kv.1 with
         | none => acc
         | some node => (runHandler acc.1 node kv.2, acc.2 ++ [kv.1]))).1)
      rcases hn0 : mget acc.1.graph.nodes kv.1 with _ | node
      · exact ih (fun kw hkw => hne kw (List.mem_cons_of_mem _ hkw))
          (fun p hp kw hkw => hstep p hp kw (List.mem_cons_of_mem _ hkw))
          acc he ha hkeyed
      · have hpres := preserves_runHandler acc.1 node kv.2
        have hid : node.id = kv.1 := hkeyed.get hn0
        have hout : outIds acc.1 node.id = gOutIds g0 kv.1 := by
          rw [hid]
          exact gOutIds_eq_of he ha kv.1
        have hph : PhasePreserves did Cond acc.1 (runHandler acc.1 node kv.2) := by
          refine hpres.toPhase (by rw [hid]; exact hne kv (List.mem_cons_self _ _))
            ?_
          intro p hp
          have h2 := hstep p hp kv (List.mem_cons_self _ _)
          refine ⟨h2.1, ?_⟩
          rw [hout]
          exact h2.2
        have hfr := hph.1
        have he2 : (runHandler acc.1 node kv.2).graph.edges = g0.edges :=
          (congrArg Frame.edges hfr).trans he
        have ha2 : (runHandler acc.1 node kv.2).graph.adjacency =
            g0.adjacency := (congrArg Frame.adjacency hfr).trans ha
        have hky2 : NodesKeyed (runHandler acc.1 node kv.2).graph :=
          hph.2.2.2.1 hkeyed
        exact hph.transPhase
          (ih (fun kw hkw => hne kw (List.mem_cons_of_mem _ hkw))
            (fun p hp kw hkw => hstep p hp kw (List.mem_cons_of_mem _ hkw))
            (runHandler acc.1 node kv.2, acc.2 ++ [kv.1]) he2 ha2 hky2)

/-- The spawn loop over keys other than the protected node's id is a
phase-preservation segment. -/
theorem spawnFold_phase (did : String) (Cond : (Marble → Bool) → Prop)
    (g0 : SimGraph) (ks : List String)
    (hne : ∀ k ∈ ks, k ≠ did)
    (hstep : ∀ p, Cond p → ∀ k ∈ ks,
      ∀ w : Marble, w.edgeId ∈ gOutIds g0 k → w.progress = 0 → p w = false) :
    ∀ st : SimState,
      st.graph.edges = g0.edges → st.graph.adjacency = g0.adjacency →
      NodesKeyed st.graph →
      PhasePreserves did Cond st (ks.foldl spawnStep st) := by
  induction ks with
  | nil => intro st _ _ _; exact PhasePreserves.reflPhase
  | cons k rest ih =>
      intro st he ha hkeyed
      rw [List.foldl_cons]
      have hone : PhasePreserves did Cond st (spawnStep st k) := by
        unfold spawnStep
        rcases hn0 : mget st.graph.nodes k with _ | node
        · exact PhasePreserves.reflPhase
        · cases node with
          | source d =>
              dsimp only
              split
              · exact PhasePreserves.reflPhase
              · have hpres := preserves_handleSource st d []
                have hid : d.id = k := by
                  have := hkeyed.get hn0
                  exact this
                refine hpres.toPhase
                  (by rw [hid]; exact hne k (List.mem_cons_self _ _)) ?_
                intro p hp
                refine ⟨(by intro mb hmb; cases hmb), ?_⟩
                have hout : outIds st d.id = gOutIds g0 k := by
                  rw [hid]
                  exact gOutIds_eq_of he ha k
                rw [hout]
                exact hstep p hp k (List.mem_cons_self _ _)
          | sink d => exact PhasePreserves.reflPhase
          | splitter d => exact PhasePreserves.reflPhase
          | elevator d => exact PhasePreserves.reflPhase
          | ramp d => exact PhasePreserves.reflPhase
          | gate d => exact PhasePreserves.reflPhase
          | bucket d => exact PhasePreserves.reflPhase
          | basin d => exact PhasePreserves.reflPhase
          | colorSplitter d => exact PhasePreserves.reflPhase
          | signalBuffer d => exact PhasePreserves.reflPhase
          | canvas d => exact PhasePreserves.reflPhase
      have hfr := hone.1
      exact hone.transPhase
        (ih (fun kw hkw => hne kw (List.mem_cons_of_mem _ hkw))
          (fun p hp kw hkw => hstep p hp kw (List.mem_cons_of_mem _ hkw))
          (spawnStep st k)
          ((congrArg Frame.edges hfr).trans he)
          ((congrArg Frame.adjacency hfr).trans ha)
          (hone.2.2.2.1 hkeyed))

/-- The periodic-evaluation loop is a phase-preservation segment when the
protected node currently holds a source (sources are never periodic). -/
theorem periodicFold_phase (did : String) (Cond : (Marble → Bool) → Prop)
    (g0 : SimGraph) (processed : List String) (d3 : SourceNode)
    (ks : List String)
    (hstep : ∀ p, Cond p → ∀ k, k ≠ did →
      ∀ w : Marble, w.edgeId ∈ gOutIds g0 k → w.progress = 0 → p w = false) :
    ∀ st : SimState,
      st.graph.edges = g0.edges → st.graph.adjacency = g0.adjacency →
      NodesKeyed st.graph →
      mget st.graph.nodes did = some (.source d3) →
      PhasePreserves did Cond st (ks.foldl (periodicStep processed) st) := by
  induction ks with
  | nil => intro st _ _ _ _; exact PhasePreserves.reflPhase
  | cons k rest ih =>
      intro st he ha hkeyed hdid
      rw [List.foldl_cons]
      have hone : PhasePreserves did Cond st (periodicStep processed st k) := by
        unfold periodicStep
        by_cases hk : k = did
        · rw [hk, hdid]
          dsimp only
          rw [if_neg (by simp [SimNode.isPeriodicType])]
          exact PhasePreserves.reflPhase
        · rcases hn0 : mget st.graph.nodes k with _ | node
          · exact PhasePreserves.reflPhase
          · dsimp only
            split
            · have hpres := preserves_runHandler st node []
              have hid : node.id = k := hkeyed.get hn0
              refine hpres.toPhase (by rw [hid]; exact hk) ?_
              intro p hp
              refine ⟨(by intro mb hmb; cases hmb), ?_⟩
              have hout : outIds st node.id = gOutIds g0 k := by
                rw [hid]
                exact gOutIds_eq_of he ha k
              rw [hout]
              exact hstep p hp k hk
            · exact PhasePreserves.reflPhase
      have hfr := hone.1
      exact hone.transPhase
        (ih (periodicStep processed st k)
          ((congrArg Frame.edges hfr).trans he)
          ((congrArg Frame.adjacency hfr).trans ha)
          (hone.2.2.2.1 hkeyed)
          (hone.2.1.trans hdid))

theorem rerouteFold_state (eid : String) :
    ∀ (arr : List Marble) (st : SimState),
      (arr.foldl (fun st mb => rerouteMarble st mb eid) st) =
      { st with marbles := rerouteAllL st.marbles arr eid } := by
  intro arr
  induction arr with
  | nil => intro st; rfl
  | cons mb rest ih =>
      intro st
      rw [List.foldl_cons, ih]
      rfl

theorem handleSource_noEdges (s : SimState) (d : SourceNode)
    (arr : List Marble) (h : getOutgoingEdges s d.id = []) :
    handleSource s d arr = s := by
  unfold handleSource
  rw [h]

/-- The full effect of the source handler when the node's entry and a first
outgoing edge are known: decrement the cooldown; when it expires, spawn one
marble of the source's color on the first outgoing edge and reset the
cooldown from the spawn rate; finally reroute every arrival onto the first
outgoing edge at progress 0. -/
theorem handleSource_state (s : SimState) (d : SourceNode)
    (arr : List Marble) (e0 : SimEdge) (rest : List SimEdge)
    (hE : getOutgoingEdges s d.id = e0 :: rest)
    (hn : mget s.graph.nodes d.id = some (.source d)) :
    handleSource s d arr =
      if d.spawnCooldown - 1 ≤ 0 then
        { s with
          graph := { s.graph with nodes := mset s.graph.nodes d.id (SimNode.source { d with spawnCooldown := jsRound (60 / d.spawnRate) }) }
          marbles := rerouteAllL
            (s.marbles ++
              [{ id := generateMarbleId s d.id, edgeId := e0.id, progress := 0,
                 speed := DEFAULT_MARBLE_SPEED, color := d.marbleColor }])
            arr e0.id }
      else
        { s with
          graph := { s.graph with nodes := mset s.graph.nodes d.id (SimNode.source { d with spawnCooldown := d.spawnCooldown - 1 }) }
          marbles := rerouteAllL s.marbles arr e0.id } := by
  unfold handleSource
  rw [hE, hn]
  dsimp only
  by_cases hcd : d.spawnCooldown - 1 ≤ 0
  · rw [if_pos hcd, if_pos hcd, rerouteFold_state]
    show ({ setNode
        (spawnMarbleOnEdge (setNode s d.id (SimNode.source { d with spawnCooldown := d.spawnCooldown - 1 })) e0.id d.id d.marbleColor)
        d.id (SimNode.source { d with spawnCooldown := jsRound (60 / d.spawnRate) }) with
      marbles := _ } : SimState) = _
    unfold setNode spawnMarbleOnEdge
    dsimp only
    rw [mset_mset]
    rfl
  · rw [if_neg hcd, if_neg hcd, rerouteFold_state]
    rfl

theorem mem_replaceFirst_self {α : Type} [DecidableEq α] (l : List α)
    (a b : α) (h : a ∈ l) : b ∈ replaceFirst l a b := by
  induction l with
  | nil => cases h
  | cons x xs ih =>
      unfold replaceFirst
      by_cases hx : x = a
      · rw [if_pos hx]
        exact List.mem_cons_self _ _
      · rw [if_neg hx]
        rcases List.mem_cons.mp h with h2 | h2
        · exact absurd h2.symm hx
        · exact List.mem_cons_of_mem _ (ih h2)

theorem mem_replaceFirst_ne {α : Type} [DecidableEq α] (l : List α)
    (a b w : α) (hw : w ∈ l) (hne : w ≠ a) : w ∈ replaceFirst l a b := by
  induction l with
  | nil => cases hw
  | cons x xs ih =>
      unfold replaceFirst
      by_cases hx : x = a
      · rw [if_pos hx]
        rcases List.mem_cons.mp hw with h2 | h2
        · exact absurd (h2.trans hx) hne
        · exact List.mem_cons_of_mem _ h2
      · rw [if_neg hx]
        rcases List.mem_cons.mp hw with h2 | h2
        · rw [h2]
          exact List.mem_cons_self _ _
        · exact List.mem_cons_of_mem _ (ih h2)

theorem countOf_cons {α : Type} [DecidableEq α] (x : α) (l : List α)
    (v : α) : countOf (x :: l) v = countOf l v + (if v = x then 1 else 0) := by
  unfold countOf
  rw [List.count_cons]
  by_cases h : v = x
  · simp [h]
  · have h2 : ¬ x = v := fun h3 => h h3.symm
    simp [h, h2]

theorem countOf_replaceFirst_add {α : Type} [DecidableEq α] (l : List α)
    (a b : α) (ha : a ∈ l) (v : α) :
    countOf (replaceFirst l a b) v + (if v = a then 1 else 0) =
    countOf l v + (if v = b then 1 else 0) := by
  induction l with
  | nil => cases ha
  | cons x xs ih =>
      unfold replaceFirst
      by_cases hx : x = a
      · rw [if_pos hx, countOf_cons, countOf_cons, hx]
        omega
      · rw [if_neg hx]
        have ha2 : a ∈ xs := by
          rcases List.mem_cons.mp ha with h2 | h2
          · exact absurd h2.symm hx
          · exact h2
        rw [countOf_cons, countOf_cons]
        have := ih ha2
        omega

theorem countOf_pos_mem {α : Type} [DecidableEq α] {l : List α} {a : α}
    (h : 0 < countOf l a) : a ∈ l := by
  unfold countOf at h
  exact List.count_pos_iff_mem.mp h

/-- Rerouting a nonempty arrival list whose every marble value is
sufficiently present always leaves at least one rerouted marble — a
progress-0 marble on the target edge — in the list. -/
theorem rerouteAllL_exists (eid : String) :
    ∀ (arr ms : List Marble), arr ≠ [] →
      (∀ mb ∈ arr, ¬ mb.progress = 0) →
      (∀ v : Marble, countOf arr v ≤ countOf ms v) →
      ∃ w ∈ rerouteAllL ms arr eid, w.edgeId = eid ∧ w.progress = 0 := by
  intro arr
  induction arr with
  | nil => intro ms h; cases h rfl
  | cons a rest ih =>
      intro ms _ hprog hcount
      have ha : a ∈ ms := by
        refine countOf_pos_mem ?_
        have := hcount a
        unfold countOf at this ⊢
        rw [List.count_cons] at this
        simp at this
        omega
      have hane : ({ a with edgeId := eid, progress := 0 } : Marble) ≠ a := by
        intro hEq
        have := congrArg Marble.progress hEq
        dsimp only at this
        exact hprog a (List.mem_cons_self _ _) this.symm
      rcases hr : rest with _ | ⟨b, rest2⟩
      · refine ⟨{ a with edgeId := eid, progress := 0 }, ?_, rfl, rfl⟩
        show _ ∈ replaceFirst ms a _
        exact mem_replaceFirst_self ms a _ ha
      · rw [← hr]
        have hrest : rest ≠ [] := by rw [hr]; simp
        have hprog2 : ∀ mb ∈ rest, ¬ mb.progress = 0 :=
          fun mb hmb => hprog mb (List.mem_cons_of_mem _ hmb)
        have hcount2 : ∀ v : Marble,
            countOf rest v ≤
            countOf (replaceFirst ms a { a with edgeId := eid, progress := 0 })
              v := by
          intro v
          have hadd := countOf_replaceFirst_add ms a
            { a with edgeId := eid, progress := 0 } ha v
          have hcv := hcount v
          rw [countOf_cons] at hcv
          by_cases hva : v = a
          · have hvb : ¬ v = ({ a with edgeId := eid, progress := 0 } : Marble) := by
              rw [hva]
              intro h2
              exact hane h2.symm
            rw [if_pos hva] at hadd hcv
            rw [if_neg hvb] at hadd
            omega
          · rw [if_neg hva] at hadd hcv
            by_cases hvb : v = ({ a with edgeId := eid, progress := 0 } : Marble)
            · rw [if_pos hvb] at hadd
              omega
            · rw [if_neg hvb] at hadd
              omega
        have := ih (replaceFirst ms a { a with edgeId := eid, progress := 0 })
          hrest hprog2 hcount2
        exact this

/-- Rerouting arrivals never changes the selection of a predicate that
rejects both the arrivals and their rerouted forms. -/
theorem filter_rerouteAllL_of_neg (eid : String) (p : Marble → Bool) :
    ∀ (arr ms : List Marble),
      (∀ mb ∈ arr, p mb = false ∧
        p { mb with edgeId := eid, progress := 0 } = false) →
      (rerouteAllL ms arr eid).filter p = ms.filter p := by
  intro arr
  induction arr with
  | nil => intro ms _; rfl
  | cons a rest ih =>
      intro ms hp
      show (rerouteAllL (replaceFirst ms a _) rest eid).filter p = _
      rw [ih _ (fun mb hmb => hp mb (List.mem_cons_of_mem _ hmb))]
      exact filter_replaceFirst_of_neg p ms a _
        (hp a (List.mem_cons_self _ _)).1
        (hp a (List.mem_cons_self _ _)).2

theorem mkeys_mset_present {β : Type} (m : List (String × β)) (k : String)
    (v : β) (h : mget m k ≠ none) : mkeys (mset m k v) = mkeys m := by
  induction m with
  | nil => exact absurd rfl h
  | cons kv rest ih =>
      unfold mget at h
      unfold mset mkeys
      by_cases hk : kv.1 = k
      · rcases kv with ⟨k1, v1⟩
        dsimp only at hk
        rw [if_pos hk]
        simp [hk]
      · rcases kv with ⟨k1, v1⟩
        dsimp only at hk
        rw [if_neg hk]
        rw [if_neg hk] at h
        simp only [List.map_cons]
        unfold mkeys at ih
        rw [ih h]

/-- A source node's spawn-phase visit is skipped when a progress-0 marble
already sits on one of its outgoing edges (the `alreadyProcessed` check). -/
theorem spawnStep_skip (st : SimState) (d2 : SourceNode) (e : SimEdge)
    (w : Marble) (hn : mget st.graph.nodes d2.id = some (.source d2))
    (hw : w ∈ st.marbles) (hres : mget st.graph.edges w.edgeId = some e)
    (hfrom : e.from_ = d2.id) (hprog : w.progress = 0) :
    spawnStep st d2.id = st := by
  unfold spawnStep
  rw [hn]
  dsimp only
  rw [if_pos ?_]
  refine List.any_eq_true.mpr ⟨w, hw, ?_⟩
  rw [hres]
  exact decide_eq_true ⟨hfrom, hprog⟩

theorem spawnStep_noEdges (st : SimState) (d2 : SourceNode)
    (hn : mget st.graph.nodes d2.id = some (.source d2))
    (hE : getOutgoingEdges st d2.id = []) : spawnStep st d2.id = st := by
  unfold spawnStep
  rw [hn]
  dsimp only
  split
  · rfl
  · exact handleSource_noEdges st d2 [] hE

/-- The spawn-phase visit of a source node changes at most that node's
cooldown bookkeeping and appends at most one marble. -/
theorem spawnStep_at_source (st : SimState) (d2 : SourceNode)
    (hn : mget st.graph.nodes d2.id = some (.source d2)) :
    (∃ d3 : SourceNode,
      mget (spawnStep st d2.id).graph.nodes d2.id = some (.source d3) ∧
      d3.spawnRate = d2.spawnRate ∧
      (d3.spawnCooldown = d2.spawnCooldown ∨
       d3.spawnCooldown = d2.spawnCooldown - 1 ∨
       d3.spawnCooldown = jsRound (60 / d2.spawnRate))) ∧
    frameOf (spawnStep st d2.id) = frameOf st ∧
    mkeys (spawnStep st d2.id).graph.nodes = mkeys st.graph.nodes ∧
    (NodesKeyed st.graph → NodesKeyed (spawnStep st d2.id).graph) ∧
    (spawnStep st d2.id).controllerError = st.controllerError ∧
    ∀ p : Marble → Bool,
      ((spawnStep st d2.id).marbles.filter p).length ≤
      (st.marbles.filter p).length + 1 := by
  unfold spawnStep
  rw [hn]
  dsimp only
  split
  · exact ⟨⟨d2, hn, rfl, Or.inl rfl⟩, rfl, rfl, fun h => h, rfl,
      fun p => Nat.le_succ _⟩
  · rcases hE : getOutgoingEdges st d2.id with _ | ⟨e0, rest⟩
    · rw [handleSource_noEdges st d2 [] hE]
      exact ⟨⟨d2, hn, rfl, Or.inl rfl⟩, rfl, rfl, fun h => h, rfl,
        fun p => Nat.le_succ _⟩
    · rw [handleSource_state st d2 [] e0 rest hE hn]
      by_cases hcd : d2.spawnCooldown - 1 ≤ 0
      · rw [if_pos hcd]
        refine ⟨⟨{ d2 with spawnCooldown := jsRound (60 / d2.spawnRate) },
          mget_mset_self _ _ _, rfl, Or.inr (Or.inr rfl)⟩, rfl,
          mkeys_mset_present _ _ _ (by rw [hn]; simp), ?_, rfl, ?_⟩
        · intro hkeyed kv hkv
          have hkv2 : kv ∈ mset st.graph.nodes d2.id (SimNode.source { d2 with spawnCooldown := jsRound (60 / d2.spawnRate) }) := hkv
          exact keyed_mset st.graph.nodes d2.id (SimNode.source { d2 with spawnCooldown := jsRound (60 / d2.spawnRate) }) hkeyed rfl kv hkv2
        · intro p
          show ((st.marbles ++ [_]).filter p).length ≤ _
          rw [List.filter_append, List.length_append]
          have h1 : ∀ x : Marble, (([x] : List Marble).filter p).length ≤ 1 := by
            intro x
            rcases hp : p x with _ | _ <;> simp [List.filter_cons, hp]
          exact Nat.add_le_add_left (h1 _) _
      · rw [if_neg hcd]
        refine ⟨⟨{ d2 with spawnCooldown := d2.spawnCooldown - 1 },
          mget_mset_self _ _ _, rfl, Or.inr (Or.inl rfl)⟩, rfl,
          mkeys_mset_present _ _ _ (by rw [hn]; simp), ?_, rfl,
          fun p => Nat.le_succ _⟩
        intro hkeyed kv hkv
        have hkv2 : kv ∈ mset st.graph.nodes d2.id (SimNode.source { d2 with spawnCooldown := d2.spawnCooldown - 1 }) := hkv
        exact keyed_mset st.graph.nodes d2.id (SimNode.source { d2 with spawnCooldown := d2.spawnCooldown - 1 }) hkeyed rfl kv hkv2

/-- A controller command never touches the marble list. -/
theorem applyCommand_marbles (s : SimState) (c : ControllerCommand) :
    (applyCommand s c).marbles = s.marbles := by
  unfold applyCommand
  cases c <;> dsimp only <;> (try split) <;> (try split) <;> rfl

/-- A controller command never rewrites a node entry currently holding a
source (commands only target basins and signal buffers). -/
theorem applyCommand_source_entry (s : SimState) (c : ControllerCommand)
    (k : String) (x : SourceNode)
    (h : mget s.graph.nodes k = some (.source x)) :
    mget (applyCommand s c).graph.nodes k = some (.source x) := by
  have hswap : ∀ (nodeId : String) (v : SimNode) (m : BasinNode),
      mget s.graph.nodes nodeId = some (.basin m) →
      mget (setNode s nodeId v).graph.nodes k = some (.source x) := by
    intro nodeId v m hm
    show mget (mset s.graph.nodes nodeId v) k = _
    have hnk : k ≠ nodeId := by
      intro hEq
      rw [← hEq, h] at hm
      simp at hm
    rw [mget_mset_ne _ _ _ _ hnk]
    exact h
  have hswap2 : ∀ (nodeId : String) (v : SimNode) (m : SignalBufferNode),
      mget s.graph.nodes nodeId = some (.signalBuffer m) →
      mget (setNode s nodeId v).graph.nodes k = some (.source x) := by
    intro nodeId v m hm
    show mget (mset s.graph.nodes nodeId v) k = _
    have hnk : k ≠ nodeId := by
      intro hEq
      rw [← hEq, h] at hm
      simp at hm
    rw [mget_mset_ne _ _ _ _ hnk]
    exact h
  unfold applyCommand
  cases c with
  | extractFromBasin nodeId color =>
      dsimp only
      rcases hm : mget s.graph.nodes nodeId with _ | node
      · exact h
      · cases node
        case basin m =>
          dsimp only
          split
          · exact hswap nodeId _ m hm
          · exact h
        all_goals exact h
  | releaseBuffer nodeId count =>
      dsimp only
      rcases hm : mget s.graph.nodes nodeId with _ | node
      · exact h
      · cases node
        case signalBuffer m => exact hswap2 nodeId _ m hm
        all_goals exact h
  | setBasinExtractColor nodeId color =>
      dsimp only
      rcases hm : mget s.graph.nodes nodeId with _ | node
      · exact h
      · cases node
        case basin m => exact hswap nodeId _ m hm
        all_goals exact h

/-- A controller command keeps the node map keyed by node ids. -/
theorem applyCommand_keyed (s : SimState) (c : ControllerCommand)
    (h : NodesKeyed s.graph) : NodesKeyed (applyCommand s c).graph := by
  unfold applyCommand
  cases c with
  | extractFromBasin nodeId color =>
      dsimp only
      rcases hm : mget s.graph.nodes nodeId with _ | node
      · exact h
      · cases node
        case basin m =>
          dsimp only
          split
          · intro kv hkv
            have hkv2 : kv ∈ mset s.graph.nodes nodeId (SimNode.basin { m with extractColor := some color, extractCooldown := 0 }) := hkv
            have hid : m.id = nodeId := h.get hm
            exact keyed_mset s.graph.nodes nodeId (SimNode.basin { m with extractColor := some color, extractCooldown := 0 }) h hid kv hkv2
          · exact h
        all_goals exact h
  | releaseBuffer nodeId count =>
      dsimp only
      rcases hm : mget s.graph.nodes nodeId with _ | node
      · exact h
      · cases node
        case signalBuffer m =>
          intro kv hkv
          have hkv2 : kv ∈ mset s.graph.nodes nodeId (SimNode.signalBuffer { m with releaseCount := (max 0 ⌊count⌋).toNat }) := hkv
          have hid : m.id = nodeId := h.get hm
          exact keyed_mset s.graph.nodes nodeId (SimNode.signalBuffer { m with releaseCount := (max 0 ⌊count⌋).toNat }) h hid kv hkv2
        all_goals exact h
  | setBasinExtractColor nodeId color =>
      dsimp only
      rcases hm : mget s.graph.nodes nodeId with _ | node
      · exact h
      · cases node
        case basin m =>
          intro kv hkv
          have hkv2 : kv ∈ mset s.graph.nodes nodeId (SimNode.basin { m with extractColor := color }) := hkv
          have hid : m.id = nodeId := h.get hm
          exact keyed_mset s.graph.nodes nodeId (SimNode.basin { m with extractColor := color }) h hid kv hkv2
        all_goals exact h

/-- A controller command never adds or removes node-map keys. -/
theorem applyCommand_mkeys (s : SimState) (c : ControllerCommand) :
    mkeys (applyCommand s c).graph.nodes = mkeys s.graph.nodes := by
  unfold applyCommand
  cases c with
  | extractFromBasin nodeId color =>
      dsimp only
      rcases hm : mget s.graph.nodes nodeId with _ | node
      · rfl
      · cases node
        case basin m =>
          dsimp only
          split
          · exact mkeys_mset_present _ _ _ (by rw [hm]; simp)
          · rfl
        all_goals rfl
  | releaseBuffer nodeId count =>
      dsimp only
      rcases hm : mget s.graph.nodes nodeId with _ | node
      · rfl
      · cases node
        case signalBuffer m =>
          exact mkeys_mset_present _ _ _ (by rw [hm]; simp)
        all_goals rfl
  | setBasinExtractColor nodeId color =>
      dsimp only
      rcases hm : mget s.graph.nodes nodeId with _ | node
      · rfl
      · cases node
        case basin m =>
          exact mkeys_mset_present _ _ _ (by rw [hm]; simp)
        all_goals rfl

/-- The controller phase leaves the marble list, any source entry, the
keyedness of the node map, and the key list unchanged. -/
theorem runController_facts (script : ControllerScript) (s : SimState)
    (k : String) (x : SourceNode)
    (hn : mget s.graph.nodes k = some (.source x))
    (hkeyed : NodesKeyed s.graph) :
    mget (runController script s).graph.nodes k = some (.source x) ∧
    (runController script s).marbles = s.marbles ∧
    NodesKeyed (runController script s).graph ∧
    mkeys (runController script s).graph.nodes = mkeys s.graph.nodes := by
  have hfold : ∀ (cs : List ControllerCommand) (st : SimState),
      mget st.graph.nodes k = some (.source x) → NodesKeyed st.graph →
      mget (cs.foldl applyCommand st).graph.nodes k = some (.source x) ∧
      (cs.foldl applyCommand st).marbles = st.marbles ∧
      NodesKeyed (cs.foldl applyCommand st).graph ∧
      mkeys (cs.foldl applyCommand st).graph.nodes = mkeys st.graph.nodes := by
    intro cs
    induction cs with
    | nil => intro st h1 h2; exact ⟨h1, rfl, h2, rfl⟩
    | cons c rest ih =>
        intro st h1 h2
        rw [List.foldl_cons]
        have hstep1 := applyCommand_source_entry st c k x h1
        have hstep2 := applyCommand_keyed st c h2
        obtain ⟨r1, r2, r3, r4⟩ := ih (applyCommand st c) hstep1 hstep2
        exact ⟨r1, r2.trans (applyCommand_marbles st c), r3,
          r4.trans (applyCommand_mkeys st c)⟩
  unfold runController
  split
  · exact ⟨hn, rfl, hkeyed, rfl⟩
  · unfold executeController
    dsimp only
    obtain ⟨r1, r2, r3, r4⟩ := hfold ((script s).1) s hn hkeyed
    exact ⟨r1, r2, r3, r4⟩

theorem freshOwn_of_arrival (g : SimGraph) (did : String) (ids : List String)
    (w : Marble) (h : 1 ≤ w.progress) : freshOwn g did ids w = false := by
  unfold freshOwn
  refine decide_eq_false ?_
  rintro ⟨_, hp, _⟩
  rw [hp] at h
  exact absurd h (by norm_num)

theorem pFoot_of_arrival (g : SimGraph) (did : String) (w : Marble)
    (h : 1 ≤ w.progress) : pFoot g did w = false := by
  unfold pFoot
  rcases hres : mget g.edges w.edgeId with _ | e
  · rfl
  · refine decide_eq_false ?_
    rintro ⟨_, hp⟩
    rw [hp] at h
    exact absurd h (by norm_num)

theorem freshOwn_of_other (g : SimGraph) (did : String) (ids : List String)
    (hek : EdgesKeyed g) (hadj : adjConsistent g = true) (k : String)
    (hk : k ≠ did) (w : Marble) (hw : w.edgeId ∈ gOutIds g k) :
    freshOwn g did ids w = false := by
  unfold freshOwn
  refine decide_eq_false ?_
  rintro ⟨hmem, _, _⟩
  rcases gOutIds_owner hek hadj hw with ⟨e, he, hfrom⟩
  rcases gOutIds_owner hek hadj hmem with ⟨e2, he2, hfrom2⟩
  rw [he] at he2
  have : e = e2 := Option.some.inj he2
  rw [this] at hfrom
  exact hk (hfrom.symm.trans hfrom2)

theorem pFoot_of_other (g : SimGraph) (did : String)
    (hek : EdgesKeyed g) (hadj : adjConsistent g = true) (k : String)
    (hk : k ≠ did) (w : Marble) (hw : w.edgeId ∈ gOutIds g k) :
    pFoot g did w = false := by
  unfold pFoot
  rcases gOutIds_owner hek hadj hw with ⟨e, he, hfrom⟩
  rw [he]
  refine decide_eq_false ?_
  rintro ⟨hfrom2, _⟩
  exact hk (hfrom.symm.trans (hfrom2 ▸ rfl)) |>.elim

theorem countOf_eq_filter_length {α : Type} [DecidableEq α] (ms : List α)
    (v : α) :
    countOf ms v = (ms.filter (fun w => decide (w = v))).length := by
  induction ms with
  | nil => rfl
  | cons x xs ih =>
      rw [countOf_cons, List.filter_cons, ih]
      by_cases h : x = v
      · simp [h]
      · have h2 : ¬ v = x := fun h3 => h h3.symm
        simp [h, h2]

/-- An edge object returned by `getOutgoingEdges` is stored in the edge map
under its own id and leaves from the queried node. -/
theorem getOutgoingEdges_resolve (s : SimState)
    (hek : EdgesKeyed s.graph) (hadj : adjConsistent s.graph = true)
    (nid : String) (e : SimEdge) (he : e ∈ getOutgoingEdges s nid) :
    mget s.graph.edges e.id = some e ∧ e.from_ = nid := by
  unfold getOutgoingEdges at he
  rcases List.mem_filterMap.mp he with ⟨a, ha, hres⟩
  have hid : e.id = a := hek.resolve hres
  have hres2 : mget s.graph.edges e.id = some e := by rw [hid]; exact hres
  have hmem : e.id ∈ gOutIds s.graph nid := by
    unfold gOutIds
    exact List.mem_map.mpr ⟨e, List.mem_filterMap.mpr ⟨a, ha, hres⟩, rfl⟩
  rcases gOutIds_owner hek hadj hmem with ⟨e2, he2, hfrom⟩
  rw [hres2] at he2
  have : e = e2 := Option.some.inj he2
  exact ⟨hres2, by rw [this]; exact hfrom⟩

/-- When a source with an outgoing edge absorbs a nonempty arrival list
whose marbles are all live, the handler leaves a footprint: some progress-0
marble on an edge leaving the source. -/
theorem handleSource_footprint (s : SimState) (d : SourceNode)
    (arr : List Marble) (e0 : SimEdge) (rest : List SimEdge)
    (hE : getOutgoingEdges s d.id = e0 :: rest)
    (hn : mget s.graph.nodes d.id = some (.source d))
    (hek : EdgesKeyed s.graph) (hadj : adjConsistent s.graph = true)
    (harr : arr ≠ [])
    (hprog : ∀ mb ∈ arr, ¬ mb.progress = 0)
    (hcnt : ∀ v : Marble, countOf arr v ≤ countOf s.marbles v) :
    ∃ w ∈ (handleSource s d arr).marbles, pFoot s.graph d.id w = true := by
  have hre := getOutgoingEdges_resolve s hek hadj d.id e0
    (by rw [hE]; exact List.mem_cons_self _ _)
  have hkey : ∀ ms2 : List Marble,
      (∀ v : Marble, countOf arr v ≤ countOf ms2 v) →
      ∃ w ∈ rerouteAllL ms2 arr e0.id, pFoot s.graph d.id w = true := by
    intro ms2 hc2
    rcases rerouteAllL_exists e0.id arr ms2 harr hprog hc2 with ⟨w, hwmem, hwe, hwp⟩
    refine ⟨w, hwmem, ?_⟩
    unfold pFoot
    rw [hwe, hre.1]
    exact decide_eq_true ⟨hre.2, hwp⟩
  rw [handleSource_state s d arr e0 rest hE hn]
  by_cases hcd : d.spawnCooldown - 1 ≤ 0
  · rw [if_pos hcd]
    refine hkey _ ?_
    intro v
    refine (hcnt v).trans ?_
    unfold countOf
    rw [List.count_append]
    omega
  · rw [if_neg hcd]
    exact hkey s.marbles hcnt

/-- The source handler changes a predicate's selection by at most the one
possibly-spawned marble, provided the predicate rejects the arrivals and
their rerouted forms. -/
theorem handleSource_filter_le (s : SimState) (d : SourceNode)
    (arr : List Marble) (e0 : SimEdge) (rest : List SimEdge)
    (hE : getOutgoingEdges s d.id = e0 :: rest)
    (hn : mget s.graph.nodes d.id = some (.source d))
    (p : Marble → Bool)
    (hp : ∀ mb ∈ arr, p mb = false ∧
      p { mb with edgeId := e0.id, progress := 0 } = false) :
    ((handleSource s d arr).marbles.filter p).length ≤
    (s.marbles.filter p).length + 1 := by
  rw [handleSource_state s d arr e0 rest hE hn]
  by_cases hcd : d.spawnCooldown - 1 ≤ 0
  · rw [if_pos hcd]
    show ((rerouteAllL (s.marbles ++ [_]) arr e0.id).filter p).length ≤ _
    rw [filter_rerouteAllL_of_neg e0.id p arr _ hp, List.filter_append,
      List.length_append]
    have h1 : ∀ x : Marble, (([x] : List Marble).filter p).length ≤ 1 := by
      intro x
      rcases hx : p x with _ | _ <;> simp [List.filter_cons, hx]
    exact Nat.add_le_add_left (h1 _) _
  · rw [if_neg hcd]
    show ((rerouteAllL s.marbles arr e0.id).filter p).length ≤ _
    rw [filter_rerouteAllL_of_neg e0.id p arr _ hp]
    exact Nat.le_succ _

/-- Marble ids are untouched by the advance phase. -/
theorem advance_ids (s : SimState) :
    (advanceMarbles s).marbles.map Marble.id = s.marbles.map Marble.id := by
  show (s.marbles.map _).map Marble.id = _
  rw [List.map_map]
  rfl

theorem freshOwn_of_oldId (g : SimGraph) (did : String) (ids : List String)
    (w : Marble) (h : w.id ∈ ids) : freshOwn g did ids w = false := by
  unfold freshOwn
  refine decide_eq_false ?_
  rintro ⟨_, _, hid⟩
  exact hid h

/-- Right after the advance phase no marble counts as a fresh emission: all
ids are pre-tick ids. -/
theorem freshOwn_filter_nil (g : SimGraph) (did : String) (s : SimState) :
    (advanceMarbles s).marbles.filter
      (freshOwn g did (s.marbles.map Marble.id)) = [] := by
  rw [List.filter_eq_nil_iff]
  intro w hw
  rcases List.mem_map.mp hw with ⟨m0, hm0, hupd⟩
  have hid : w.id ∈ s.marbles.map Marble.id := by
    refine List.mem_map.mpr ⟨m0, hm0, ?_⟩
    rw [← hupd]
  simp [freshOwn_of_oldId g did _ w hid]

theorem pFoot_edges_congr {g1 g2 : SimGraph} (h : g1.edges = g2.edges)
    (did : String) (w : Marble) : pFoot g1 did w = pFoot g2 did w := by
  unfold pFoot
  rw [h]

/-- After the protected source's own arrival-dispatch step, the rest of the
tick (remaining arrival groups, controller, spawn phase, periodic phase)
changes the protected source's entry at most through one spawn visit and
appends at most one marble selected by any compliant predicate; the spawn
visit is skipped outright when a footprint marble is present or the source
has no outgoing edge. -/
theorem c7_tail (script : ControllerScript) (g0 : SimGraph) (d2 : SourceNode)
    (Cond : (Marble → Bool) → Prop)
    (hek : EdgesKeyed g0) (hadj : adjConsistent g0 = true)
    (hCfoot : Cond (pFoot g0 d2.id))
    (hCfresh : ∀ p, Cond p → ∀ k, k ≠ d2.id →
      ∀ w : Marble, w.edgeId ∈ gOutIds g0 k → w.progress = 0 → p w = false)
    (G2 : List (String × List Marble)) (P2 : List String)
    (hne2 : ∀ kv ∈ G2, kv.1 ≠ d2.id)
    (hstep2 : ∀ p, Cond p → ∀ kv ∈ G2,
      (∀ mb ∈ kv.2, p mb = false) ∧
      (∀ w : Marble, w.edgeId ∈ gOutIds g0 kv.1 → w.progress = 0 →
        p w = false))
    (u2 : SimState)
    (hedges : u2.graph.edges = g0.edges)
    (hadjeq : u2.graph.adjacency = g0.adjacency)
    (hkeyed : NodesKeyed u2.graph)
    (hent : mget u2.graph.nodes d2.id = some (.source d2))
    (hcnt1 : countOf (mkeys u2.graph.nodes) d2.id = 1) :
    (∃ d3 : SourceNode,
      mget (tickPeriodicNodes
        (spawnMarbles (runController script ((G2.foldl paStep (u2, P2)).1)))
        ((G2.foldl paStep (u2, P2)).2)).graph.nodes d2.id =
        some (.source d3) ∧
      d3.spawnRate = d2.spawnRate ∧
      (d3.spawnCooldown = d2.spawnCooldown ∨
       d3.spawnCooldown = d2.spawnCooldown - 1 ∨
       d3.spawnCooldown = jsRound (60 / d2.spawnRate)) ∧
      ∀ p, Cond p →
        ((tickPeriodicNodes
          (spawnMarbles (runController script ((G2.foldl paStep (u2, P2)).1)))
          ((G2.foldl paStep (u2, P2)).2)).marbles.filter p).length ≤
        (u2.marbles.filter p).length + 1) ∧
    (((∃ w ∈ u2.marbles, pFoot g0 d2.id w = true) ∨
        getOutgoingEdges u2 d2.id = []) →
      mget (tickPeriodicNodes
        (spawnMarbles (runController script ((G2.foldl paStep (u2, P2)).1)))
        ((G2.foldl paStep (u2, P2)).2)).graph.nodes d2.id =
        some (.source d2) ∧
      ∀ p, Cond p →
        (tickPeriodicNodes
          (spawnMarbles (runController script ((G2.foldl paStep (u2, P2)).1)))
          ((G2.foldl paStep (u2, P2)).2)).marbles.filter p =
        u2.marbles.filter p) := by
  -- Phase 2 remainder over G2.
  set t2 := (G2.foldl paStep (u2, P2)).1 with ht2def
  have ph2 : PhasePreserves d2.id Cond u2 t2 :=
    groupFold_phase d2.id Cond g0 G2 hne2 hstep2 (u2, P2) hedges hadjeq hkeyed
  have ht2ent : mget t2.graph.nodes d2.id = some (.source d2) :=
    ph2.2.1.trans hent
  have ht2keyed : NodesKeyed t2.graph := ph2.2.2.2.1 hkeyed
  have ht2edges : t2.graph.edges = g0.edges :=
    (congrArg Frame.edges ph2.1).trans hedges
  have ht2adj : t2.graph.adjacency = g0.adjacency :=
    (congrArg Frame.adjacency ph2.1).trans hadjeq
  have ht2cnt : countOf (mkeys t2.graph.nodes) d2.id = 1 :=
    ph2.2.2.1.trans hcnt1
  have ht2filter : ∀ p, Cond p → t2.marbles.filter p = u2.marbles.filter p :=
    fun p hp => ph2.2.2.2.2.2 p hp
  -- Phase 3: controller.
  set t3 := runController script t2 with ht3def
  obtain ⟨hc1, hc2, hc3, hc4⟩ := runController_facts script t2 d2.id d2
    ht2ent ht2keyed
  have hcfr := runController_frame script t2
  have ht3edges : t3.graph.edges = g0.edges :=
    (congrArg Frame.edges hcfr).trans ht2edges
  have ht3adj : t3.graph.adjacency = g0.adjacency :=
    (congrArg Frame.adjacency hcfr).trans ht2adj
  have ht3cnt : countOf (mkeys t3.graph.nodes) d2.id = 1 := by
    show countOf (mkeys (runController script t2).graph.nodes) d2.id = 1
    rw [hc4]
    exact ht2cnt
  have ht3filter : ∀ p, Cond p → t3.marbles.filter p = u2.marbles.filter p := by
    intro p hp
    show (runController script t2).marbles.filter p = _
    rw [hc2]
    exact ht2filter p hp
  -- Phase 4: spawn loop.
  by_cases hmax : MAX_MARBLES ≤ t3.marbles.length
  · have hsp : spawnMarbles t3 = t3 := by
      rw [spawnMarbles_eq]
      exact if_pos hmax
    rw [hsp, tickPeriodicNodes_eq]
    have ph5 := periodicFold_phase d2.id Cond g0 (G2.foldl paStep (u2, P2)).2
      d2 (mkeys t3.graph.nodes)
      (fun p hp k hk => hCfresh p hp k hk) t3 ht3edges ht3adj hc3 hc1
    have hent5 := ph5.2.1.trans hc1
    have hfil5 : ∀ p, Cond p →
        ((mkeys t3.graph.nodes).foldl
          (periodicStep (G2.foldl paStep (u2, P2)).2) t3).marbles.filter p =
        u2.marbles.filter p :=
      fun p hp => (ph5.2.2.2.2.2 p hp).trans (ht3filter p hp)
    exact ⟨⟨d2, hent5, rfl, Or.inl rfl,
        fun p hp => by rw [hfil5 p hp]; exact Nat.le_succ _⟩,
      fun _ => ⟨hent5, hfil5⟩⟩
  · have hsp : spawnMarbles t3 = (mkeys t3.graph.nodes).foldl spawnStep t3 := by
      rw [spawnMarbles_eq]
      exact if_neg hmax
    have hdmem : d2.id ∈ mkeys t3.graph.nodes :=
      countOf_pos_mem (by rw [ht3cnt]; norm_num)
    obtain ⟨L1, L2, hks⟩ := List.append_of_mem hdmem
    have hcnts : countOf L1 d2.id + (countOf L2 d2.id + 1) = 1 := by
      have h0 := ht3cnt
      rw [hks] at h0
      unfold countOf at h0 ⊢
      rw [List.count_append, List.count_cons] at h0
      simp at h0
      omega
    have hL1 : d2.id ∉ L1 := by
      have h1 : countOf L1 d2.id = 0 := by omega
      unfold countOf at h1
      exact List.count_eq_zero.mp h1
    have hL2 : d2.id ∉ L2 := by
      have h1 : countOf L2 d2.id = 0 := by omega
      unfold countOf at h1
      exact List.count_eq_zero.mp h1
    have hneL1 : ∀ k ∈ L1, k ≠ d2.id := fun k hk hEq => hL1 (hEq ▸ hk)
    have hneL2 : ∀ k ∈ L2, k ≠ d2.id := fun k hk hEq => hL2 (hEq ▸ hk)
    have hfold : (mkeys t3.graph.nodes).foldl spawnStep t3 =
        L2.foldl spawnStep (spawnStep (L1.foldl spawnStep t3) d2.id) := by
      rw [hks, List.foldl_append, List.foldl_cons]
    set mid1 := L1.foldl spawnStep t3 with hmid1def
    have ph4a : PhasePreserves d2.id Cond t3 mid1 :=
      spawnFold_phase d2.id Cond g0 L1 hneL1
        (fun p hp k hk => hCfresh p hp k (hneL1 k hk)) t3 ht3edges ht3adj hc3
    have hm1ent : mget mid1.graph.nodes d2.id = some (.source d2) :=
      ph4a.2.1.trans hc1
    have hm1edges : mid1.graph.edges = g0.edges :=
      (congrArg Frame.edges ph4a.1).trans ht3edges
    have hm1adj : mid1.graph.adjacency = g0.adjacency :=
      (congrArg Frame.adjacency ph4a.1).trans ht3adj
    have hm1keyed : NodesKeyed mid1.graph := ph4a.2.2.2.1 hc3
    have hm1filter : ∀ p, Cond p →
        mid1.marbles.filter p = u2.marbles.filter p :=
      fun p hp => (ph4a.2.2.2.2.2 p hp).trans (ht3filter p hp)
    -- The tail after the protected visit, parameterized by its result.
    have htail : ∀ mid2 : SimState,
        spawnStep mid1 d2.id = mid2 →
        mid2.graph.edges = g0.edges → mid2.graph.adjacency = g0.adjacency →
        NodesKeyed mid2.graph →
        ∀ dX : SourceNode,
        mget mid2.graph.nodes d2.id = some (.source dX) →
        ∃ t5 : SimState,
          tickPeriodicNodes
            (spawnMarbles (runController script ((G2.foldl paStep (u2, P2)).1)))
            ((G2.foldl paStep (u2, P2)).2) = t5 ∧
          mget t5.graph.nodes d2.id = some (.source dX) ∧
          ∀ p, Cond p → t5.marbles.filter p = mid2.marbles.filter p := by
      intro mid2 hstepEq he2 ha2 hk2 dX hentX
      have ph4b : PhasePreserves d2.id Cond mid2 (L2.foldl spawnStep mid2) :=
        spawnFold_phase d2.id Cond g0 L2 hneL2
          (fun p hp k hk => hCfresh p hp k (hneL2 k hk)) mid2 he2 ha2 hk2
      have ht4ent : mget (L2.foldl spawnStep mid2).graph.nodes d2.id =
          some (.source dX) := ph4b.2.1.trans hentX
      have ht4edges : (L2.foldl spawnStep mid2).graph.edges = g0.edges :=
        (congrArg Frame.edges ph4b.1).trans he2
      have ht4adj : (L2.foldl spawnStep mid2).graph.adjacency = g0.adjacency :=
        (congrArg Frame.adjacency ph4b.1).trans ha2
      have ht4keyed : NodesKeyed (L2.foldl spawnStep mid2).graph :=
        ph4b.2.2.2.1 hk2
      have ph5 := periodicFold_phase d2.id Cond g0
        (G2.foldl paStep (u2, P2)).2 dX
        (mkeys (L2.foldl spawnStep mid2).graph.nodes)
        (fun p hp k hk => hCfresh p hp k hk)
        (L2.foldl spawnStep mid2) ht4edges ht4adj ht4keyed ht4ent
      refine ⟨_, ?_, ph5.2.1.trans ht4ent, fun p hp =>
        (ph5.2.2.2.2.2 p hp).trans (ph4b.2.2.2.2.2 p hp)⟩
      show tickPeriodicNodes (spawnMarbles t3) _ = _
      rw [hsp, hfold, hstepEq, tickPeriodicNodes_eq]
    constructor
    · -- General bound: the protected visit changes at most the cooldown
      -- bookkeeping and appends at most one marble.
      obtain ⟨⟨d3, he3, hr3, hcd3⟩, hfr3, hmk3, hkd3, hce3, hfl3⟩ :=
        spawnStep_at_source mid1 d2 hm1ent
      obtain ⟨t5, ht5eq, ht5ent, ht5fil⟩ := htail (spawnStep mid1 d2.id) rfl
        ((congrArg Frame.edges hfr3).trans hm1edges)
        ((congrArg Frame.adjacency hfr3).trans hm1adj)
        (hkd3 hm1keyed) d3 he3
      rw [ht5eq]
      refine ⟨d3, ht5ent, hr3, hcd3, fun p hp => ?_⟩
      rw [ht5fil p hp]
      refine (hfl3 p).trans ?_
      rw [hm1filter p hp]
    · -- Skip case: footprint marble or no outgoing edge.
      intro hskip
      have hstepEq : spawnStep mid1 d2.id = mid1 := by
        rcases hskip with ⟨w, hwmem, hwp⟩ | hE
        · have hwf : w ∈ mid1.marbles.filter (pFoot g0 d2.id) := by
            rw [hm1filter _ hCfoot]
            exact List.mem_filter.mpr ⟨hwmem, hwp⟩
          have hwmem1 : w ∈ mid1.marbles := (List.mem_filter.mp hwf).1
          have hwp1 : pFoot g0 d2.id w = true := (List.mem_filter.mp hwf).2
          unfold pFoot at hwp1
          rcases hres : mget g0.edges w.edgeId with _ | e
          · rw [hres] at hwp1
            cases hwp1
          · rw [hres] at hwp1
            obtain ⟨hfrom, hprog⟩ := of_decide_eq_true hwp1
            exact spawnStep_skip mid1 d2 e w hm1ent hwmem1
              (by rw [hm1edges]; exact hres) hfrom hprog
        · have hEm : getOutgoingEdges mid1 d2.id = [] := by
            rw [getOutgoingEdges_congr (hm1edges.trans hedges.symm)
              (hm1adj.trans hadjeq.symm) d2.id]
            exact hE
          exact spawnStep_noEdges mid1 d2 hm1ent hEm
      obtain ⟨t5, ht5eq, ht5ent, ht5fil⟩ := htail mid1 hstepEq hm1edges
        hm1adj hm1keyed d2 hm1ent
      rw [ht5eq]
      exact ⟨ht5ent, fun p hp => (ht5fil p hp).trans (hm1filter p hp)⟩

theorem c7Cond_fresh (g0 : SimGraph) (did : String) (ids : List String)
    (hek : EdgesKeyed g0) (hadj : adjConsistent g0 = true) :
    ∀ p, c7Cond g0 did ids p → ∀ k, k ≠ did →
      ∀ w : Marble, w.edgeId ∈ gOutIds g0 k → w.progress = 0 →
        p w = false := by
  intro p hp k hk w hw hprog0
  rcases hp with rfl | hp2
  · exact freshOwn_of_other g0 did ids hek hadj k hk w hw
  rcases hp2 with rfl | ⟨v, hv1, _, rfl⟩
  · exact pFoot_of_other g0 did hek hadj k hk w hw
  · refine decide_eq_false ?_
    intro hEq
    rw [hEq] at hprog0
    rw [hprog0] at hv1
    exact absurd hv1 (by norm_num)

theorem c7Cond_groups (s1 : SimState) (g0 : SimGraph) (did : String)
    (ids : List String) (hg : s1.graph = g0)
    (hek : EdgesKeyed g0) (hadj : adjConsistent g0 = true) :
    ∀ p, c7Cond g0 did ids p → ∀ kv ∈ arrivalGroups s1, kv.1 ≠ did →
      (∀ mb ∈ kv.2, p mb = false) ∧
      (∀ w : Marble, w.edgeId ∈ gOutIds g0 kv.1 → w.progress = 0 →
        p w = false) := by
  intro p hp kv hkv hne
  refine ⟨?_, fun w hw hprog0 =>
    c7Cond_fresh g0 did ids hek hadj p hp kv.1 hne w hw hprog0⟩
  intro mb hmb
  obtain ⟨hmem, hprog, e, hres, hto⟩ := arrivalGroups_mem s1 kv hkv mb hmb
  rcases hp with rfl | hp2
  · exact freshOwn_of_arrival _ _ _ _ hprog
  rcases hp2 with rfl | ⟨v, hv1, ⟨e', hres', hto'⟩, rfl⟩
  · exact pFoot_of_arrival _ _ _ hprog
  · refine decide_eq_false ?_
    intro hEq
    rw [hEq, hg] at hres
    rw [hres'] at hres
    have he : e' = e := Option.some.inj hres
    rw [← he] at hto
    exact hne (hto.symm.trans hto')

theorem nodup_countOf_one {l : List String} {a : String} (h : l.Nodup)
    (ha : a ∈ l) : countOf l a = 1 := by
  unfold countOf
  exact List.count_eq_one_of_mem h ha

/-- C7, no-arrival case: when the protected source receives no arrival this
tick, the whole tick runs it through at most one spawn visit. -/
theorem c7_noarrival (script : ControllerScript) (s : SimState)
    (d : SourceNode)
    (hk : NodesKeyed s.graph) (hek : EdgesKeyed s.graph)
    (hadj : adjConsistent s.graph = true)
    (hnodup : (mkeys s.graph.nodes).Nodup)
    (hn : mget s.graph.nodes d.id = some (.source d))
    (hmg : mget (arrivalGroups
      (advanceMarbles { s with tickCount := s.tickCount + 1 })) d.id = none) :
    ((tick script s).marbles.filter
      (freshOwn s.graph d.id (s.marbles.map Marble.id))).length ≤ 1 ∧
    ∃ d' : SourceNode,
      mget (tick script s).graph.nodes d.id = some (.source d') ∧
      (d'.spawnCooldown = d.spawnCooldown ∨
       d'.spawnCooldown = d.spawnCooldown - 1 ∨
       d'.spawnCooldown = jsRound (60 / d.spawnRate)) := by
  have hneAll : ∀ kv ∈ arrivalGroups
      (advanceMarbles { s with tickCount := s.tickCount + 1 }), kv.1 ≠ d.id := by
    intro kv hkv hEq
    refine mget_ne_none_of_mem (m := arrivalGroups
      (advanceMarbles { s with tickCount := s.tickCount + 1 }))
      (k := d.id) (v := kv.2) ?_ hmg
    rw [← hEq]
    exact hkv
  have hstepAll := fun p hp kv hkv =>
    c7Cond_groups (advanceMarbles { s with tickCount := s.tickCount + 1 })
      s.graph d.id (s.marbles.map Marble.id) rfl hek hadj p hp kv hkv
      (hneAll kv hkv)
  have htail := c7_tail script s.graph d
    (c7Cond s.graph d.id (s.marbles.map Marble.id)) hek hadj
    (Or.inr (Or.inl rfl))
    (c7Cond_fresh s.graph d.id (s.marbles.map Marble.id) hek hadj)
    (arrivalGroups (advanceMarbles { s with tickCount := s.tickCount + 1 }))
    [] hneAll hstepAll
    (advanceMarbles { s with tickCount := s.tickCount + 1 })
    rfl rfl hk hn
    (nodup_countOf_one hnodup
      (List.mem_map.mpr ⟨(d.id, SimNode.source d), mget_mem hn, rfl⟩))
  obtain ⟨⟨d3, hent3, hrate3, hcd3, hfil3⟩, _⟩ := htail
  have htick : tick script s = tickPeriodicNodes
      (spawnMarbles (runController script
        ((arrivalGroups (advanceMarbles
          { s with tickCount := s.tickCount + 1 })).foldl paStep
          (advanceMarbles { s with tickCount := s.tickCount + 1 }, [])).1))
      ((arrivalGroups (advanceMarbles
        { s with tickCount := s.tickCount + 1 })).foldl paStep
        (advanceMarbles { s with tickCount := s.tickCount + 1 }, [])).2 := by
    show tickPeriodicNodes
      (spawnMarbles (runController script
        (processArrivals (advanceMarbles
          { s with tickCount := s.tickCount + 1 })).1))
      (processArrivals (advanceMarbles
        { s with tickCount := s.tickCount + 1 })).2 = _
    rw [processArrivals_eq]
  constructor
  · rw [htick]
    have hb := hfil3 (freshOwn s.graph d.id (s.marbles.map Marble.id))
      (Or.inl rfl)
    have hnil := freshOwn_filter_nil s.graph d.id
      { s with tickCount := s.tickCount + 1 }
    rw [hnil] at hb
    simpa using hb
  · exact ⟨d3, by rw [htick]; exact hent3, hcd3⟩

theorem edgesKeyed_congr {g1 g2 : SimGraph} (h : g1.edges = g2.edges)
    (hk : EdgesKeyed g2) : EdgesKeyed g1 := by
  unfold EdgesKeyed
  rw [h]
  exact hk

theorem adjConsistent_congr {g1 g2 : SimGraph} (he : g1.edges = g2.edges)
    (ha : g1.adjacency = g2.adjacency) (h : adjConsistent g2 = true) :
    adjConsistent g1 = true := by
  unfold adjConsistent
  rw [he, ha]
  exact h

/-- C7, arrival case: a source that received an arrival this tick is
handled exactly once in the dispatch phase; its spawn-phase visit is then
skipped (a rerouted or freshly spawned progress-0 marble sits on its
outgoing edge), so its cooldown is decremented only once and at most one
fresh marble is emitted. -/
theorem c7_arrival (script : ControllerScript) (s : SimState)
    (d : SourceNode)
    (hk : NodesKeyed s.graph) (hek : EdgesKeyed s.graph)
    (hadj : adjConsistent s.graph = true)
    (hnodup : (mkeys s.graph.nodes).Nodup)
    (hn : mget s.graph.nodes d.id = some (.source d))
    (arr : List Marble)
    (hmg : mget (arrivalGroups
      (advanceMarbles { s with tickCount := s.tickCount + 1 })) d.id =
      some arr) :
    ((tick script s).marbles.filter
      (freshOwn s.graph d.id (s.marbles.map Marble.id))).length ≤ 1 ∧
    ∃ d' : SourceNode,
      mget (tick script s).graph.nodes d.id = some (.source d') ∧
      (d'.spawnCooldown = d.spawnCooldown ∨
       d'.spawnCooldown = d.spawnCooldown - 1 ∨
       d'.spawnCooldown = jsRound (60 / d.spawnRate)) := by
  have hgmem : (d.id, arr) ∈ arrivalGroups
      (advanceMarbles { s with tickCount := s.tickCount + 1 }) :=
    mget_mem hmg
  obtain ⟨G1, G2, hsplit⟩ := List.append_of_mem hgmem
  have hndk := arrivalGroups_keys_nodup
    (advanceMarbles { s with tickCount := s.tickCount + 1 })
  rw [hsplit] at hndk
  have hndk2 : (mkeys G1 ++ d.id :: mkeys G2).Nodup := by
    simpa [mkeys] using hndk
  have hd1 : d.id ∉ mkeys G1 :=
    fun hmem => (List.nodup_append.mp hndk2).2.2 hmem (List.mem_cons_self _ _)
  have hd2 : d.id ∉ mkeys G2 :=
    (List.nodup_cons.mp (List.nodup_append.mp hndk2).2.1).1
  have hne1 : ∀ kv ∈ G1, kv.1 ≠ d.id :=
    fun kv hkv hEq => hd1 (hEq ▸ List.mem_map.mpr ⟨kv, hkv, rfl⟩)
  have hne2 : ∀ kv ∈ G2, kv.1 ≠ d.id :=
    fun kv hkv hEq => hd2 (hEq ▸ List.mem_map.mpr ⟨kv, hkv, rfl⟩)
  have hmem1 : ∀ kv ∈ G1, kv ∈ arrivalGroups
      (advanceMarbles { s with tickCount := s.tickCount + 1 }) := by
    intro kv hkv
    rw [hsplit]
    exact List.mem_append_left _ hkv
  have hmem2 : ∀ kv ∈ G2, kv ∈ arrivalGroups
      (advanceMarbles { s with tickCount := s.tickCount + 1 }) := by
    intro kv hkv
    rw [hsplit]
    exact List.mem_append_right _ (List.mem_cons_of_mem _ hkv)
  have hstep1 := fun p hp kv hkv =>
    c7Cond_groups (advanceMarbles { s with tickCount := s.tickCount + 1 })
      s.graph d.id (s.marbles.map Marble.id) rfl hek hadj p hp kv
      (hmem1 kv hkv) (hne1 kv hkv)
  have hstep2 := fun p hp kv hkv =>
    c7Cond_groups (advanceMarbles { s with tickCount := s.tickCount + 1 })
      s.graph d.id (s.marbles.map Marble.id) rfl hek hadj p hp kv
      (hmem2 kv hkv) (hne2 kv hkv)
  -- Phase 2 prefix over G1.
  have ph1 : PhasePreserves d.id (c7Cond s.graph d.id (s.marbles.map Marble.id))
      (advanceMarbles { s with tickCount := s.tickCount + 1 })
      ((G1.foldl paStep
        (advanceMarbles { s with tickCount := s.tickCount + 1 }, [])).1) :=
    groupFold_phase d.id _ s.graph G1 hne1 hstep1 _ rfl rfl hk
  have hacc1ent : mget ((G1.foldl paStep
      (advanceMarbles { s with tickCount := s.tickCount + 1 },
        ([] : List String))).1).graph.nodes d.id = some (.source d) :=
    ph1.2.1.trans hn
  have hacc1edges : ((G1.foldl paStep
      (advanceMarbles { s with tickCount := s.tickCount + 1 },
        ([] : List String))).1).graph.edges = s.graph.edges :=
    congrArg Frame.edges ph1.1
  have hacc1adj : ((G1.foldl paStep
      (advanceMarbles { s with tickCount := s.tickCount + 1 },
        ([] : List String))).1).graph.adjacency = s.graph.adjacency :=
    congrArg Frame.adjacency ph1.1
  have hacc1keyed : NodesKeyed ((G1.foldl paStep
      (advanceMarbles { s with tickCount := s.tickCount + 1 },
        ([] : List String))).1).graph := ph1.2.2.2.1 hk
  have hacc1cnt : countOf (mkeys ((G1.foldl paStep
      (advanceMarbles { s with tickCount := s.tickCount + 1 },
        ([] : List String))).1).graph.nodes) d.id = 1 :=
    ph1.2.2.1.trans (nodup_countOf_one hnodup
      (List.mem_map.mpr ⟨(d.id, SimNode.source d), mget_mem hn, rfl⟩))
  have hacc1filter : ∀ p, c7Cond s.graph d.id (s.marbles.map Marble.id) p →
      ((G1.foldl paStep
        (advanceMarbles { s with tickCount := s.tickCount + 1 },
          ([] : List String))).1).marbles.filter p =
      (advanceMarbles { s with tickCount := s.tickCount + 1 }).marbles.filter
        p := fun p hp => ph1.2.2.2.2.2 p hp
  have hacc1ek : EdgesKeyed ((G1.foldl paStep
      (advanceMarbles { s with tickCount := s.tickCount + 1 },
        ([] : List String))).1).graph := edgesKeyed_congr hacc1edges hek
  have hacc1adjc : adjConsistent ((G1.foldl paStep
      (advanceMarbles { s with tickCount := s.tickCount + 1 },
        ([] : List String))).1).graph = true :=
    adjConsistent_congr hacc1edges hacc1adj hadj
  -- The protected node's own dispatch step.
  have hdstep : paStep (G1.foldl paStep
      (advanceMarbles { s with tickCount := s.tickCount + 1 },
        ([] : List String))) (d.id, arr) =
      (handleSource ((G1.foldl paStep
        (advanceMarbles { s with tickCount := s.tickCount + 1 },
          ([] : List String))).1) d arr,
       (G1.foldl paStep
        (advanceMarbles { s with tickCount := s.tickCount + 1 },
          ([] : List String))).2 ++ [d.id]) := by
    simp only [paStep]
    rw [hacc1ent]
    rfl
  -- Arrival-list facts used for the footprint.
  have harrne : arr ≠ [] := arrivalGroups_nonempty _ (d.id, arr) hgmem
  have harrprog : ∀ mb ∈ arr, ¬ mb.progress = 0 := by
    intro mb hmb hzero
    obtain ⟨_, hprog, _⟩ :=
      arrivalGroups_mem _ (d.id, arr) hgmem mb hmb
    rw [hzero] at hprog
    exact absurd hprog (by norm_num)
  have harrcnt : ∀ v : Marble, countOf arr v ≤
      countOf ((G1.foldl paStep
        (advanceMarbles { s with tickCount := s.tickCount + 1 },
          ([] : List String))).1).marbles v := by
    intro v
    by_cases hv : v ∈ arr
    · obtain ⟨hv1, hv2, e, hres, hto⟩ :=
        arrivalGroups_mem _ (d.id, arr) hgmem v hv
      have hCv : c7Cond s.graph d.id (s.marbles.map Marble.id)
          (fun w => decide (w = v)) :=
        Or.inr (Or.inr ⟨v, hv2, ⟨e, hres, hto⟩, rfl⟩)
      have hfe := hacc1filter _ hCv
      have hcc : countOf ((G1.foldl paStep
          (advanceMarbles { s with tickCount := s.tickCount + 1 },
            ([] : List String))).1).marbles v =
          countOf (advanceMarbles
            { s with tickCount := s.tickCount + 1 }).marbles v := by
        rw [countOf_eq_filter_length, countOf_eq_filter_length, hfe]
      rw [hcc]
      exact arrivalGroups_count _ (d.id, arr) hgmem v
    · have : countOf arr v = 0 := by
        unfold countOf
        exact List.count_eq_zero.mpr hv
      omega
  -- Case split on the protected source's outgoing edges.
  have htick : tick script s = tickPeriodicNodes
      (spawnMarbles (runController script
        ((arrivalGroups (advanceMarbles
          { s with tickCount := s.tickCount + 1 })).foldl paStep
          (advanceMarbles { s with tickCount := s.tickCount + 1 }, [])).1))
      ((arrivalGroups (advanceMarbles
        { s with tickCount := s.tickCount + 1 })).foldl paStep
        (advanceMarbles { s with tickCount := s.tickCount + 1 }, [])).2 := by
    show tickPeriodicNodes
      (spawnMarbles (runController script
        (processArrivals (advanceMarbles
          { s with tickCount := s.tickCount + 1 })).1))
      (processArrivals (advanceMarbles
        { s with tickCount := s.tickCount + 1 })).2 = _
    rw [processArrivals_eq]
  have hfoldsplit : (arrivalGroups (advanceMarbles
      { s with tickCount := s.tickCount + 1 })).foldl paStep
      (advanceMarbles { s with tickCount := s.tickCount + 1 }, []) =
      G2.foldl paStep (paStep (G1.foldl paStep
        (advanceMarbles { s with tickCount := s.tickCount + 1 }, []))
        (d.id, arr)) := by
    rw [hsplit, List.foldl_append, List.foldl_cons]
  rcases hE : getOutgoingEdges s d.id with _ | ⟨e0, rest⟩
  · -- No outgoing edge: the handler is a no-op everywhere.
    have hE1 : getOutgoingEdges ((G1.foldl paStep
        (advanceMarbles { s with tickCount := s.tickCount + 1 },
          ([] : List String))).1) d.id = [] := by
      rw [getOutgoingEdges_congr hacc1edges hacc1adj d.id]
      exact hE
    have hsrc : handleSource ((G1.foldl paStep
        (advanceMarbles { s with tickCount := s.tickCount + 1 },
          ([] : List String))).1) d arr =
        (G1.foldl paStep
          (advanceMarbles { s with tickCount := s.tickCount + 1 },
            ([] : List String))).1 := handleSource_noEdges _ _ _ hE1
    have htail := (c7_tail script s.graph d
      (c7Cond s.graph d.id (s.marbles.map Marble.id)) hek hadj
      (Or.inr (Or.inl rfl))
      (c7Cond_fresh s.graph d.id (s.marbles.map Marble.id) hek hadj)
      G2 ((G1.foldl paStep
        (advanceMarbles { s with tickCount := s.tickCount + 1 },
          ([] : List String))).2 ++ [d.id]) hne2 hstep2
      ((G1.foldl paStep
        (advanceMarbles { s with tickCount := s.tickCount + 1 },
          ([] : List String))).1)
      hacc1edges hacc1adj hacc1keyed hacc1ent hacc1cnt).2
      (Or.inr (by rw [getOutgoingEdges_congr hacc1edges hacc1adj d.id]; exact hE))
    obtain ⟨hent5, hfil5⟩ := htail
    rw [htick, hfoldsplit, hdstep, hsrc]
    constructor
    · have hb := hfil5 (freshOwn s.graph d.id (s.marbles.map Marble.id))
        (Or.inl rfl)
      have hnil := freshOwn_filter_nil s.graph d.id
        { s with tickCount := s.tickCount + 1 }
      rw [hb, hacc1filter _ (Or.inl rfl), hnil]
      simp
    · exact ⟨d, hent5, Or.inl rfl⟩
  · -- An outgoing edge exists: the handler runs once; its footprint skips
    -- the spawn-phase visit.
    have hE1 : getOutgoingEdges ((G1.foldl paStep
        (advanceMarbles { s with tickCount := s.tickCount + 1 },
          ([] : List String))).1) d.id = e0 :: rest := by
      rw [getOutgoingEdges_congr hacc1edges hacc1adj d.id]
      exact hE
    have hfoot := handleSource_footprint _ d arr e0 rest hE1 hacc1ent
      hacc1ek hacc1adjc harrne harrprog harrcnt
    have hfoot2 : ∃ w ∈ (handleSource ((G1.foldl paStep
        (advanceMarbles { s with tickCount := s.tickCount + 1 },
          ([] : List String))).1) d arr).marbles,
        pFoot s.graph d.id w = true := by
      obtain ⟨w, hwm, hwp⟩ := hfoot
      refine ⟨w, hwm, ?_⟩
      rw [← pFoot_edges_congr hacc1edges d.id w]
      exact hwp
    -- The predicate of interest rejects the arrivals and their rerouted
    -- forms, so the handler appends at most one selected marble.
    have hfl : ((handleSource ((G1.foldl paStep
        (advanceMarbles { s with tickCount := s.tickCount + 1 },
          ([] : List String))).1) d arr).marbles.filter
        (freshOwn s.graph d.id (s.marbles.map Marble.id))).length ≤ 1 := by
      have hp : ∀ mb ∈ arr,
          freshOwn s.graph d.id (s.marbles.map Marble.id) mb = false ∧
          freshOwn s.graph d.id (s.marbles.map Marble.id)
            { mb with edgeId := e0.id, progress := 0 } = false := by
        intro mb hmb
        obtain ⟨hmem, hprog, _⟩ :=
          arrivalGroups_mem _ (d.id, arr) hgmem mb hmb
        have hid : mb.id ∈ s.marbles.map Marble.id := by
          have h2 : mb.id ∈ (advanceMarbles
              { s with tickCount := s.tickCount + 1 }).marbles.map
              Marble.id := List.mem_map.mpr ⟨mb, hmem, rfl⟩
          rw [advance_ids] at h2
          exact h2
        exact ⟨freshOwn_of_arrival _ _ _ _ hprog,
          freshOwn_of_oldId _ _ _ _ hid⟩
      have hb := handleSource_filter_le _ d arr e0 rest hE1 hacc1ent
        (freshOwn s.graph d.id (s.marbles.map Marble.id)) hp
      have hnil := freshOwn_filter_nil s.graph d.id
        { s with tickCount := s.tickCount + 1 }
      rw [hacc1filter _ (Or.inl rfl), hnil] at hb
      simpa using hb
    -- Facts about the handler's output state, by cooldown branch.
    have hfacts : ∃ d2 : SourceNode,
        (d2.spawnCooldown = d.spawnCooldown - 1 ∨
         d2.spawnCooldown = jsRound (60 / d.spawnRate)) ∧ d2.id = d.id ∧
        mget (handleSource ((G1.foldl paStep
          (advanceMarbles { s with tickCount := s.tickCount + 1 },
            ([] : List String))).1) d arr).graph.nodes d.id =
          some (.source d2) ∧
        (handleSource ((G1.foldl paStep
          (advanceMarbles { s with tickCount := s.tickCount + 1 },
            ([] : List String))).1) d arr).graph.edges = s.graph.edges ∧
        (handleSource ((G1.foldl paStep
          (advanceMarbles { s with tickCount := s.tickCount + 1 },
            ([] : List String))).1) d arr).graph.adjacency =
          s.graph.adjacency ∧
        NodesKeyed (handleSource ((G1.foldl paStep
          (advanceMarbles { s with tickCount := s.tickCount + 1 },
            ([] : List String))).1) d arr).graph ∧
        countOf (mkeys (handleSource ((G1.foldl paStep
          (advanceMarbles { s with tickCount := s.tickCount + 1 },
            ([] : List String))).1) d arr).graph.nodes) d.id = 1 := by
      rw [handleSource_state _ d arr e0 rest hE1 hacc1ent]
      by_cases hcd : d.spawnCooldown - 1 ≤ 0
      · rw [if_pos hcd]
        refine ⟨{ d with spawnCooldown := jsRound (60 / d.spawnRate) },
          Or.inr rfl, rfl, mget_mset_self _ _ _, hacc1edges, hacc1adj,
          ?_, ?_⟩
        · intro kv hkv
          exact keyed_mset _ d.id
            (SimNode.source { d with spawnCooldown := jsRound (60 / d.spawnRate) })
            hacc1keyed rfl kv hkv
        · show countOf (mkeys (mset _ _ _)) _ = 1
          have hpres : mget ((G1.foldl paStep
              (advanceMarbles { s with tickCount := s.tickCount + 1 },
                ([] : List String))).1).graph.nodes d.id ≠ none := by
            rw [hacc1ent]
            simp
          rw [mkeys_mset_present _ _ _ hpres]
          exact hacc1cnt
      · rw [if_neg hcd]
        refine ⟨{ d with spawnCooldown := d.spawnCooldown - 1 },
          Or.inl rfl, rfl, mget_mset_self _ _ _, hacc1edges, hacc1adj,
          ?_, ?_⟩
        · intro kv hkv
          exact keyed_mset _ d.id
            (SimNode.source { d with spawnCooldown := d.spawnCooldown - 1 })
            hacc1keyed rfl kv hkv
        · show countOf (mkeys (mset _ _ _)) _ = 1
          have hpres : mget ((G1.foldl paStep
              (advanceMarbles { s with tickCount := s.tickCount + 1 },
                ([] : List String))).1).graph.nodes d.id ≠ none := by
            rw [hacc1ent]
            simp
          rw [mkeys_mset_present _ _ _ hpres]
          exact hacc1cnt
    obtain ⟨d2, hd2cd, hd2id, hu2ent, hu2edges, hu2adj, hu2keyed, hu2cnt⟩ :=
      hfacts
    have htail := (c7_tail script s.graph d2
      (c7Cond s.graph d.id (s.marbles.map Marble.id)) hek hadj
      (by rw [hd2id]; exact Or.inr (Or.inl rfl))
      (by rw [hd2id]
          exact c7Cond_fresh s.graph d.id (s.marbles.map Marble.id) hek hadj)
      G2 ((G1.foldl paStep
        (advanceMarbles { s with tickCount := s.tickCount + 1 },
          ([] : List String))).2 ++ [d.id])
      (by rw [hd2id]; exact hne2) hstep2
      (handleSource ((G1.foldl paStep
        (advanceMarbles { s with tickCount := s.tickCount + 1 },
          ([] : List String))).1) d arr)
      hu2edges hu2adj hu2keyed (by rw [hd2id]; exact hu2ent)
      (by rw [hd2id]; exact hu2cnt)).2
      (Or.inl (by rw [hd2id]; exact hfoot2))
    obtain ⟨hent5, hfil5⟩ := htail
    rw [htick, hfoldsplit, hdstep]
    constructor
    · have hb := hfil5 (freshOwn s.graph d.id (s.marbles.map Marble.id))
        (Or.inl rfl)
      rw [hb]
      exact hfl
    · refine ⟨d2, ?_, ?_⟩
      · have h5 := hent5
        rw [hd2id] at h5
        exact h5
      · rcases hd2cd with h | h
        · exact Or.inr (Or.inl h)
        · exact Or.inr (Or.inr h)

/-- C7 — No double emission: within any single tick, each source node emits
at most one new marble (at most one progress-0 marble carrying a fresh id
appears on the source's outgoing edges), and the source's spawn cooldown is
decremented at most once per tick — its entry ends the tick either
untouched, decremented exactly once, or reset from the spawn rate.  In
particular a source that already received an arrival in the
arrival-dispatch phase (e.g. looped back to itself) is not spawned from
again in the spawn phase of the same tick: the rerouted or spawned
progress-0 marble it left on its outgoing edge trips the
`alreadyProcessed` check.  Hypotheses: the node and edge maps are keyed by
ids, node keys are unique, and the adjacency index lists only edges
leaving the indexed node — the invariants `buildSimGraph` establishes and
JavaScript `Map`s keep. -/
theorem source_single_emission (script : ControllerScript) (s : SimState)
    (d : SourceNode)
    (hk : NodesKeyed s.graph) (hek : EdgesKeyed s.graph)
    (hadj : adjConsistent s.graph = true)
    (hnodup : (mkeys s.graph.nodes).Nodup)
    (hn : mget s.graph.nodes d.id = some (.source d)) :
    ((tick script s).marbles.filter
      (freshOwn s.graph d.id (s.marbles.map Marble.id))).length ≤ 1 ∧
    ∃ d' : SourceNode,
      mget (tick script s).graph.nodes d.id = some (.source d') ∧
      (d'.spawnCooldown = d.spawnCooldown ∨
       d'.spawnCooldown = d.spawnCooldown - 1 ∨
       d'.spawnCooldown = jsRound (60 / d.spawnRate)) := by
  rcases hmg : mget (arrivalGroups
      (advanceMarbles { s with tickCount := s.tickCount + 1 })) d.id
    with _ | arr
  · exact c7_noarrival script s d hk hek hadj hnodup hn hmg
  · exact c7_arrival script s d hk hek hadj hnodup hn arr hmg

/-- Witness for C7 on the concrete one-source demo state. -/
theorem source_single_emission_witness :
    mget demoState.graph.nodes c7SourceNode.id =
      some (.source c7SourceNode) ∧
    (((tick silentScript demoState).marbles.filter
      (freshOwn demoState.graph c7SourceNode.id
        (demoState.marbles.map Marble.id))).length ≤ 1 ∧
     ∃ d' : SourceNode,
       mget (tick silentScript demoState).graph.nodes c7SourceNode.id =
         some (.source d') ∧
       (d'.spawnCooldown = c7SourceNode.spawnCooldown ∨
        d'.spawnCooldown = c7SourceNode.spawnCooldown - 1 ∨
        d'.spawnCooldown = jsRound (60 / c7SourceNode.spawnRate))) :=
  ⟨rfl, source_single_emission silentScript demoState c7SourceNode
    (by decide) (by decide) (by decide) (by decide) rfl⟩

theorem MarblesPreserves.reflMarbles {Cond : (Marble → Bool) → Prop}
    {s : SimState} : MarblesPreserves Cond s s :=
  ⟨Eq.refl _, fun h => h, Eq.refl _, fun _ _ => Eq.refl _⟩

theorem MarblesPreserves.transMarbles {Cond : (Marble → Bool) → Prop}
    {s t u : SimState} (h1 : MarblesPreserves Cond s t)
    (h2 : MarblesPreserves Cond t u) : MarblesPreserves Cond s u :=
  ⟨h2.1.trans h1.1, fun h => h2.2.1 (h1.2.1 h), h2.2.2.1.trans h1.2.2.1,
   fun p hp => (h2.2.2.2 p hp).trans (h1.2.2.2 p hp)⟩

theorem Preserves.toMarbles {hid : String} {arr : List Marble}
    {out0 : List String} {s t : SimState} {Cond : (Marble → Bool) → Prop}
    (h : Preserves hid arr out0 s t)
    (hc : ∀ p, Cond p → (∀ mb ∈ arr, p mb = false) ∧
      (∀ w : Marble, w.edgeId ∈ out0 → w.progress = 0 → p w = false)) :
    MarblesPreserves Cond s t :=
  ⟨h.1, h.2.2.2.1, h.2.2.2.2.1,
   fun p hp => h.2.2.2.2.2 p (hc p hp).1 (hc p hp).2⟩

/-- The arrival-dispatch loop preserves every predicate rejecting all
arrivals and all fresh own-edge spawns. -/
theorem groupFold_marbles (Cond : (Marble → Bool) → Prop) (g0 : SimGraph)
    (gs : List (String × List Marble))
    (hstep : ∀ p, Cond p → ∀ kv ∈ gs,
      (∀ mb ∈ kv.2, p mb = false) ∧
      (∀ w : Marble, w.edgeId ∈ gOutIds g0 kv.1 → w.progress = 0 →
        p w = false)) :
    ∀ acc : SimState × List String,
      acc.1.graph.edges = g0.edges → acc.1.graph.adjacency = g0.adjacency →
      NodesKeyed acc.1.graph →
      MarblesPreserves Cond acc.1 ((gs.foldl paStep acc).1) := by
  induction gs with
  | nil => intro acc _ _ _; exact MarblesPreserves.reflMarbles
  | cons kv rest ih =>
      intro acc he ha hkeyed
      rw [List.foldl_cons]
      show MarblesPreserves Cond acc.1 ((rest.foldl paStep
        (match mget acc.1.graph.nodes kv.1 with
         | none => acc
         | some node => (runHandler acc.1 node kv.2, acc.2 ++ [kv.1]))).1)
      rcases hn0 : mget acc.1.graph.nodes kv.1 with _ | node
      · exact ih (fun p hp kw hkw => hstep p hp kw (List.mem_cons_of_mem _ hkw))
          acc he ha hkeyed
      · have hpres := preserves_runHandler acc.1 node kv.2
        have hid : node.id = kv.1 := hkeyed.get hn0
        have hph : MarblesPreserves Cond acc.1
            (runHandler acc.1 node kv.2) := by
          refine hpres.toMarbles ?_
          intro p hp
          have h2 := hstep p hp kv (List.mem_cons_self _ _)
          refine ⟨h2.1, ?_⟩
          have hout : outIds acc.1 node.id = gOutIds g0 kv.1 := by
            rw [hid]
            exact gOutIds_eq_of he ha kv.1
          rw [hout]
          exact h2.2
        have hfr := hph.1
        exact hph.transMarbles
          (ih (fun p hp kw hkw => hstep p hp kw (List.mem_cons_of_mem _ hkw))
            (runHandler acc.1 node kv.2, acc.2 ++ [kv.1])
            ((congrArg Frame.edges hfr).trans he)
            ((congrArg Frame.adjacency hfr).trans ha)
            (hph.2.1 hkeyed))

/-- The spawn loop preserves every predicate rejecting all fresh own-edge
spawns. -/
theorem spawnFold_marbles (Cond : (Marble → Bool) → Prop) (g0 : SimGraph)
    (ks : List String)
    (hstep : ∀ p, Cond p → ∀ k : String,
      ∀ w : Marble, w.edgeId ∈ gOutIds g0 k → w.progress = 0 → p w = false) :
    ∀ st : SimState,
      st.graph.edges = g0.edges → st.graph.adjacency = g0.adjacency →
      NodesKeyed st.graph →
      MarblesPreserves Cond st (ks.foldl spawnStep st) := by
  induction ks with
  | nil => intro st _ _ _; exact MarblesPreserves.reflMarbles
  | cons k rest ih =>
      intro st he ha hkeyed
      rw [List.foldl_cons]
      have hone : MarblesPreserves Cond st (spawnStep st k) := by
        unfold spawnStep
        rcases hn0 : mget st.graph.nodes k with _ | node
        · exact MarblesPreserves.reflMarbles
        · cases node with
          | source d =>
              dsimp only
              split
              · exact MarblesPreserves.reflMarbles
              · have hpres := preserves_handleSource st d []
                have hid : d.id = k := hkeyed.get hn0
                refine hpres.toMarbles ?_
                intro p hp
                refine ⟨(by intro mb hmb; cases hmb), ?_⟩
                have hout : outIds st d.id = gOutIds g0 k := by
                  rw [hid]
                  exact gOutIds_eq_of he ha k
                rw [hout]
                exact hstep p hp k
          | sink d => exact MarblesPreserves.reflMarbles
          | splitter d => exact MarblesPreserves.reflMarbles
          | elevator d => exact MarblesPreserves.reflMarbles
          | ramp d => exact MarblesPreserves.reflMarbles
          | gate d => exact MarblesPreserves.reflMarbles
          | bucket d => exact MarblesPreserves.reflMarbles
          | basin d => exact MarblesPreserves.reflMarbles
          | colorSplitter d => exact MarblesPreserves.reflMarbles
          | signalBuffer d => exact MarblesPreserves.reflMarbles
          | canvas d => exact MarblesPreserves.reflMarbles
      exact hone.transMarbles
        (ih (spawnStep st k)
          ((congrArg Frame.edges hone.1).trans he)
          ((congrArg Frame.adjacency hone.1).trans ha)
          (hone.2.1 hkeyed))

/-- The periodic loop preserves every predicate rejecting all fresh
own-edge spawns. -/
theorem periodicFold_marbles (Cond : (Marble → Bool) → Prop) (g0 : SimGraph)
    (processed : List String) (ks : List String)
    (hstep : ∀ p, Cond p → ∀ k : String,
      ∀ w : Marble, w.edgeId ∈ gOutIds g0 k → w.progress = 0 → p w = false) :
    ∀ st : SimState,
      st.graph.edges = g0.edges → st.graph.adjacency = g0.adjacency →
      NodesKeyed st.graph →
      MarblesPreserves Cond st (ks.foldl (periodicStep processed) st) := by
  induction ks with
  | nil => intro st _ _ _; exact MarblesPreserves.reflMarbles
  | cons k rest ih =>
      intro st he ha hkeyed
      rw [List.foldl_cons]
      have hone : MarblesPreserves Cond st (periodicStep processed st k) := by
        unfold periodicStep
        rcases hn0 : mget st.graph.nodes k with _ | node
        · exact MarblesPreserves.reflMarbles
        · dsimp only
          split
          · have hpres := preserves_runHandler st node []
            have hid : node.id = k := hkeyed.get hn0
            refine hpres.toMarbles ?_
            intro p hp
            refine ⟨(by intro mb hmb; cases hmb), ?_⟩
            have hout : outIds st node.id = gOutIds g0 k := by
              rw [hid]
              exact gOutIds_eq_of he ha k
            rw [hout]
            exact hstep p hp k
          · exact MarblesPreserves.reflMarbles
      exact hone.transMarbles
        (ih (periodicStep processed st k)
          ((congrArg Frame.edges hone.1).trans he)
          ((congrArg Frame.adjacency hone.1).trans ha)
          (hone.2.1 hkeyed))

/-- Advancing is injective on marbles, so it preserves multiplicities. -/
theorem countOf_advance (s : SimState) (v : Marble) :
    countOf (advanceMarbles s).marbles
      { v with progress := v.progress + v.speed } = countOf s.marbles v := by
  have hinj : Function.Injective (fun m : Marble =>
      ({ m with progress := m.progress + m.speed } : Marble)) := by
    intro a b hab
    obtain ⟨aid, ae, ap, asp, ac⟩ := a
    obtain ⟨bid, be, bp, bsp, bc⟩ := b
    simp only [Marble.mk.injEq] at hab ⊢
    obtain ⟨h1, h2, h3, h4, h5⟩ := hab
    refine ⟨h1, h2, ?_, h4, h5⟩
    rw [h4] at h3
    exact add_right_cancel h3
  have h := List.count_map_of_injective s.marbles _ hinj v
  unfold countOf
  exact h

/-- C10 — Dangling-reference totality: in a state containing a marble whose
edge id resolves to no existing edge, the tick still goes through normally:
the marble is never handed to any node handler (arrival dispatch skips it),
it survives the tick — advanced by its own speed but otherwise untouched,
with its multiplicity in the marble list preserved — and no error is
recorded (for an engine-only state, with no controller script attached,
the controller-error field is unchanged).  Hypotheses: the node and edge
maps are keyed by ids and the adjacency index lists only edges leaving the
indexed node — the invariants `buildSimGraph` establishes. -/
theorem dangling_marble_skipped (script : ControllerScript) (s : SimState)
    (v : Marble)
    (hk : NodesKeyed s.graph) (hek : EdgesKeyed s.graph)
    (hadj : adjConsistent s.graph = true)
    (hcode : s.controllerCode = "")
    (hv : v ∈ s.marbles)
    (hdangling : mget s.graph.edges v.edgeId = none) :
    (∀ kv ∈ arrivalGroups
        (advanceMarbles { s with tickCount := s.tickCount + 1 }),
      ({ v with progress := v.progress + v.speed } : Marble) ∉ kv.2) ∧
    countOf (tick script s).marbles
      { v with progress := v.progress + v.speed } = countOf s.marbles v ∧
    ({ v with progress := v.progress + v.speed } : Marble) ∈
      (tick script s).marbles ∧
    (tick script s).controllerError = s.controllerError := by
  have hskip : ∀ kv ∈ arrivalGroups
      (advanceMarbles { s with tickCount := s.tickCount + 1 }),
      ({ v with progress := v.progress + v.speed } : Marble) ∉ kv.2 := by
    intro kv hkv hmem
    obtain ⟨_, _, e, hres, _⟩ := arrivalGroups_mem _ kv hkv _ hmem
    have hres2 : mget s.graph.edges v.edgeId = some e := hres
    rw [hdangling] at hres2
    cases hres2
  have hstepg : ∀ p, (p = fun w : Marble =>
      decide (w = { v with progress := v.progress + v.speed })) →
      ∀ kv ∈ arrivalGroups
        (advanceMarbles { s with tickCount := s.tickCount + 1 }),
      (∀ mb ∈ kv.2, p mb = false) ∧
      (∀ w : Marble, w.edgeId ∈ gOutIds s.graph kv.1 → w.progress = 0 →
        p w = false) := by
    rintro p rfl kv hkv
    constructor
    · intro mb hmb
      refine decide_eq_false ?_
      intro hEq
      exact hskip kv hkv (hEq ▸ hmb)
    · intro w hw _
      refine decide_eq_false ?_
      intro hEq
      rcases gOutIds_owner hek hadj hw with ⟨e, he, _⟩
      rw [hEq] at he
      rw [show ({ v with progress := v.progress + v.speed } :
        Marble).edgeId = v.edgeId from rfl, hdangling] at he
      cases he
  have hstepf : ∀ p, (p = fun w : Marble =>
      decide (w = { v with progress := v.progress + v.speed })) →
      ∀ k : String, ∀ w : Marble, w.edgeId ∈ gOutIds s.graph k →
        w.progress = 0 → p w = false := by
    rintro p rfl k w hw _
    refine decide_eq_false ?_
    intro hEq
    rcases gOutIds_owner hek hadj hw with ⟨e, he, _⟩
    rw [hEq] at he
    rw [show ({ v with progress := v.progress + v.speed } :
      Marble).edgeId = v.edgeId from rfl, hdangling] at he
    cases he
  -- Phase 2.
  have mph2 := groupFold_marbles
    (fun p => p = fun w : Marble =>
      decide (w = { v with progress := v.progress + v.speed }))
    s.graph
    (arrivalGroups (advanceMarbles { s with tickCount := s.tickCount + 1 }))
    hstepg
    (advanceMarbles { s with tickCount := s.tickCount + 1 }, []) rfl rfl hk
  -- Phase 3 is the identity: no controller script is attached.
  have hcode2 : ((arrivalGroups (advanceMarbles
      { s with tickCount := s.tickCount + 1 })).foldl paStep
      (advanceMarbles { s with tickCount := s.tickCount + 1 },
        ([] : List String))).1.controllerCode = "" := by
    have h2 := congrArg Frame.controllerCode mph2.1
    exact h2.trans hcode
  have hctrl : runController script ((arrivalGroups (advanceMarbles
      { s with tickCount := s.tickCount + 1 })).foldl paStep
      (advanceMarbles { s with tickCount := s.tickCount + 1 },
        ([] : List String))).1 = ((arrivalGroups (advanceMarbles
      { s with tickCount := s.tickCount + 1 })).foldl paStep
      (advanceMarbles { s with tickCount := s.tickCount + 1 },
        ([] : List String))).1 :=
    runController_noScript script _ hcode2
  -- Phases 4 and 5.
  have htick : tick script s = tickPeriodicNodes
      (spawnMarbles (runController script
        ((arrivalGroups (advanceMarbles
          { s with tickCount := s.tickCount + 1 })).foldl paStep
          (advanceMarbles { s with tickCount := s.tickCount + 1 }, [])).1))
      ((arrivalGroups (advanceMarbles
        { s with tickCount := s.tickCount + 1 })).foldl paStep
        (advanceMarbles { s with tickCount := s.tickCount + 1 }, [])).2 := by
    show tickPeriodicNodes
      (spawnMarbles (runController script
        (processArrivals (advanceMarbles
          { s with tickCount := s.tickCount + 1 })).1))
      (processArrivals (advanceMarbles
        { s with tickCount := s.tickCount + 1 })).2 = _
    rw [processArrivals_eq]
  have mph4 : MarblesPreserves
      (fun p => p = fun w : Marble =>
        decide (w = { v with progress := v.progress + v.speed }))
      ((arrivalGroups (advanceMarbles
        { s with tickCount := s.tickCount + 1 })).foldl paStep
        (advanceMarbles { s with tickCount := s.tickCount + 1 },
          ([] : List String))).1
      (spawnMarbles (runController script
        ((arrivalGroups (advanceMarbles
          { s with tickCount := s.tickCount + 1 })).foldl paStep
          (advanceMarbles { s with tickCount := s.tickCount + 1 }, [])).1)) := by
    rw [hctrl, spawnMarbles_eq]
    split
    · exact MarblesPreserves.reflMarbles
    · exact spawnFold_marbles _ s.graph _ hstepf _
        ((congrArg Frame.edges mph2.1)) ((congrArg Frame.adjacency mph2.1))
        (mph2.2.1 hk)
  have mph5 : MarblesPreserves
      (fun p => p = fun w : Marble =>
        decide (w = { v with progress := v.progress + v.speed }))
      (spawnMarbles (runController script
        ((arrivalGroups (advanceMarbles
          { s with tickCount := s.tickCount + 1 })).foldl paStep
          (advanceMarbles { s with tickCount := s.tickCount + 1 }, [])).1))
      (tick script s) := by
    rw [htick, tickPeriodicNodes_eq]
    refine periodicFold_marbles _ s.graph _ _ hstepf _ ?_ ?_ ?_
    · exact (congrArg Frame.edges mph4.1).trans
        ((congrArg Frame.edges mph2.1))
    · exact (congrArg Frame.adjacency mph4.1).trans
        ((congrArg Frame.adjacency mph2.1))
    · exact mph4.2.1 (mph2.2.1 hk)
  have mall : MarblesPreserves
      (fun p => p = fun w : Marble =>
        decide (w = { v with progress := v.progress + v.speed }))
      (advanceMarbles { s with tickCount := s.tickCount + 1 })
      (tick script s) := (mph2.transMarbles mph4).transMarbles mph5
  have hcnt : countOf (tick script s).marbles
      { v with progress := v.progress + v.speed } = countOf s.marbles v := by
    rw [countOf_eq_filter_length, mall.2.2.2 _ rfl,
      ← countOf_eq_filter_length]
    exact countOf_advance { s with tickCount := s.tickCount + 1 } v
  refine ⟨hskip, hcnt, ?_, mall.2.2.1⟩
  · refine countOf_pos_mem ?_
    rw [hcnt]
    unfold countOf
    exact List.count_pos_iff.mpr hv

/-- Witness for C10 on the concrete dangling-marble state. -/
theorem dangling_marble_skipped_witness :
    mget danglingState.graph.edges danglingMarble.edgeId = none ∧
    ((∀ kv ∈ arrivalGroups (advanceMarbles
        { danglingState with tickCount := danglingState.tickCount + 1 }),
      ({ danglingMarble with
        progress := danglingMarble.progress + danglingMarble.speed } :
        Marble) ∉ kv.2) ∧
     countOf (tick silentScript danglingState).marbles
       { danglingMarble with
         progress := danglingMarble.progress + danglingMarble.speed } =
       countOf danglingState.marbles danglingMarble ∧
     ({ danglingMarble with
        progress := danglingMarble.progress + danglingMarble.speed } :
        Marble) ∈ (tick silentScript danglingState).marbles ∧
     (tick silentScript danglingState).controllerError =
       danglingState.controllerError) :=
  ⟨rfl, dangling_marble_skipped silentScript danglingState danglingMarble
    (by decide) (by decide) (by decide) rfl
    (List.mem_cons_self _ _) rfl⟩

/-- Sanity: the normalized-fraction literal for the default marble speed is
the rational `1/50` from the source. -/
theorem DEFAULT_MARBLE_SPEED_eq : DEFAULT_MARBLE_SPEED = 1/50 := by
  have h : DEFAULT_MARBLE_SPEED.num = 1 ∧ DEFAULT_MARBLE_SPEED.den = 50 :=
    ⟨rfl, rfl⟩
  have h2 := Rat.num_div_den DEFAULT_MARBLE_SPEED
  rw [h.1, h.2] at h2
  rw [← h2]
  norm_num

theorem countP_ext {α : Type} (l : List α) (p q : α → Bool)
    (h : ∀ x ∈ l, p x = q x) : l.countP p = l.countP q := by
  induction l with
  | nil => rfl
  | cons a t ih =>
      rw [List.countP_cons, List.countP_cons, h a (List.mem_cons_self a t),
        ih (fun x hx => h x (List.mem_cons_of_mem a hx))]

theorem countP_lt_of_mem {α : Type} (l : List α) (p q : α → Bool)
    (himp : ∀ x ∈ l, q x = true → p x = true) (x0 : α) (hx0 : x0 ∈ l)
    (hp : p x0 = true) (hq : ¬ q x0 = true) : l.countP q < l.countP p := by
  induction l with
  | nil => cases hx0
  | cons a t ih =>
      rw [List.countP_cons, List.countP_cons]
      have hmono : t.countP q ≤ t.countP p :=
        List.countP_mono_left (fun x hx => himp x (List.mem_cons_of_mem a hx))
      rcases List.mem_cons.mp hx0 with h1 | h1
      · subst h1
        rw [if_pos hp, if_neg hq]
        omega
      · have hlt := ih (fun x hx => himp x (List.mem_cons_of_mem a hx)) h1
        have hif : (if q a then 1 else 0) ≤ (if p a then 1 else 0) := by
          by_cases hqa : q a = true
          · rw [if_pos hqa, if_pos (himp a (List.mem_cons_self a t) hqa)]
          · rw [if_neg hqa]
            omega
        omega

theorem countP_or_disjoint {α : Type} (l : List α) (a b : α → Bool)
    (h : ∀ x ∈ l, ¬(a x = true ∧ b x = true)) :
    l.countP (fun x => a x || b x) = l.countP a + l.countP b := by
  induction l with
  | nil => rfl
  | cons x t ih =>
      rw [List.countP_cons, List.countP_cons, List.countP_cons,
        ih (fun y hy => h y (List.mem_cons_of_mem x hy))]
      have hx := h x (List.mem_cons_self x t)
      cases haz : a x with
      | true =>
          cases hbz : b x with
          | true => exact absurd ⟨haz, hbz⟩ hx
          | false => simp [haz, hbz] <;> omega
      | false =>
          cases hbz : b x with
          | true => simp [haz, hbz] <;> omega
          | false => simp [haz, hbz] <;> omega

theorem cut_le_indeg (g : SimGraph) (S : List String) (n : String) :
    cutI g S n ≤ indegI g n := by
  unfold cutI indegI
  exact_mod_cast List.countP_mono_left
    (fun kv _ hb => ((Bool.and_eq_true _ _).mp hb).1)

theorem cut_eq_indeg_iff (g : SimGraph) (S : List String) (n : String) :
    cutI g S n = indegI g n ↔ inAllFrom g S n := by
  constructor
  · intro h kv hkv hto
    by_contra hfrom
    have hlt := countP_lt_of_mem g.edges
      (fun kv => decide (kv.2.to_ = n))
      (fun kv => decide (kv.2.to_ = n) && decide (kv.2.from_ ∈ S))
      (fun x _ hb => ((Bool.and_eq_true _ _).mp hb).1) kv hkv
      (by simp [hto]) (by simp [hto, hfrom])
    unfold cutI indegI at h
    have h2 : g.edges.countP
        (fun kv => decide (kv.2.to_ = n) && decide (kv.2.from_ ∈ S)) =
        g.edges.countP (fun kv => decide (kv.2.to_ = n)) := by exact_mod_cast h
    omega
  · intro h
    have h1 : ∀ x ∈ g.edges, decide (x.2.to_ = n) = true →
        (decide (x.2.to_ = n) && decide (x.2.from_ ∈ S)) = true := by
      intro x hx hb
      have hf := h x hx (of_decide_eq_true hb)
      simp [hb, hf]
    have h2 := List.countP_mono_left h1
    have h3 : g.edges.countP
        (fun x => decide (x.2.to_ = n) && decide (x.2.from_ ∈ S)) ≤
        g.edges.countP (fun x => decide (x.2.to_ = n)) :=
      List.countP_mono_left (fun x _ hb => ((Bool.and_eq_true _ _).mp hb).1)
    unfold cutI indegI
    exact_mod_cast Nat.le_antisymm h3 h2

theorem cutI_nil (g : SimGraph) (n : String) : cutI g [] n = 0 := by
  unfold cutI
  have h : g.edges.countP
      (fun kv => decide (kv.2.to_ = n) && decide (kv.2.from_ ∈ ([] : List String))) = 0 :=
    List.countP_eq_zero.mpr (fun kv _ => by simp)
  rw [h]
  rfl

theorem indeg_zero_iff (g : SimGraph) (n : String) :
    indegI g n = 0 ↔ inAllFrom g [] n := by
  unfold indegI inAllFrom
  constructor
  · intro h kv hkv hto
    have h0 : g.edges.countP (fun kv => decide (kv.2.to_ = n)) = 0 := by
      exact_mod_cast h
    have h1 := List.countP_eq_zero.mp h0 kv hkv
    simp [hto] at h1
  · intro h
    have h0 : g.edges.countP (fun kv => decide (kv.2.to_ = n)) = 0 :=
      List.countP_eq_zero.mpr (fun kv hkv hb =>
        absurd (h kv hkv (of_decide_eq_true hb)) (List.not_mem_nil _))
    rw [h0]
    rfl

theorem inAllFrom_mono {g : SimGraph} {S T : List String} {n : String}
    (hsub : ∀ x ∈ S, x ∈ T) (h : inAllFrom g S n) : inAllFrom g T n :=
  fun kv hkv hto => hsub _ (h kv hkv hto)

theorem cut_snoc (g : SimGraph) (S : List String) (c n : String)
    (hc : c ∉ S) : cutI g (S ++ [c]) n = cutI g S n + outCnt g c n := by
  unfold cutI outCnt
  have hext : ∀ x ∈ g.edges,
      (decide ((x.2 : SimEdge).to_ = n) && decide (x.2.from_ ∈ S ++ [c])) =
      ((decide (x.2.to_ = n) && decide (x.2.from_ ∈ S)) ||
       (decide (x.2.from_ = c) && decide (x.2.to_ = n))) := by
    intro x _
    by_cases h1 : x.2.to_ = n <;> by_cases h2 : x.2.from_ ∈ S <;>
      by_cases h3 : x.2.from_ = c <;> simp [h1, h2, h3, List.mem_append]
  rw [countP_ext _ _ _ hext]
  rw [countP_or_disjoint _ _ _ (fun x _ hand => by
    rcases hand with ⟨ha, hb⟩
    have hS := of_decide_eq_true ((Bool.and_eq_true _ _).mp ha).2
    have hcx := of_decide_eq_true ((Bool.and_eq_true _ _).mp hb).1
    exact hc (hcx ▸ hS))]
  push_cast
  ring

theorem rankIn_append_left (S T : List String) (n : String) (h : n ∈ S) :
    rankIn (S ++ T) n = rankIn S n := by
  induction S with
  | nil => cases h
  | cons x xs ih =>
      by_cases hx : x = n
      · simp [rankIn, hx]
      · rcases List.mem_cons.mp h with h1 | h1
        · exact absurd h1.symm hx
        · simp [rankIn, hx, ih h1]

theorem rankIn_append_self (S : List String) (c : String) (h : c ∉ S) :
    rankIn (S ++ [c]) c = S.length := by
  induction S with
  | nil => simp [rankIn]
  | cons x xs ih =>
      have hx : x ≠ c := fun he => h (he ▸ List.mem_cons_self x xs)
      have hxs : c ∉ xs := fun hm => h (List.mem_cons_of_mem _ hm)
      simp [rankIn, hx, ih hxs]

theorem rankIn_lt_length (S : List String) (n : String) (h : n ∈ S) :
    rankIn S n < S.length := by
  induction S with
  | nil => cases h
  | cons x xs ih =>
      by_cases hx : x = n
      · simp [rankIn, hx]
      · rcases List.mem_cons.mp h with h1 | h1
        · exact absurd h1.symm hx
        · simp only [rankIn, if_neg hx, List.length_cons]
          exact Nat.succ_lt_succ (ih h1)

theorem nodup_snoc {α : Type} (l : List α) (x : α) (hl : l.Nodup)
    (hx : x ∉ l) : (l ++ [x]).Nodup :=
  List.nodup_append.mpr ⟨hl, List.nodup_singleton x, fun a ha hb => by
    rw [List.mem_singleton] at hb
    exact hx (hb ▸ ha)⟩

-- ---------------------------------------------------------------------------
-- Association-list facts for the in-degree map
-- ---------------------------------------------------------------------------
theorem mget_eq_none_iff {β : Type} (m : List (String × β)) (k : String) :
    mget m k = none ↔ k ∉ mkeys m := by
  induction m with
  | nil => simp [mget, mkeys]
  | cons kv rest ih =>
      unfold mget mkeys
      by_cases hk : kv.1 = k
      · simp [hk]
      · simp only [if_neg hk, List.map_cons, List.mem_cons]
        unfold mkeys at ih
        rw [ih]
        constructor
        · intro h hmem
          rcases hmem with h1 | h1
          · exact hk h1.symm
          · exact h h1
        · intro h h1
          exact h (Or.inr h1)

theorem mget_eq_of_mem_nodup {β : Type} {m : List (String × β)} {k : String}
    {v : β} (hnd : (mkeys m).Nodup) (h : (k, v) ∈ m) : mget m k = some v := by
  induction m with
  | nil => cases h
  | cons kv rest ih =>
      have hnd2 : (kv.1 :: mkeys rest).Nodup := hnd
      rcases List.mem_cons.mp h with h1 | h1
      · rw [← h1]
        unfold mget
        simp
      · unfold mget
        have hk : kv.1 ≠ k := by
          intro he
          have hmem : k ∈ mkeys rest := List.mem_map.mpr ⟨(k, v), h1, rfl⟩
          exact (List.nodup_cons.mp hnd2).1 (he ▸ hmem)
        rw [if_neg hk]
        exact ih (List.nodup_cons.mp hnd2).2 h1

theorem mkeys_mset_absent {β : Type} (m : List (String × β)) (k : String)
    (v : β) (h : k ∉ mkeys m) : mkeys (mset m k v) = mkeys m ++ [k] := by
  induction m with
  | nil => simp [mset, mkeys]
  | cons kv rest ih =>
      have hk : kv.1 ≠ k := by
        intro he
        exact h (List.mem_map.mpr ⟨kv, List.mem_cons_self kv rest, he⟩)
      have hrest : k ∉ mkeys rest := by
        intro hm
        rcases List.mem_map.mp hm with ⟨kw, hkw, hfst⟩
        exact h (List.mem_map.mpr ⟨kw, List.mem_cons_of_mem _ hkw, hfst⟩)
      unfold mset mkeys
      rw [if_neg hk]
      simp only [List.map_cons]
      unfold mkeys at ih
      rw [ih hrest]
      rfl

-- ---------------------------------------------------------------------------
-- Characterization of the initial in-degree map
-- ---------------------------------------------------------------------------
theorem foldl_mset_zero_mget (l : List (String × SimNode))
    (m : List (String × Int)) (n : String) :
    mget (l.foldl (fun acc kv => mset acc kv.1 0) m) n =
      if n ∈ mkeys l then some 0 else mget m n := by
  induction l generalizing m with
  | nil => simp [mkeys]
  | cons kv t ih =>
      rw [List.foldl_cons, ih]
      by_cases ht : n ∈ mkeys t
      · rw [if_pos ht, if_pos]
        unfold mkeys
        unfold mkeys at ht
        rw [List.map_cons]
        exact List.mem_cons_of_mem _ ht
      · rw [if_neg ht]
        by_cases hk : kv.1 = n
        · rw [hk, mget_mset_self, if_pos]
          unfold mkeys
          rw [List.map_cons, hk]
          exact List.mem_cons_self _ _
        · rw [mget_mset_ne m kv.1 n 0 (fun he => hk he.symm), if_neg]
          intro hmem
          unfold mkeys at hmem
          rw [List.map_cons] at hmem
          rcases List.mem_cons.mp hmem with h1 | h1
          · exact hk h1.symm
          · exact ht h1

theorem foldl_mset_zero_keys (l : List (String × SimNode))
    (m : List (String × Int)) (hdis : ∀ k ∈ mkeys l, k ∉ mkeys m)
    (hnd : (mkeys l).Nodup) :
    mkeys (l.foldl (fun acc kv => mset acc kv.1 0) m) = mkeys m ++ mkeys l := by
  induction l generalizing m with
  | nil => simp [mkeys]
  | cons kv t ih =>
      have hnd2 : (kv.1 :: mkeys t).Nodup := hnd
      have hnotin : kv.1 ∉ mkeys m :=
        hdis kv.1 (List.mem_map.mpr ⟨kv, List.mem_cons_self kv t, rfl⟩)
      rw [List.foldl_cons]
      have hkeys : mkeys (mset m kv.1 0) = mkeys m ++ [kv.1] :=
        mkeys_mset_absent m kv.1 0 hnotin
      rw [ih (mset m kv.1 0) ?dis (List.nodup_cons.mp hnd2).2, hkeys]
      case dis =>
        intro k hk hmem
        rw [hkeys] at hmem
        rcases List.mem_append.mp hmem with h1 | h1
        · exact hdis k (by
            unfold mkeys
            rw [List.map_cons]
            exact List.mem_cons_of_mem _ hk) h1
        · rw [List.mem_singleton] at h1
          exact (List.nodup_cons.mp hnd2).1 (h1 ▸ hk)
      show mkeys m ++ [kv.1] ++ mkeys t = mkeys m ++ mkeys (kv :: t)
      unfold mkeys
      rw [List.map_cons, List.append_assoc]
      rfl

theorem incr_fold_mget (l : List (String × SimEdge))
    (m : List (String × Int))
    (hcl : ∀ kv ∈ l, (kv.2 : SimEdge).to_ ∈ mkeys m) (n : String) :
    mget (l.foldl
        (fun acc kv => mset acc kv.2.to_ (((mget acc kv.2.to_).getD 0) + 1)) m) n =
      match mget m n with
      | some d => some (d + (l.countP (fun kv => decide (kv.2.to_ = n)) : Nat))
      | none => none := by
  induction l generalizing m with
  | nil => cases hm : mget m n <;> simp [hm]
  | cons kv t ih =>
      have hto : kv.2.to_ ∈ mkeys m := hcl kv (List.mem_cons_self kv t)
      obtain ⟨d0, hd0⟩ : ∃ d, mget m kv.2.to_ = some d := by
        rcases hm : mget m kv.2.to_ with _ | d
        · exact absurd ((mget_eq_none_iff m kv.2.to_).mp hm) (by
            intro h
            exact h hto)
        · exact ⟨d, rfl⟩
      have hkeys : mkeys (mset m kv.2.to_ (d0 + 1)) = mkeys m :=
        mkeys_mset_present m kv.2.to_ (d0 + 1) (by rw [hd0]; exact fun h => by cases h)
      rw [List.foldl_cons, hd0]
      simp only [Option.getD_some]
      have hcl2 : ∀ kw ∈ t, (kw.2 : SimEdge).to_ ∈ mkeys (mset m kv.2.to_ (d0 + 1)) := by
        intro kw hkw
        rw [hkeys]
        exact hcl kw (List.mem_cons_of_mem _ hkw)
      rw [ih (mset m kv.2.to_ (d0 + 1)) hcl2]
      by_cases hn : kv.2.to_ = n
      · rw [hn] at hd0
        rw [List.countP_cons, hn, mget_mset_self, hd0]
        dsimp only
        rw [if_pos (show decide (n = n) = true by simp)]
        congr 1
        push_cast
        ring
      · rw [mget_mset_ne m kv.2.to_ n (d0 + 1) (fun he => hn he.symm),
          List.countP_cons]
        have hdec : decide (kv.2.to_ = n) = false :=
          decide_eq_false (fun he => hn he)
        rw [hdec, if_neg Bool.false_ne_true]
        cases hm : mget m n <;> simp

theorem adj_spec {g : SimGraph} (h : KahnOK g) (nid : String) :
    (mget g.adjacency nid).getD [] =
      (g.edges.filter (fun kv2 => kv2.2.from_ = nid)).map Prod.fst := by
  rcases hadj : mget g.adjacency nid with _ | lst
  · dsimp only [Option.getD]
    symm
    rw [List.map_eq_nil, List.filter_eq_nil]
    intro kv hkv hfrom
    have hf : kv.2.from_ = nid := of_decide_eq_true hfrom
    have hcov := h.adjCov kv hkv
    rw [hf] at hcov
    exact absurd hcov ((mget_eq_none_iff g.adjacency nid).mp hadj)
  · have hmem := mget_mem hadj
    have hval := h.adjVal (nid, lst) hmem
    simpa using hval

theorem initInDegree_d0_keys (g : SimGraph) (h1 : (mkeys g.nodes).Nodup) :
    mkeys (g.nodes.foldl (fun m kv => mset m kv.1 0)
      ([] : List (String × Int))) = mkeys g.nodes := by
  have h := foldl_mset_zero_keys g.nodes ([] : List (String × Int))
    (fun k _ hk => List.not_mem_nil k hk) h1
  simpa using h

theorem incr_fold_keys (l : List (String × SimEdge))
    (m : List (String × Int))
    (hcl : ∀ kv ∈ l, (kv.2 : SimEdge).to_ ∈ mkeys m) :
    mkeys (l.foldl
      (fun acc kv => mset acc kv.2.to_ (((mget acc kv.2.to_).getD 0) + 1)) m) =
      mkeys m := by
  induction l generalizing m with
  | nil => rfl
  | cons kv t ih =>
      rw [List.foldl_cons]
      have hto := hcl kv (List.mem_cons_self kv t)
      have hne : mget m kv.2.to_ ≠ none := by
        intro hnone
        exact (mget_eq_none_iff m kv.2.to_).mp hnone hto
      have hkeys := mkeys_mset_present m kv.2.to_ ((mget m kv.2.to_).getD 0 + 1) hne
      rw [ih _ (fun kw hkw => by
        rw [hkeys]
        exact hcl kw (List.mem_cons_of_mem _ hkw)), hkeys]

theorem initInDegree_keys (g : SimGraph) (h1 : (mkeys g.nodes).Nodup)
    (h2 : ∀ kv ∈ g.edges, (kv.2 : SimEdge).to_ ∈ mkeys g.nodes) :
    mkeys (initInDegree g) = mkeys g.nodes := by
  unfold initInDegree
  have hd0keys := initInDegree_d0_keys g h1
  rw [incr_fold_keys _ _ (fun kv hkv => by rw [hd0keys]; exact h2 kv hkv),
    hd0keys]

theorem initInDegree_mget (g : SimGraph) (h1 : (mkeys g.nodes).Nodup)
    (h2 : ∀ kv ∈ g.edges, (kv.2 : SimEdge).to_ ∈ mkeys g.nodes) (n : String) :
    mget (initInDegree g) n =
      if n ∈ mkeys g.nodes then some (indegI g n) else none := by
  unfold initInDegree
  have hd0keys := initInDegree_d0_keys g h1
  have hd0 : ∀ k, mget (g.nodes.foldl (fun m kv => mset m kv.1 0)
      ([] : List (String × Int))) k =
      if k ∈ mkeys g.nodes then some (0 : Int) else none := by
    intro k
    rw [foldl_mset_zero_mget]
    by_cases hk : k ∈ mkeys g.nodes
    · rw [if_pos hk, if_pos hk]
    · rw [if_neg hk, if_neg hk]
      rfl
  rw [incr_fold_mget _ _ (fun kv hkv => by rw [hd0keys]; exact h2 kv hkv) n,
    hd0 n]
  by_cases hn : n ∈ mkeys g.nodes
  · rw [if_pos hn]
    dsimp only
    rw [if_pos hn]
    unfold indegI
    congr 1
    ring
  · rw [if_neg hn]
    dsimp only
    rw [if_neg hn]

theorem kahnQueue0_mem (g : SimGraph) (h : KahnOK g) (n : String) :
    n ∈ ((initInDegree g).filter (fun kv => kv.2 = 0)).map Prod.fst ↔
      n ∈ mkeys g.nodes ∧ indegI g n = 0 := by
  constructor
  · intro hm
    rcases List.mem_map.mp hm with ⟨kv, hkv, hfst⟩
    have hflt := List.mem_filter.mp hkv
    have hnd : (mkeys (initInDegree g)).Nodup := by
      rw [initInDegree_keys g h.nodesNodup h.closedTo]
      exact h.nodesNodup
    have hget : mget (initInDegree g) kv.1 = some kv.2 :=
      mget_eq_of_mem_nodup hnd hflt.1
    rw [initInDegree_mget g h.nodesNodup h.closedTo] at hget
    subst hfst
    by_cases hn : kv.1 ∈ mkeys g.nodes
    · rw [if_pos hn] at hget
      refine ⟨hn, ?_⟩
      have hv := Option.some.inj hget
      have hz : kv.2 = 0 := of_decide_eq_true hflt.2
      rw [hv, hz]
    · rw [if_neg hn] at hget
      cases hget
  · rintro ⟨hV, hdeg⟩
    have hget : mget (initInDegree g) n = some 0 := by
      rw [initInDegree_mget g h.nodesNodup h.closedTo, if_pos hV, hdeg]
    exact List.mem_map.mpr
      ⟨(n, 0), List.mem_filter.mpr ⟨mget_mem hget, by simp⟩, rfl⟩

theorem kahnQueue0_nodup (g : SimGraph) (h : KahnOK g) :
    (((initInDegree g).filter (fun kv => kv.2 = 0)).map Prod.fst).Nodup := by
  have hnd : (mkeys (initInDegree g)).Nodup := by
    rw [initInDegree_keys g h.nodesNodup h.closedTo]
    exact h.nodesNodup
  have hsub : List.Sublist
      (((initInDegree g).filter (fun kv => kv.2 = 0)).map Prod.fst)
      (mkeys (initInDegree g)) :=
    List.Sublist.map Prod.fst (List.filter_sublist _)
  exact List.Nodup.sublist hsub hnd

theorem dcnt_cons (g : SimGraph) (eid : String) (L : List String)
    (n : String) :
    dcnt g (eid :: L) n = dcnt g L n + (if resTo g n eid = true then 1 else 0) := by
  unfold dcnt
  rw [List.countP_cons]
  by_cases h : resTo g n eid = true
  · rw [if_pos h, if_pos h]
    push_cast
    ring
  · rw [if_neg h, if_neg h]
    push_cast
    ring

theorem dcnt_nonneg (g : SimGraph) (L : List String) (n : String) :
    0 ≤ dcnt g L n := by
  unfold dcnt
  exact_mod_cast Nat.zero_le _

theorem dcnt_adj (g : SimGraph) (h : KahnOK g) (c n : String) :
    dcnt g ((g.edges.filter (fun kv2 => kv2.2.from_ = c)).map Prod.fst) n =
      outCnt g c n := by
  unfold dcnt outCnt
  rw [List.countP_map]
  have hext : ∀ kv ∈ g.edges.filter (fun kv2 => decide (kv2.2.from_ = c)),
      (resTo g n ∘ Prod.fst) kv = decide ((kv.2 : SimEdge).to_ = n) := by
    intro kv hkv
    have hkv2 : kv ∈ g.edges := (List.mem_filter.mp hkv).1
    have hget : mget g.edges kv.1 = some kv.2 :=
      mget_eq_of_mem_nodup h.edgesNodup hkv2
    simp [resTo, Function.comp, hget]
  rw [countP_ext _ _ _ hext, List.countP_filter]
  congr 1
  exact countP_ext _ _ _ (fun kv _ => Bool.and_comm _ _)

theorem kahnVisit_eq (g : SimGraph) (outgoing : List String)
    (deg : List (String × Int)) :
    kahnVisit g outgoing deg = outgoing.foldl (kvStep g) (deg, []) := rfl

theorem kahnVisit_go (g : SimGraph) (h : KahnOK g) (S : List String)
    (c : String) (hc : c ∉ S) :
    ∀ (L2 : List String) (macc : List (String × Int)) (qacc : List String)
      (D : String → Int),
      (∀ eid ∈ L2, ∃ e, mget g.edges eid = some e ∧ e.from_ = c) →
      (∀ n, 0 ≤ D n) →
      (∀ n, D n + dcnt g L2 n = outCnt g c n) →
      (∀ n, mget macc n =
        if n ∈ mkeys g.nodes then some (indegI g n - cutI g S n - D n)
        else none) →
      (∀ n ∈ qacc, n ∈ mkeys g.nodes ∧
        (∃ kv ∈ g.edges, (kv.2 : SimEdge).from_ = c ∧ kv.2.to_ = n) ∧
        cutI g (S ++ [c]) n = indegI g n) →
      qacc.Nodup →
      (∀ n ∈ qacc, indegI g n - cutI g S n - D n ≤ 0) →
      (∀ n ∈ mkeys g.nodes, indegI g n - cutI g S n - D n = 0 →
        n ∈ qacc ∨ D n = 0) →
      (∀ n, mget (L2.foldl (kvStep g) (macc, qacc)).1 n =
        if n ∈ mkeys g.nodes then
          some (indegI g n - cutI g S n - outCnt g c n) else none) ∧
      (∀ n ∈ (L2.foldl (kvStep g) (macc, qacc)).2, n ∈ mkeys g.nodes ∧
        (∃ kv ∈ g.edges, (kv.2 : SimEdge).from_ = c ∧ kv.2.to_ = n) ∧
        cutI g (S ++ [c]) n = indegI g n) ∧
      (L2.foldl (kvStep g) (macc, qacc)).2.Nodup ∧
      (∀ n ∈ mkeys g.nodes, indegI g n - cutI g S n - outCnt g c n = 0 →
        n ∈ (L2.foldl (kvStep g) (macc, qacc)).2 ∨ outCnt g c n = 0) ∧
      mkeys (L2.foldl (kvStep g) (macc, qacc)).1 = mkeys macc := by
  intro L2
  induction L2 with
  | nil =>
      intro macc qacc D hres hD0 hDe hm hq hqnd hqle hzero
      have hD : ∀ n, D n = outCnt g c n := by
        intro n
        have hDn := hDe n
        unfold dcnt at hDn
        simpa using hDn
      simp only [List.foldl_nil]
      refine ⟨?_, hq, hqnd, ?_, trivial⟩
      · intro n
        rw [hm n, hD n]
      · intro n hn hz
        rcases hzero n hn (by rw [hD n]; exact hz) with h1 | h1
        · exact Or.inl h1
        · right
          rw [← hD n]
          exact h1
  | cons eid L2' ih =>
      intro macc qacc D hres hD0 hDe hm hq hqnd hqle hzero
      obtain ⟨e, hrese, hef⟩ := hres eid (List.mem_cons_self _ _)
      have hkvmem : (eid, e) ∈ g.edges := mget_mem hrese
      have htoV : e.to_ ∈ mkeys g.nodes := h.closedTo (eid, e) hkvmem
      have hmget : mget macc e.to_ =
          some (indegI g e.to_ - cutI g S e.to_ - D e.to_) := by
        rw [hm e.to_, if_pos htoV]
      have hstep : kvStep g (macc, qacc) eid =
          (mset macc e.to_ (indegI g e.to_ - cutI g S e.to_ - D e.to_ - 1),
           if indegI g e.to_ - cutI g S e.to_ - D e.to_ - 1 = 0 then
             qacc ++ [e.to_] else qacc) := by
        unfold kvStep
        rw [hrese]
        dsimp only
        rw [hmget]
        dsimp only [Option.getD]
        by_cases hz : indegI g e.to_ - cutI g S e.to_ - D e.to_ - 1 = 0
        · rw [if_pos hz, if_pos hz]
        · rw [if_neg hz, if_neg hz]
      have hres' : ∀ eid' ∈ L2', ∃ e2, mget g.edges eid' = some e2 ∧
          e2.from_ = c :=
        fun eid' h' => hres eid' (List.mem_cons_of_mem _ h')
      have hD0' : ∀ n, 0 ≤ D n + (if e.to_ = n then 1 else 0) := by
        intro n
        have h1 := hD0 n
        by_cases h2 : e.to_ = n
        · rw [if_pos h2]
          omega
        · rw [if_neg h2]
          omega
      have hDe' : ∀ n, (D n + (if e.to_ = n then 1 else 0)) + dcnt g L2' n =
          outCnt g c n := by
        intro n
        have h1 := hDe n
        rw [dcnt_cons] at h1
        have hrt : resTo g n eid = decide (e.to_ = n) := by
          unfold resTo
          rw [hrese]
        rw [hrt] at h1
        by_cases h2 : e.to_ = n
        · rw [if_pos h2]
          rw [if_pos (decide_eq_true h2)] at h1
          omega
        · rw [if_neg h2]
          rw [if_neg (by simp [h2])] at h1
          omega
      have hm' : ∀ n,
          mget (mset macc e.to_
            (indegI g e.to_ - cutI g S e.to_ - D e.to_ - 1)) n =
          if n ∈ mkeys g.nodes then
            some (indegI g n - cutI g S n -
              (D n + (if e.to_ = n then 1 else 0))) else none := by
        intro n
        by_cases h1 : e.to_ = n
        · subst h1
          rw [mget_mset_self, if_pos htoV, if_pos rfl]
          congr 1
          ring
        · rw [mget_mset_ne macc e.to_ n _ (fun hh => h1 hh.symm), hm n]
          by_cases h2 : n ∈ mkeys g.nodes
          · rw [if_pos h2, if_pos h2, if_neg h1]
            congr 1
            ring
          · rw [if_neg h2, if_neg h2]
      have hkeysd : mkeys (mset macc e.to_
          (indegI g e.to_ - cutI g S e.to_ - D e.to_ - 1)) = mkeys macc :=
        mkeys_mset_present macc e.to_ _ (by
          rw [hmget]
          exact fun hh => by cases hh)
      by_cases hz : indegI g e.to_ - cutI g S e.to_ - D e.to_ - 1 = 0
      · -- target reached zero: it is enqueued
        have hstepA : kvStep g (macc, qacc) eid =
            (mset macc e.to_
              (indegI g e.to_ - cutI g S e.to_ - D e.to_ - 1),
             qacc ++ [e.to_]) := by
          rw [hstep, if_pos hz]
        have hnotq : e.to_ ∉ qacc := by
          intro hmem
          have h1 := hqle e.to_ hmem
          omega
        have hq' : ∀ n ∈ qacc ++ [e.to_], n ∈ mkeys g.nodes ∧
            (∃ kv ∈ g.edges, (kv.2 : SimEdge).from_ = c ∧ kv.2.to_ = n) ∧
            cutI g (S ++ [c]) n = indegI g n := by
          intro n hn
          rcases List.mem_append.mp hn with h1 | h1
          · exact hq n h1
          · rw [List.mem_singleton] at h1
            subst h1
            refine ⟨htoV, ⟨(eid, e), hkvmem, hef, rfl⟩, ?_⟩
            have h2 := hDe' e.to_
            have h3 := dcnt_nonneg g L2' e.to_
            have h4 := cut_snoc g S c e.to_ hc
            have h5 := cut_le_indeg g (S ++ [c]) e.to_
            rw [if_pos rfl] at h2
            omega
        have hqnd' : (qacc ++ [e.to_]).Nodup := nodup_snoc qacc e.to_ hqnd hnotq
        have hqle' : ∀ n ∈ qacc ++ [e.to_],
            indegI g n - cutI g S n - (D n + (if e.to_ = n then 1 else 0)) ≤ 0 := by
          intro n hn
          rcases List.mem_append.mp hn with h1 | h1
          · have h2 := hqle n h1
            by_cases h3 : e.to_ = n
            · rw [if_pos h3]
              omega
            · rw [if_neg h3]
              omega
          · rw [List.mem_singleton] at h1
            subst h1
            rw [if_pos rfl]
            omega
        have hzero' : ∀ n ∈ mkeys g.nodes,
            indegI g n - cutI g S n - (D n + (if e.to_ = n then 1 else 0)) = 0 →
            n ∈ qacc ++ [e.to_] ∨ D n + (if e.to_ = n then 1 else 0) = 0 := by
          intro n hn hzn
          by_cases h1 : e.to_ = n
          · subst h1
            exact Or.inl (List.mem_append.mpr
              (Or.inr (List.mem_singleton.mpr rfl)))
          · rw [if_neg h1, add_zero] at hzn
            rcases hzero n hn hzn with h2 | h2
            · exact Or.inl (List.mem_append.mpr (Or.inl h2))
            · right
              rw [if_neg h1]
              omega
        obtain ⟨i1, i2, i3, i4, i5⟩ := ih
          (mset macc e.to_ (indegI g e.to_ - cutI g S e.to_ - D e.to_ - 1))
          (qacc ++ [e.to_])
          (fun n => D n + (if e.to_ = n then 1 else 0))
          hres' hD0' hDe' hm' hq' hqnd' hqle' hzero'
        rw [List.foldl_cons, hstepA]
        refine ⟨i1, i2, i3, i4, ?_⟩
        rw [i5, hkeysd]
      · -- no zero hit: queue unchanged
        have hstepB : kvStep g (macc, qacc) eid =
            (mset macc e.to_
              (indegI g e.to_ - cutI g S e.to_ - D e.to_ - 1), qacc) := by
          rw [hstep, if_neg hz]
        have hqle' : ∀ n ∈ qacc,
            indegI g n - cutI g S n - (D n + (if e.to_ = n then 1 else 0)) ≤ 0 := by
          intro n hn
          have h2 := hqle n hn
          by_cases h3 : e.to_ = n
          · rw [if_pos h3]
            omega
          · rw [if_neg h3]
            omega
        have hzero' : ∀ n ∈ mkeys g.nodes,
            indegI g n - cutI g S n - (D n + (if e.to_ = n then 1 else 0)) = 0 →
            n ∈ qacc ∨ D n + (if e.to_ = n then 1 else 0) = 0 := by
          intro n hn hzn
          by_cases h1 : e.to_ = n
          · subst h1
            rw [if_pos rfl] at hzn
            omega
          · rw [if_neg h1, add_zero] at hzn
            rcases hzero n hn hzn with h2 | h2
            · exact Or.inl h2
            · right
              rw [if_neg h1]
              omega
        obtain ⟨i1, i2, i3, i4, i5⟩ := ih
          (mset macc e.to_ (indegI g e.to_ - cutI g S e.to_ - D e.to_ - 1))
          qacc
          (fun n => D n + (if e.to_ = n then 1 else 0))
          hres' hD0' hDe' hm' hq hqnd hqle' hzero'
        rw [List.foldl_cons, hstepB]
        refine ⟨i1, i2, i3, i4, ?_⟩
        rw [i5, hkeysd]

theorem kahnVisit_spec (g : SimGraph) (h : KahnOK g) (S : List String)
    (c : String) (hc : c ∉ S) (m : List (String × Int))
    (hm : ∀ n, mget m n =
      if n ∈ mkeys g.nodes then some (indegI g n - cutI g S n) else none) :
    (∀ n, mget (kahnVisit g ((mget g.adjacency c).getD []) m).1 n =
      if n ∈ mkeys g.nodes then
        some (indegI g n - cutI g (S ++ [c]) n) else none) ∧
    (∀ n ∈ (kahnVisit g ((mget g.adjacency c).getD []) m).2,
      n ∈ mkeys g.nodes ∧
      (∃ kv ∈ g.edges, (kv.2 : SimEdge).from_ = c ∧ kv.2.to_ = n) ∧
      cutI g (S ++ [c]) n = indegI g n) ∧
    (kahnVisit g ((mget g.adjacency c).getD []) m).2.Nodup ∧
    (∀ n ∈ mkeys g.nodes, cutI g (S ++ [c]) n = indegI g n →
      n ∈ (kahnVisit g ((mget g.adjacency c).getD []) m).2 ∨
      cutI g (S ++ [c]) n = cutI g S n) ∧
    mkeys (kahnVisit g ((mget g.adjacency c).getD []) m).1 = mkeys m := by
  have hL := adj_spec h c
  have hres : ∀ eid ∈ (mget g.adjacency c).getD [],
      ∃ e, mget g.edges eid = some e ∧ e.from_ = c := by
    intro eid hmem
    rw [hL] at hmem
    rcases List.mem_map.mp hmem with ⟨kv, hkv, hfst⟩
    have hkv2 : kv ∈ g.edges := (List.mem_filter.mp hkv).1
    have hfrom : kv.2.from_ = c := of_decide_eq_true (List.mem_filter.mp hkv).2
    exact ⟨kv.2, by
      rw [← hfst]
      exact mget_eq_of_mem_nodup h.edgesNodup hkv2, hfrom⟩
  have hDe : ∀ n, (fun (_ : String) => (0 : Int)) n +
      dcnt g ((mget g.adjacency c).getD []) n = outCnt g c n := by
    intro n
    show (0 : Int) + dcnt g ((mget g.adjacency c).getD []) n = outCnt g c n
    rw [zero_add, hL, dcnt_adj g h c n]
  have hgo := kahnVisit_go g h S c hc ((mget g.adjacency c).getD []) m []
    (fun _ => 0) hres (fun _ => le_refl 0) hDe
    (by
      intro n
      rw [hm n]
      by_cases hn : n ∈ mkeys g.nodes
      · rw [if_pos hn, if_pos hn]
        congr 1
        ring
      · rw [if_neg hn, if_neg hn])
    (fun n hn => absurd hn (List.not_mem_nil n))
    List.nodup_nil
    (fun n hn => absurd hn (List.not_mem_nil n))
    (by
      intro n _ _
      right
      rfl)
  rw [kahnVisit_eq]
  obtain ⟨i1, i2, i3, i4, i5⟩ := hgo
  refine ⟨?_, i2, i3, ?_, i5⟩
  · intro n
    rw [i1 n]
    by_cases hn : n ∈ mkeys g.nodes
    · rw [if_pos hn, if_pos hn]
      congr 1
      rw [cut_snoc g S c n hc]
      ring
    · rw [if_neg hn, if_neg hn]
  · intro n hn hcut
    have h4 := i4 n hn (by
      rw [cut_snoc g S c n hc] at hcut
      omega)
    rcases h4 with h5 | h5
    · exact Or.inl h5
    · right
      rw [cut_snoc g S c n hc, h5]
      ring

theorem kahnLoop_nil (g : SimGraph) (fuel : Nat) (m : List (String × Int))
    (v : Nat) : kahnLoop g (fuel + 1) [] m v = (v, m) := rfl

theorem kahnLoop_cons (g : SimGraph) (fuel : Nat) (c : String)
    (rest : List String) (m : List (String × Int)) (v : Nat) :
    kahnLoop g (fuel + 1) (c :: rest) m v =
      kahnLoop g fuel
        (rest ++ (kahnVisit g ((mget g.adjacency c).getD []) m).2)
        (kahnVisit g ((mget g.adjacency c).getD []) m).1 (v + 1) := rfl

theorem kahnLoop_spec (g : SimGraph) (h : KahnOK g) :
    ∀ (fuel : Nat) (S q : List String) (m : List (String × Int)),
      KahnInv g S q m →
      (mkeys g.nodes).length + 1 ≤ S.length + fuel →
      ∃ T, KahnInv g T [] (kahnLoop g fuel q m S.length).2 ∧
        (kahnLoop g fuel q m S.length).1 = T.length := by
  intro fuel
  induction fuel with
  | zero =>
      intro S q m hinv hfuel
      exfalso
      have hSnd : S.Nodup := (List.nodup_append.mp hinv.nd).1
      have hSsub : ∀ n ∈ S, n ∈ mkeys g.nodes :=
        fun n hn => hinv.subV n (List.mem_append.mpr (Or.inl hn))
      have h1 : S.toFinset.card = S.length := List.toFinset_card_of_nodup hSnd
      have h2 : S.toFinset ⊆ (mkeys g.nodes).toFinset := by
        intro a ha
        exact List.mem_toFinset.mpr (hSsub a (List.mem_toFinset.mp ha))
      have h3 := Finset.card_le_card h2
      have h4 := List.toFinset_card_le (mkeys g.nodes)
      omega
  | succ fuel ih =>
      intro S q m hinv hfuel
      cases q with
      | nil =>
          rw [kahnLoop_nil]
          exact ⟨S, hinv, rfl⟩
      | cons c rest =>
          have hcV : c ∈ mkeys g.nodes :=
            hinv.subV c (List.mem_append.mpr (Or.inr (List.mem_cons_self c rest)))
          have hnd3 := List.nodup_append.mp hinv.nd
          have hcS : c ∉ S := fun hmem => hnd3.2.2 hmem (List.mem_cons_self c rest)
          have hcrest : c ∉ rest := (List.nodup_cons.mp hnd3.2.1).1
          have hcin : inAllFrom g S c := hinv.qAll c (List.mem_cons_self c rest)
          obtain ⟨i1, i2, i3, i4, i5⟩ := kahnVisit_spec g h S c hcS m hinv.degs
          rw [kahnLoop_cons]
          generalize hvis : kahnVisit g ((mget g.adjacency c).getD []) m = vis
          rw [hvis] at i1 i2 i3 i4 i5
          have hnew : KahnInv g (S ++ [c]) (rest ++ vis.2) vis.1 := by
            refine ⟨?_, ?_, i1, ?_, ?_, ?_, i5.trans hinv.keys⟩
            · -- membership in the node set
              intro n hn
              rcases List.mem_append.mp hn with h2 | h2
              · rcases List.mem_append.mp h2 with h3 | h3
                · exact hinv.subV n (List.mem_append.mpr (Or.inl h3))
                · rw [List.mem_singleton] at h3
                  subst h3
                  exact hcV
              · rcases List.mem_append.mp h2 with h3 | h3
                · exact hinv.subV n (List.mem_append.mpr
                    (Or.inr (List.mem_cons_of_mem _ h3)))
                · exact (i2 n h3).1
            · -- freedom from duplicates
              have h1 : (S ++ [c]) ++ (rest ++ vis.2) =
                  (S ++ c :: rest) ++ vis.2 := by
                simp
              rw [h1]
              refine List.nodup_append.mpr ⟨hinv.nd, i3, ?_⟩
              intro a ha hb
              obtain ⟨haV, ⟨kv, hkv, hkf, hkt⟩, hcut⟩ := i2 a hb
              rcases List.mem_append.mp ha with h2 | h2
              · have h3 := hinv.topo a h2 kv hkv hkt
                rw [hkf] at h3
                exact hcS h3.1
              · rcases List.mem_cons.mp h2 with h3 | h3
                · subst h3
                  have h4 := hcin kv hkv hkt
                  rw [hkf] at h4
                  exact hcS h4
                · have h4 := hinv.qAll a (List.mem_cons_of_mem _ h3) kv hkv hkt
                  rw [hkf] at h4
                  exact hcS h4
            · -- queue entries have all in-edges visited
              intro n hn
              rcases List.mem_append.mp hn with h2 | h2
              · exact inAllFrom_mono
                  (fun x hx => List.mem_append.mpr (Or.inl hx))
                  (hinv.qAll n (List.mem_cons_of_mem _ h2))
              · exact (cut_eq_indeg_iff g (S ++ [c]) n).mp (i2 n h2).2.2
            · -- topological order of the visited list
              intro b hb kv hkv hkt
              rcases List.mem_append.mp hb with h2 | h2
              · have h3 := hinv.topo b h2 kv hkv hkt
                refine ⟨List.mem_append.mpr (Or.inl h3.1), ?_⟩
                rw [rankIn_append_left S [c] _ h3.1,
                  rankIn_append_left S [c] b h2]
                exact h3.2
              · rw [List.mem_singleton] at h2
                rw [h2] at hkt ⊢
                have h4 := hcin kv hkv hkt
                refine ⟨List.mem_append.mpr (Or.inl h4), ?_⟩
                rw [rankIn_append_left S [c] _ h4, rankIn_append_self S c hcS]
                exact rankIn_lt_length S _ h4
            · -- unfinished nodes still have a pending in-edge
              intro n hnV hnmem hin
              have hnS : n ∉ S := fun h2 => hnmem (List.mem_append.mpr
                (Or.inl (List.mem_append.mpr (Or.inl h2))))
              have hnc : n ≠ c := fun h2 => hnmem (List.mem_append.mpr
                (Or.inl (List.mem_append.mpr
                  (Or.inr (List.mem_singleton.mpr h2)))))
              have hnrest : n ∉ rest := fun h2 => hnmem (List.mem_append.mpr
                (Or.inr (List.mem_append.mpr (Or.inl h2))))
              have hnvis : n ∉ vis.2 := fun h2 => hnmem (List.mem_append.mpr
                (Or.inr (List.mem_append.mpr (Or.inr h2))))
              have hcut : cutI g (S ++ [c]) n = indegI g n :=
                (cut_eq_indeg_iff g (S ++ [c]) n).mpr hin
              rcases i4 n hnV hcut with h5 | h5
              · exact hnvis h5
              · have h6 : cutI g S n = indegI g n := by
                  rw [← h5]
                  exact hcut
                have h7 := (cut_eq_indeg_iff g S n).mp h6
                have h8 : n ∉ S ++ c :: rest := by
                  intro hm2
                  rcases List.mem_append.mp hm2 with h9 | h9
                  · exact hnS h9
                  · rcases List.mem_cons.mp h9 with h10 | h10
                    · exact hnc h10
                    · exact hnrest h10
                exact hinv.missed n hnV h8 h7
          have hlen : (S ++ [c]).length = S.length + 1 := by simp
          have hfuel' : (mkeys g.nodes).length + 1 ≤ (S ++ [c]).length + fuel := by
            rw [hlen]
            omega
          obtain ⟨T, hT1, hT2⟩ := ih (S ++ [c]) (rest ++ vis.2) vis.1 hnew hfuel'
          rw [hlen] at hT1 hT2
          exact ⟨T, hT1, hT2⟩

-- ---------------------------------------------------------------------------
-- Cycle extraction and the correctness theorem
-- ---------------------------------------------------------------------------
theorem transGen_exists_last {α : Type} (r : α → α → Prop) (a b : α)
    (h : Relation.TransGen r a b) : ∃ c, r c b := by
  induction h with
  | single h1 => exact ⟨_, h1⟩
  | tail _ h2 _ => exact ⟨_, h2⟩

/-- A finite nonempty set in which every element has a predecessor contains
a cycle. -/
theorem cycle_of_pred {α : Type} [DecidableEq α] (r : α → α → Prop) (U : List α)
    (hpred : ∀ u ∈ U, ∃ a ∈ U, r a u) (u0 : α) (hu0 : u0 ∈ U) :
    ∃ n, Relation.TransGen r n n := by
  let f : Nat → {x // x ∈ U} := fun i =>
    Nat.rec ⟨u0, hu0⟩ (fun _ p => ⟨(hpred p.1 p.2).choose,
      (hpred p.1 p.2).choose_spec.1⟩) i
  have hstepf : ∀ i, r (f (i + 1)).1 (f i).1 := fun i =>
    (hpred (f i).1 (f i).2).choose_spec.2
  have htrans : ∀ i j, i < j → Relation.TransGen r (f j).1 (f i).1 := by
    intro i j hij
    induction hij with
    | refl => exact Relation.TransGen.single (hstepf i)
    | @step m _ ih => exact Relation.TransGen.head (hstepf m) ih
  have hcard : U.toFinset.card < (Finset.range (U.length + 1)).card := by
    rw [Finset.card_range]
    have h1 := List.toFinset_card_le U
    omega
  have hmaps : ∀ i ∈ Finset.range (U.length + 1), (f i).1 ∈ U.toFinset :=
    fun i _ => List.mem_toFinset.mpr (f i).2
  obtain ⟨i, _, j, _, hne, heq⟩ :=
    Finset.exists_ne_map_eq_of_card_lt_of_maps_to hcard hmaps
  rcases Nat.lt_or_ge i j with hij | hij
  · refine ⟨(f i).1, ?_⟩
    have ht := htrans i j hij
    rw [← heq] at ht
    exact ht
  · have hji : j < i := lt_of_le_of_ne hij (Ne.symm hne)
    refine ⟨(f j).1, ?_⟩
    have ht := htrans j i hji
    rw [heq] at ht
    exact ht

/-- If the elimination got stuck with an unvisited node, the graph has a
directed cycle: unvisited nodes always have an unvisited in-neighbour. -/
theorem cycle_of_stuck (g : SimGraph) (h : KahnOK g) (T : List String)
    (hmiss : ∀ n ∈ mkeys g.nodes, n ∉ T → ¬ inAllFrom g T n)
    (u0 : String) (hu0V : u0 ∈ mkeys g.nodes) (hu0T : u0 ∉ T) :
    HasCycle g := by
  have hU : ∀ u ∈ (mkeys g.nodes).filter (fun n => decide (n ∉ T)),
      ∃ a ∈ (mkeys g.nodes).filter (fun n => decide (n ∉ T)),
        EdgeStep g a u := by
    intro u hu
    have h1 := List.mem_filter.mp hu
    have h2 : u ∉ T := of_decide_eq_true h1.2
    have h3 := hmiss u h1.1 h2
    unfold inAllFrom at h3
    push_neg at h3
    obtain ⟨kv, hkv, hto, hfrom⟩ := h3
    refine ⟨kv.2.from_, List.mem_filter.mpr
      ⟨h.closedFrom kv hkv, decide_eq_true hfrom⟩, ?_⟩
    exact ⟨kv.2, List.mem_map.mpr ⟨kv, hkv, rfl⟩, rfl, hto⟩
  have hu0U : u0 ∈ (mkeys g.nodes).filter (fun n => decide (n ∉ T)) :=
    List.mem_filter.mpr ⟨hu0V, decide_eq_true hu0T⟩
  exact cycle_of_pred (EdgeStep g) _ hU u0 hu0U

theorem validateDAG_eq (g : SimGraph) :
    validateDAG g =
      (if (kahnLoop g (g.nodes.length + g.edges.length + 1)
            (((initInDegree g).filter (fun kv => kv.2 = 0)).map Prod.fst)
            (initInDegree g) 0).1 = g.nodes.length then ValidationResult.valid
       else .invalid [cycleMessage
         (((kahnLoop g (g.nodes.length + g.edges.length + 1)
            (((initInDegree g).filter (fun kv => kv.2 = 0)).map Prod.fst)
            (initInDegree g) 0).2.filter (fun kv => 0 < kv.2)).map
              Prod.fst)]) := rfl

theorem kahnInv_init (g : SimGraph) (h : KahnOK g) :
    KahnInv g [] (((initInDegree g).filter (fun kv => kv.2 = 0)).map Prod.fst)
      (initInDegree g) := by
  refine ⟨?_, ?_, ?_, ?_, ?_, ?_, initInDegree_keys g h.nodesNodup h.closedTo⟩
  · intro n hn
    rw [List.nil_append] at hn
    exact ((kahnQueue0_mem g h n).mp hn).1
  · rw [List.nil_append]
    exact kahnQueue0_nodup g h
  · intro n
    rw [initInDegree_mget g h.nodesNodup h.closedTo]
    by_cases hn : n ∈ mkeys g.nodes
    · rw [if_pos hn, if_pos hn, cutI_nil, sub_zero]
    · rw [if_neg hn, if_neg hn]
  · intro n hn
    have h2 := (kahnQueue0_mem g h n).mp hn
    exact (indeg_zero_iff g n).mp h2.2
  · intro b hb
    cases hb
  · intro n hnV hnmem hin
    rw [List.nil_append] at hnmem
    have h2 : indegI g n = 0 := (indeg_zero_iff g n).mpr hin
    exact hnmem ((kahnQueue0_mem g h n).mpr ⟨hnV, h2⟩)

theorem validateDAG_final (g : SimGraph) (h : KahnOK g) (T : List String)
    (R : Nat × List (String × Int))
    (hR : kahnLoop g (g.nodes.length + g.edges.length + 1)
      (((initInDegree g).filter (fun kv => kv.2 = 0)).map Prod.fst)
      (initInDegree g) 0 = R)
    (hinvT : KahnInv g T [] R.2) (hlenT : R.1 = T.length) :
    (validateDAG g = ValidationResult.valid ↔ Acyclic g) ∧
    (validateDAG g ≠ ValidationResult.valid →
      ∃ (visited cycleNodes : List String),
        validateDAG g = .invalid [cycleMessage cycleNodes] ∧
        cycleNodes ≠ [] ∧
        (∀ n, n ∈ cycleNodes ↔ n ∈ mkeys g.nodes ∧ n ∉ visited) ∧
        (∀ n, Relation.TransGen (EdgeStep g) n n → n ∈ cycleNodes)) := by
  have hval_eq : validateDAG g =
      (if R.1 = g.nodes.length then ValidationResult.valid
       else .invalid [cycleMessage
         ((R.2.filter (fun kv => 0 < kv.2)).map Prod.fst)]) := by
    rw [validateDAG_eq g, hR]
  have hTnd : T.Nodup := by
    have h1 := hinvT.nd
    rwa [List.append_nil] at h1
  have hTsub : ∀ n ∈ T, n ∈ mkeys g.nodes := fun n hn =>
    hinvT.subV n (by rw [List.append_nil]; exact hn)
  have htopo := hinvT.topo
  have hmiss : ∀ n ∈ mkeys g.nodes, n ∉ T → ¬ inAllFrom g T n :=
    fun n hnV hn => hinvT.missed n hnV (by rwa [List.append_nil])
  have hdegs := hinvT.degs
  have hkeys := hinvT.keys
  have hlm : (mkeys g.nodes).length = g.nodes.length := List.length_map _ _
  -- every node of the visited list sees strictly smaller-ranked in-neighbours,
  -- so no cycle touches it
  have hchain : ∀ a b, Relation.TransGen (EdgeStep g) a b → b ∈ T →
      a ∈ T ∧ rankIn T a < rankIn T b := by
    intro a b htg
    induction htg with
    | single hs =>
        intro hb
        obtain ⟨e, he, hef, het⟩ := hs
        have he2 : e ∈ g.edges.map Prod.snd := he
        rcases List.mem_map.mp he2 with ⟨kv, hkv, hsnd⟩
        have h3 := htopo _ hb kv hkv (by rw [hsnd]; exact het)
        rw [hsnd, hef] at h3
        exact h3
    | tail _ hs ih =>
        intro hcmem
        obtain ⟨e, he, hef, het⟩ := hs
        have he2 : e ∈ g.edges.map Prod.snd := he
        rcases List.mem_map.mp he2 with ⟨kv, hkv, hsnd⟩
        have h3 := htopo _ hcmem kv hkv (by rw [hsnd]; exact het)
        rw [hsnd, hef] at h3
        have h4 := ih h3.1
        exact ⟨h4.1, lt_trans h4.2 h3.2⟩
  have hcycV : ∀ n, Relation.TransGen (EdgeStep g) n n →
      n ∈ mkeys g.nodes := by
    intro n htg
    obtain ⟨c0, hc0⟩ := transGen_exists_last (EdgeStep g) n n htg
    obtain ⟨e, he, _, het⟩ := hc0
    have he2 : e ∈ g.edges.map Prod.snd := he
    rcases List.mem_map.mp he2 with ⟨kv, hkv, hsnd⟩
    have h2 := h.closedTo kv hkv
    rw [hsnd, het] at h2
    exact h2
  have hcycT : ∀ n, Relation.TransGen (EdgeStep g) n n → n ∉ T := by
    intro n htg hnT
    exact lt_irrefl _ (hchain n n htg hnT).2
  have hvalid_iff : validateDAG g = ValidationResult.valid ↔
      T.length = g.nodes.length := by
    rw [hval_eq]
    constructor
    · intro hv2
      by_cases hc2 : R.1 = g.nodes.length
      · rw [hlenT] at hc2
        exact hc2
      · rw [if_neg hc2] at hv2
        cases hv2
    · intro hc2
      rw [if_pos (by rw [hlenT]; exact hc2)]
  have hVsubT : T.length = g.nodes.length → ∀ n ∈ mkeys g.nodes, n ∈ T := by
    intro hlen n hn
    have h1 : T.toFinset.card = T.length := List.toFinset_card_of_nodup hTnd
    have h2 : T.toFinset ⊆ (mkeys g.nodes).toFinset := fun a ha =>
      List.mem_toFinset.mpr (hTsub a (List.mem_toFinset.mp ha))
    have h3 : (mkeys g.nodes).toFinset.card ≤ (mkeys g.nodes).length :=
      List.toFinset_card_le _
    have h5 : (mkeys g.nodes).toFinset.card ≤ T.toFinset.card := by omega
    have h6 : T.toFinset = (mkeys g.nodes).toFinset :=
      Finset.eq_of_subset_of_card_le h2 h5
    have h7 : n ∈ (mkeys g.nodes).toFinset := List.mem_toFinset.mpr hn
    rw [← h6] at h7
    exact List.mem_toFinset.mp h7
  have hmissing_of : validateDAG g ≠ ValidationResult.valid →
      ∃ u ∈ mkeys g.nodes, u ∉ T := by
    intro hnv
    by_contra hall
    push_neg at hall
    have h6 : T.toFinset = (mkeys g.nodes).toFinset := by
      apply Finset.Subset.antisymm
      · intro a ha
        exact List.mem_toFinset.mpr (hTsub a (List.mem_toFinset.mp ha))
      · intro a ha
        exact List.mem_toFinset.mpr (hall a (List.mem_toFinset.mp ha))
    have h1 : T.toFinset.card = T.length := List.toFinset_card_of_nodup hTnd
    have h2 : (mkeys g.nodes).toFinset.card = (mkeys g.nodes).length :=
      List.toFinset_card_of_nodup h.nodesNodup
    rw [h6, h2] at h1
    exact hnv (hvalid_iff.mpr (by omega))
  have hcyc_mem : ∀ n, n ∈ (R.2.filter (fun kv => 0 < kv.2)).map Prod.fst ↔
      n ∈ mkeys g.nodes ∧ n ∉ T := by
    intro n
    constructor
    · intro hm2
      rcases List.mem_map.mp hm2 with ⟨kv, hkv, hfst⟩
      have hflt := List.mem_filter.mp hkv
      have hndk : (mkeys R.2).Nodup := by
        rw [hkeys]
        exact h.nodesNodup
      have hget : mget R.2 kv.1 = some kv.2 := mget_eq_of_mem_nodup hndk hflt.1
      rw [hdegs kv.1] at hget
      subst hfst
      by_cases hn : kv.1 ∈ mkeys g.nodes
      · rw [if_pos hn] at hget
        have hv := Option.some.inj hget
        have hpos : (0 : Int) < kv.2 := of_decide_eq_true hflt.2
        refine ⟨hn, ?_⟩
        intro hnT
        have hall : inAllFrom g T kv.1 := by
          intro kv2 hkv2 hto
          exact (htopo kv.1 hnT kv2 hkv2 hto).1
        have hcut := (cut_eq_indeg_iff g T kv.1).mpr hall
        omega
      · rw [if_neg hn] at hget
        cases hget
    · rintro ⟨hnV, hnT⟩
      have hnm := hmiss n hnV hnT
      have hne : cutI g T n ≠ indegI g n := fun hc2 =>
        hnm ((cut_eq_indeg_iff g T n).mp hc2)
      have hle := cut_le_indeg g T n
      have hget : mget R.2 n = some (indegI g n - cutI g T n) := by
        rw [hdegs n, if_pos hnV]
      have hmem2 : (n, indegI g n - cutI g T n) ∈ R.2 := mget_mem hget
      refine List.mem_map.mpr ⟨(n, indegI g n - cutI g T n),
        List.mem_filter.mpr ⟨hmem2, ?_⟩, rfl⟩
      exact decide_eq_true (by omega)
  constructor
  · constructor
    · intro hv hcy
      obtain ⟨n, htg⟩ := hcy
      exact hcycT n htg (hVsubT (hvalid_iff.mp hv) n (hcycV n htg))
    · intro hacy
      by_contra hnv
      obtain ⟨u0, hu0V, hu0T⟩ := hmissing_of hnv
      exact hacy (cycle_of_stuck g h T hmiss u0 hu0V hu0T)
  · intro hnv
    have hcond : R.1 ≠ g.nodes.length := by
      intro hc2
      exact hnv (by rw [hval_eq, if_pos hc2])
    refine ⟨T, (R.2.filter (fun kv => 0 < kv.2)).map Prod.fst, ?_, ?_,
      hcyc_mem, ?_⟩
    · rw [hval_eq, if_neg hcond]
    · obtain ⟨u0, hu0V, hu0T⟩ := hmissing_of hnv
      have hu0c := (hcyc_mem u0).mpr ⟨hu0V, hu0T⟩
      intro hnil
      rw [hnil] at hu0c
      cases hu0c
    · intro n htg
      exact (hcyc_mem n).mpr ⟨hcycV n htg, hcycT n htg⟩

/-- Full characterization of `validateDAG` over well-formed graphs. -/
theorem validateDAG_spec (g : SimGraph) (h : KahnOK g) :
    (validateDAG g = ValidationResult.valid ↔ Acyclic g) ∧
    (validateDAG g ≠ ValidationResult.valid →
      ∃ (visited cycleNodes : List String),
        validateDAG g = .invalid [cycleMessage cycleNodes] ∧
        cycleNodes ≠ [] ∧
        (∀ n, n ∈ cycleNodes ↔ n ∈ mkeys g.nodes ∧ n ∉ visited) ∧
        (∀ n, Relation.TransGen (EdgeStep g) n n → n ∈ cycleNodes)) := by
  have hfuel : (mkeys g.nodes).length + 1 ≤
      ([] : List String).length + (g.nodes.length + g.edges.length + 1) := by
    have hlm : (mkeys g.nodes).length = g.nodes.length := List.length_map _ _
    simp only [List.length_nil]
    omega
  obtain ⟨T, hinvT, hlenT⟩ := kahnLoop_spec g h
    (g.nodes.length + g.edges.length + 1)
    [] (((initInDegree g).filter (fun kv => kv.2 = 0)).map Prod.fst)
    (initInDegree g) (kahnInv_init g h) hfuel
  rw [List.length_nil] at hinvT hlenT
  exact validateDAG_final g h T _ rfl hinvT hlenT

theorem addEdge_eq (g : SimGraph) (edge : SimEdge) :
    addEdge g edge =
      match validateDAG (addEdgeCandidate g edge) with
      | .valid => .graph (addEdgeCandidate g edge)
      | .invalid errors => .validationFailed errors := rfl

/-- **C3** — Atomic cycle rejection: `addEdge` builds a candidate graph
with the edge inserted in the edge map and appended to its origin's
adjacency list, validates the candidate, and — when the insertion closes a
directed cycle — returns the validation failure instead of a graph, with a
message naming at least one node on the cycle; the input graph value is
never touched (the embedding is pure, and the failure branch carries no
graph at all).  When no cycle is created, the returned graph is exactly
the candidate: the input graph plus the edge and its adjacency entry. -/
theorem addEdge_atomic_cycle_rejection (g : SimGraph) (edge : SimEdge)
    (h : KahnOK (addEdgeCandidate g edge)) :
    ((addEdgeCandidate g edge).nodes = g.nodes ∧
     mget (addEdgeCandidate g edge).edges edge.id = some edge ∧
     mget (addEdgeCandidate g edge).adjacency edge.from_ =
       some (((mget g.adjacency edge.from_).getD []) ++ [edge.id])) ∧
    (Acyclic (addEdgeCandidate g edge) →
      addEdge g edge = .graph (addEdgeCandidate g edge)) ∧
    (¬ Acyclic (addEdgeCandidate g edge) →
      ∃ cycleNodes : List String,
        addEdge g edge = .validationFailed [cycleMessage cycleNodes] ∧
        ∃ n, Relation.TransGen (EdgeStep (addEdgeCandidate g edge)) n n ∧
          n ∈ cycleNodes) := by
  obtain ⟨hiff, hfail⟩ := validateDAG_spec (addEdgeCandidate g edge) h
  refine ⟨⟨rfl, mget_mset_self _ _ _, mget_mset_self _ _ _⟩, ?_, ?_⟩
  · intro hacy
    rw [addEdge_eq, hiff.mpr hacy]
  · intro hncy
    have hnv : validateDAG (addEdgeCandidate g edge) ≠ .valid := fun hv =>
      hncy (hiff.mp hv)
    obtain ⟨visited, cyc, hinv, hne, hmem, hincl⟩ := hfail hnv
    refine ⟨cyc, ?_, ?_⟩
    · rw [addEdge_eq, hinv]
    · obtain ⟨n, htg⟩ := not_not.mp hncy
      exact ⟨n, htg, hincl n htg⟩

-- ---------------------------------------------------------------------------
-- Claim C4 and its witness
-- ---------------------------------------------------------------------------

/-- **C4** — Acyclicity validator correctness: over any graph whose node
and edge maps are keyed without duplicates, whose edges reference nodes
present in the node map, and whose adjacency index lists exactly the
outgoing edge ids of each node, `validateDAG` succeeds if and only if the
graph has no directed cycle.  On failure it returns one message naming
exactly the nodes whose in-degree never reached zero during Kahn's
elimination (the nodes the elimination never visited), a nonempty set that
contains every node lying on a directed cycle. -/
theorem kahn_validator_correct (g : SimGraph) (h : KahnOK g) :
    (validateDAG g = ValidationResult.valid ↔ Acyclic g) ∧
    (validateDAG g ≠ ValidationResult.valid →
      ∃ (visited cycleNodes : List String),
        validateDAG g = .invalid [cycleMessage cycleNodes] ∧
        cycleNodes ≠ [] ∧
        (∀ n, n ∈ cycleNodes ↔ n ∈ mkeys g.nodes ∧ n ∉ visited) ∧
        (∀ n, Relation.TransGen (EdgeStep g) n n → n ∈ cycleNodes)) :=
  validateDAG_spec g h

/-- C4 witness: the hypotheses of `kahn_validator_correct` hold of a
concrete graph. -/
theorem kahn_validator_correct_witness :
    (validateDAG c4Graph = ValidationResult.valid ↔ Acyclic c4Graph) ∧
    (validateDAG c4Graph ≠ ValidationResult.valid →
      ∃ (visited cycleNodes : List String),
        validateDAG c4Graph = .invalid [cycleMessage cycleNodes] ∧
        cycleNodes ≠ [] ∧
        (∀ n, n ∈ cycleNodes ↔ n ∈ mkeys c4Graph.nodes ∧ n ∉ visited) ∧
        (∀ n, Relation.TransGen (EdgeStep c4Graph) n n → n ∈ cycleNodes)) :=
  kahn_validator_correct c4Graph
    ⟨by decide, by decide, by decide, by decide, by decide, by decide⟩

/-- C3 witness: the hypotheses of `addEdge_atomic_cycle_rejection` hold of
a concrete graph and a concrete cycle-closing edge. -/
theorem addEdge_atomic_cycle_rejection_witness :
    ((addEdgeCandidate c3Graph c3EdgeYX).nodes = c3Graph.nodes ∧
     mget (addEdgeCandidate c3Graph c3EdgeYX).edges c3EdgeYX.id =
       some c3EdgeYX ∧
     mget (addEdgeCandidate c3Graph c3EdgeYX).adjacency c3EdgeYX.from_ =
       some (((mget c3Graph.adjacency c3EdgeYX.from_).getD []) ++
         [c3EdgeYX.id])) ∧
    (Acyclic (addEdgeCandidate c3Graph c3EdgeYX) →
      addEdge c3Graph c3EdgeYX =
        .graph (addEdgeCandidate c3Graph c3EdgeYX)) ∧
    (¬ Acyclic (addEdgeCandidate c3Graph c3EdgeYX) →
      ∃ cycleNodes : List String,
        addEdge c3Graph c3EdgeYX =
          .validationFailed [cycleMessage cycleNodes] ∧
        ∃ n, Relation.TransGen
          (EdgeStep (addEdgeCandidate c3Graph c3EdgeYX)) n n ∧
          n ∈ cycleNodes) :=
  addEdge_atomic_cycle_rejection c3Graph c3EdgeYX
    ⟨by decide, by decide, by decide, by decide, by decide, by decide⟩

-- ---------------------------------------------------------------------------
-- Round-trip lemmas for the primitive decoders
-- ---------------------------------------------------------------------------
theorem decodeColor_encode (c : MarbleColor) :
    decodeColor (encodeColor c) = some c := by
  cases c <;> rfl

theorem decodeColorOrNull_encode (oc : Option MarbleColor) :
    decodeColorOrNull (match oc with
      | some c => encodeColor c
      | none => Json.null) = some oc := by
  cases oc with
  | none => rfl
  | some c => cases c <;> rfl

theorem decodeColorOrNull_null : decodeColorOrNull Json.null = some none := rfl

theorem decodeColorOrNull_color (c : MarbleColor) :
    decodeColorOrNull (encodeColor c) = some (some c) := by
  cases c <;> rfl

theorem decodeNumPos_pos (q : Rat) (h : 0 < q) :
    decodeNumPos (.num q) = some q := by
  unfold decodeNumPos
  dsimp only
  rw [if_pos h]

theorem decodeNumNonneg_nonneg (q : Rat) (h : 0 ≤ q) :
    decodeNumNonneg (.num q) = some q := by
  unfold decodeNumNonneg
  dsimp only
  rw [if_pos h]

theorem decodeRatio_ok (q : Rat) (h0 : 0 ≤ q) (h1 : q ≤ 1) :
    decodeRatio (.num q) = some q := by
  unfold decodeRatio
  dsimp only
  rw [if_pos ⟨h0, h1⟩]

theorem decodeIntNonneg_intCast (n : Int) (h : 0 ≤ n) :
    decodeIntNonneg (.num (n : Rat)) = some n := by
  unfold decodeIntNonneg
  dsimp only
  rw [if_pos ⟨Rat.den_intCast n, by rw [Rat.num_intCast]; exact h⟩,
    Rat.num_intCast]

theorem decodeIntPos_intCast (n : Int) (h : 0 < n) :
    decodeIntPos (.num (n : Rat)) = some n := by
  unfold decodeIntPos
  dsimp only
  rw [if_pos ⟨Rat.den_intCast n, by rw [Rat.num_intCast]; exact h⟩,
    Rat.num_intCast]

theorem decodeNatNonneg_natCast (n : Nat) :
    decodeNatNonneg (.num (n : Rat)) = some n := by
  unfold decodeNatNonneg
  dsimp only
  rw [if_pos ⟨Rat.den_natCast n,
    by rw [Rat.num_natCast]; exact Int.natCast_nonneg n⟩, Rat.num_natCast,
    Int.toNat_natCast]

theorem decodeNatPos_natCast (n : Nat) (h : 0 < n) :
    decodeNatPos (.num (n : Rat)) = some n := by
  unfold decodeNatPos
  dsimp only
  rw [if_pos ⟨Rat.den_natCast n,
    by rw [Rat.num_natCast]; exact Int.natCast_pos.mpr h⟩, Rat.num_natCast,
    Int.toNat_natCast]

theorem decodeHeldMarble_encode (h : HeldMarble) :
    decodeHeldMarble (encodeHeldMarble h) = some h := by
  simp [decodeHeldMarble, encodeHeldMarble, Json.getField, mget,
    decodeColor_encode, decodeString]

theorem decodeQueueItem_encode (it : ElevatorItem)
    (h : 0 ≤ it.ticksRemaining) :
    decodeQueueItem (encodeQueueItem it) = some it := by
  simp [decodeQueueItem, encodeQueueItem, Json.getField, mget,
    decodeColor_encode, decodeString, decodeIntNonneg_intCast _ h]

theorem mapM_dec_encode {α : Type} (dec : Json → Option α) (enc : α → Json)
    (l : List α) (h : ∀ x ∈ l, dec (enc x) = some x) :
    (l.map enc).mapM dec = some l := by
  induction l with
  | nil => rfl
  | cons x t ih =>
      rw [List.map_cons, List.mapM_cons, h x (List.mem_cons_self x t),
        ih (fun y hy => h y (List.mem_cons_of_mem x hy))]
      rfl

theorem decodeArray_encode {α : Type} (dec : Json → Option α) (enc : α → Json)
    (l : List α) (h : ∀ x ∈ l, dec (enc x) = some x) :
    decodeArray dec (.arr (l.map enc)) = some l := by
  unfold decodeArray
  dsimp only
  exact mapM_dec_encode dec enc l h

theorem decodeColorMap_encode {α : Type} (dec : Json → Option α)
    (enc : α → Json) (m : ColorMap α) (h : ∀ x, dec (enc x) = some x) :
    decodeColorMap dec (encodeColorMap enc m) = some m := by
  simp [decodeColorMap, encodeColorMap, MARBLE_COLORS, Json.getField, mget,
    colorKey, ColorMap.get, h]

theorem decodeCondition_encode (cond : GateCondition)
    (h : (match cond with
      | .marbleCount threshold _ => 0 < threshold
      | .tickInterval period => 0 < period
      | .manual => True)) :
    decodeCondition (encodeCondition cond) = some cond := by
  cases cond with
  | marbleCount threshold arrivedCount =>
      simp [decodeCondition, encodeCondition, Json.getField, mget,
        decodeString, decodeNatPos_natCast threshold h,
        decodeNatNonneg_natCast]
  | tickInterval period =>
      simp [decodeCondition, encodeCondition, Json.getField, mget,
        decodeString, decodeNatPos_natCast period h]
  | manual => rfl

theorem decodeFillPattern_encode (fp : FillPattern) :
    decodeFillPattern (encodeFillPattern fp) = some fp := by
  cases fp <;> rfl

theorem decodeGrid_encode (grid : List (List (Option MarbleColor))) :
    decodeGrid (encodeGrid grid) = some grid := by
  unfold decodeGrid encodeGrid
  exact decodeArray_encode _ _ grid (fun row _ =>
    decodeArray_encode _ _ row (fun cell _ => decodeColorOrNull_encode cell))

theorem decodePosition_encode (p : Position) :
    decodePosition (encodePosition p) = some p := rfl

theorem decodeEdge_encode (e : SimEdge) (h : 0 ≤ e.length) :
    decodeEdge (encodeEdge e) = some e := by
  simp [decodeEdge, encodeEdge, Json.getField, mget, decodeString,
    decodeNumNonneg_nonneg _ h]

set_option maxHeartbeats 2000000 in
/-- Every import-schema-conforming node decodes back from its own
serialization. -/
theorem decodeNode_encode (node : SimNode) (h : nodeSchemaOK node = true) :
    decodeNode (encodeNode node) = some node := by
  cases node with
  | source d =>
      simp only [nodeSchemaOK, decide_eq_true_eq] at h
      simp [decodeNode, encodeNode, Json.getField, mget, decodeString,
        decodePosition_encode, decodeColor_encode, decodeNumPos_pos _ h.1,
        decodeIntNonneg_intCast _ h.2]
  | sink d =>
      simp [decodeNode, encodeNode, Json.getField, mget, decodeString,
        decodePosition_encode, decodeNatNonneg_natCast]
  | splitter d =>
      simp only [nodeSchemaOK, decide_eq_true_eq] at h
      simp [decodeNode, encodeNode, Json.getField, mget, decodeString,
        decodePosition_encode, decodeRatio_ok _ h.1 h.2]
  | elevator d =>
      simp only [nodeSchemaOK, Bool.and_eq_true, decide_eq_true_eq] at h
      have hq : ∀ it ∈ d.queue, 0 ≤ it.ticksRemaining := by
        intro it hit
        have h2 := List.all_eq_true.mp h.2 it hit
        exact of_decide_eq_true h2
      have harr : decodeArray decodeQueueItem
          (.arr (d.queue.map encodeQueueItem)) = some d.queue :=
        decodeArray_encode _ _ _
          (fun it hit => decodeQueueItem_encode it (hq it hit))
      simp [decodeNode, encodeNode, Json.getField, mget, decodeString,
        decodePosition_encode, decodeIntPos_intCast _ h.1, harr]
  | ramp d => rfl
  | gate d =>
      simp only [nodeSchemaOK] at h
      have hcond : decodeCondition (encodeCondition d.condition) =
          some d.condition := by
        apply decodeCondition_encode
        rcases hc : d.condition with ⟨threshold, arrived⟩ | period | _
        · rw [hc] at h
          exact of_decide_eq_true h
        · rw [hc] at h
          exact of_decide_eq_true h
        · trivial
      have harr : decodeArray decodeHeldMarble
          (.arr (d.heldMarbles.map encodeHeldMarble)) = some d.heldMarbles :=
        decodeArray_encode _ _ _ (fun x _ => decodeHeldMarble_encode x)
      simp [decodeNode, encodeNode, Json.getField, mget, decodeString,
        decodePosition_encode, decodeBool, hcond, harr]
  | bucket d =>
      simp only [nodeSchemaOK, decide_eq_true_eq] at h
      obtain ⟨id, pos, capacity, currentFill, mode⟩ := d
      cases mode <;>
        simp [decodeNode, encodeNode, Json.getField, mget, decodeString,
          decodePosition_encode, decodeNatPos_natCast _ h,
          decodeNatNonneg_natCast]
  | basin d =>
      simp only [nodeSchemaOK, decide_eq_true_eq] at h
      obtain ⟨id, pos, contents, mode, rate, cooldown, extractColor⟩ := d
      have hcm : decodeColorMap decodeNatNonneg
          (encodeColorMap (fun (n : Nat) => Json.num (n : Rat)) contents) =
          some contents :=
        decodeColorMap_encode _ _ _ decodeNatNonneg_natCast
      have h1 : (0 : Int) < rate := h.1
      have h2 : (0 : Int) ≤ cooldown := h.2
      cases mode <;> rcases extractColor with _ | c <;>
        simp [decodeNode, encodeNode, Json.getField, mget, decodeString,
          decodePosition_encode, decodeColorOrNull_null,
          decodeColorOrNull_color, decodeIntPos_intCast _ h1,
          decodeIntNonneg_intCast _ h2, hcm]
  | colorSplitter d =>
      have hcm : decodeColorMap decodeString
          (encodeColorMap Json.str d.outputMap) = some d.outputMap :=
        decodeColorMap_encode _ _ _ (fun s => rfl)
      simp [decodeNode, encodeNode, Json.getField, mget, decodeString,
        decodePosition_encode, hcm]
  | signalBuffer d =>
      simp only [nodeSchemaOK, decide_eq_true_eq] at h
      have harr : decodeArray decodeHeldMarble
          (.arr (d.heldMarbles.map encodeHeldMarble)) = some d.heldMarbles :=
        decodeArray_encode _ _ _ (fun x _ => decodeHeldMarble_encode x)
      simp [decodeNode, encodeNode, Json.getField, mget, decodeString,
        decodePosition_encode, harr, decodeNatNonneg_natCast,
        decodeNatPos_natCast _ h]
  | canvas d =>
      simp only [nodeSchemaOK, decide_eq_true_eq] at h
      simp [decodeNode, encodeNode, Json.getField, mget, decodeString,
        decodePosition_encode, decodeNatPos_natCast _ h.1,
        decodeNatPos_natCast _ h.2, decodeFillPattern_encode,
        decodeGrid_encode, decodeNatNonneg_natCast]

/-- The serialized payload of a schema-conforming graph decodes back to its
node and edge value lists. -/
theorem decodeGraphPayload_serialize (g : SimGraph)
    (hn : ∀ node ∈ mvalues g.nodes, nodeSchemaOK node = true)
    (he : ∀ e ∈ mvalues g.edges, edgeSchemaOK e = true) :
    decodeGraphPayload (serializeGraph g) =
      some (mvalues g.nodes, mvalues g.edges) := by
  have hnodes : decodeArray decodeNode
      (.arr ((mvalues g.nodes).map encodeNode)) = some (mvalues g.nodes) :=
    decodeArray_encode _ _ _ (fun x hx => decodeNode_encode x (hn x hx))
  have hedges : decodeArray decodeEdge
      (.arr ((mvalues g.edges).map encodeEdge)) = some (mvalues g.edges) := by
    refine decodeArray_encode _ _ _ (fun x hx => decodeEdge_encode x ?_)
    have h2 := he x hx
    simp only [edgeSchemaOK, decide_eq_true_eq] at h2
    exact h2
  simp [decodeGraphPayload, serializeGraph, Json.getField, mget, hnodes,
    hedges]

-- ---------------------------------------------------------------------------
-- Structure of the rebuilt graph
-- ---------------------------------------------------------------------------
theorem mset_append_absent {β : Type} (m : List (String × β)) (k : String)
    (v : β) (h : k ∉ mkeys m) : mset m k v = m ++ [(k, v)] := by
  induction m with
  | nil => rfl
  | cons kv rest ih =>
      have hk : kv.1 ≠ k := by
        intro he
        exact h (List.mem_map.mpr ⟨kv, List.mem_cons_self kv rest, he⟩)
      have hrest : k ∉ mkeys rest := by
        intro hm
        rcases List.mem_map.mp hm with ⟨kw, hkw, hfst⟩
        exact h (List.mem_map.mpr ⟨kw, List.mem_cons_of_mem _ hkw, hfst⟩)
      unfold mset
      rw [if_neg hk, ih hrest]
      rfl

theorem foldl_mset_entries {β γ : Type} (l : List (String × β))
    (f : String × β → γ) :
    ∀ acc : List (String × γ), (mkeys l).Nodup →
      (∀ k ∈ mkeys l, k ∉ mkeys acc) →
      l.foldl (fun m kv => mset m kv.1 (f kv)) acc =
        acc ++ l.map (fun kv => (kv.1, f kv)) := by
  induction l with
  | nil =>
      intro acc _ _
      simp
  | cons kv t ih =>
      intro acc hnd hdis
      have hnd2 : (kv.1 :: mkeys t).Nodup := hnd
      have hknotin : kv.1 ∉ mkeys acc :=
        hdis kv.1 (List.mem_map.mpr ⟨kv, List.mem_cons_self kv t, rfl⟩)
      rw [List.foldl_cons, mset_append_absent acc kv.1 (f kv) hknotin,
        ih (acc ++ [(kv.1, f kv)]) (List.nodup_cons.mp hnd2).2 ?dis]
      case dis =>
        intro k hk hmem
        unfold mkeys at hmem
        rw [List.map_append] at hmem
        rcases List.mem_append.mp hmem with h1 | h1
        · exact hdis k (by
            unfold mkeys
            rw [List.map_cons]
            exact List.mem_cons_of_mem _ hk) h1
        · rw [show (List.map Prod.fst [(kv.1, f kv)] : List String) =
            [kv.1] from rfl, List.mem_singleton] at h1
          exact (List.nodup_cons.mp hnd2).1 (h1 ▸ hk)
      rw [List.map_cons, List.append_assoc]
      rfl

theorem foldl_mset_edges_nodup (l : List SimEdge) :
    ∀ acc : List (String × SimEdge), (mkeys acc).Nodup →
      (mkeys (l.foldl (fun m e => mset m e.id e) acc)).Nodup := by
  induction l with
  | nil => intro acc h; exact h
  | cons e t ih =>
      intro acc h
      rw [List.foldl_cons]
      exact ih (mset acc e.id e) (mkeys_mset_nodup acc e.id e h)

theorem buildSimGraph_edges (nodes : List SimNode) (edges : List SimEdge) :
    (buildSimGraph nodes edges).edges =
      edges.foldl (fun m e => mset m e.id e) [] := by
  unfold buildSimGraph
  dsimp only
  suffices haux : ∀ (l : List SimEdge) (m : List (String × SimEdge))
      (a : List (String × List String)),
      (l.foldl (fun (acc : List (String × SimEdge) × List (String × List String)) e =>
        match mget acc.2 e.from_ with
        | some list => (mset acc.1 e.id e, mset acc.2 e.from_ (list ++ [e.id]))
        | none => (mset acc.1 e.id e, acc.2)) (m, a)).1 =
      l.foldl (fun m2 e => mset m2 e.id e) m by
    exact haux edges [] _
  intro l
  induction l with
  | nil =>
      intro m a
      rfl
  | cons e t ih =>
      intro m a
      rw [List.foldl_cons, List.foldl_cons]
      rcases hm : mget a e.from_ with _ | lst
      · dsimp only
        exact ih (mset m e.id e) a
      · dsimp only
        exact ih (mset m e.id e) (mset a e.from_ (lst ++ [e.id]))

/-- Keys of a well-keyed graph's edge map carry no duplicates. -/
theorem wellKeyed_edges_nodup (g : SimGraph) (h : WellKeyed g) :
    (mkeys g.edges).Nodup := by
  unfold WellKeyed at h
  have h2 : (buildSimGraph (mvalues g.nodes) (mvalues g.edges)).edges =
      g.edges := by rw [h]
  rw [buildSimGraph_edges] at h2
  rw [← h2]
  exact foldl_mset_edges_nodup (mvalues g.edges) [] List.nodup_nil

/-- `computeEdgeLengths` rewrites each edge entry in place: same keys in the
same order, every field except `length` untouched. -/
theorem computeEdgeLengths_entries (dist : Position → Position → Rat)
    (g : SimGraph) (hnd : (mkeys g.edges).Nodup) :
    (computeEdgeLengths dist g).edges = g.edges.map (fun kv =>
      (kv.1, { kv.2 with length :=
        (match mget g.nodes kv.2.from_, mget g.nodes kv.2.to_ with
         | some fromNode, some toNode =>
             dist fromNode.position toNode.position
         | _, _ => kv.2.length) })) := by
  unfold computeEdgeLengths
  dsimp only
  exact foldl_mset_entries g.edges _ [] hnd (fun k _ h => by cases h)

theorem mkeys_map_entry {β γ : Type} (l : List (String × β))
    (f : String × β → γ) :
    mkeys (l.map (fun kv => (kv.1, f kv))) = mkeys l := by
  unfold mkeys
  rw [List.map_map]
  rfl

/-- **C8** — serialization round-trip (amended): for a well-keyed graph all
of whose nodes and edges satisfy the import schema's numeric constraints,
deserializing the serialized payload succeeds and returns the graph with
its edge lengths recomputed: the node map is byte-for-byte the input's,
the adjacency index is equal, and every edge keeps its id, endpoints and
handle names (only `length` is recomputed from node positions). -/
theorem serialization_round_trip (dist : Position → Position → Rat)
    (g : SimGraph) (hwk : WellKeyed g)
    (hn : ∀ node ∈ mvalues g.nodes, nodeSchemaOK node = true)
    (he : ∀ e ∈ mvalues g.edges, edgeSchemaOK e = true) :
    deserializeGraph dist (.ok (serializeGraph g)) =
      .ok (computeEdgeLengths dist g) ∧
    (computeEdgeLengths dist g).nodes = g.nodes ∧
    (computeEdgeLengths dist g).adjacency = g.adjacency ∧
    mkeys (computeEdgeLengths dist g).edges = mkeys g.edges ∧
    (∀ k e, mget g.edges k = some e →
      ∃ e', mget (computeEdgeLengths dist g).edges k = some e' ∧
        e'.id = e.id ∧ e'.from_ = e.from_ ∧ e'.fromHandle = e.fromHandle ∧
        e'.to_ = e.to_ ∧ e'.toHandle = e.toHandle) := by
  have hnd := wellKeyed_edges_nodup g hwk
  have hent := computeEdgeLengths_entries dist g hnd
  refine ⟨?_, rfl, rfl, ?_, ?_⟩
  · unfold deserializeGraph
    dsimp only
    rw [decodeGraphPayload_serialize g hn he]
    dsimp only
    rw [show buildSimGraph (mvalues g.nodes) (mvalues g.edges) = g from hwk]
  · rw [hent, mkeys_map_entry]
  · intro k e hke
    have hmem : (k, e) ∈ g.edges := mget_mem hke
    refine ⟨{ e with length :=
      (match mget g.nodes e.from_, mget g.nodes e.to_ with
       | some fromNode, some toNode =>
           dist fromNode.position toNode.position
       | _, _ => e.length) }, ?_, rfl, rfl, rfl, rfl, rfl⟩
    rw [hent]
    apply mget_eq_of_mem_nodup
    · rw [mkeys_map_entry]
      exact hnd
    · exact List.mem_map.mpr ⟨(k, e), hmem, rfl⟩

/-- C8 witness: the hypotheses of `serialization_round_trip` hold of a
concrete graph. -/
theorem serialization_round_trip_witness :
    deserializeGraph (fun _ _ => 2) (.ok (serializeGraph c8Graph)) =
      .ok (computeEdgeLengths (fun _ _ => 2) c8Graph) ∧
    (computeEdgeLengths (fun _ _ => 2) c8Graph).nodes = c8Graph.nodes ∧
    (computeEdgeLengths (fun _ _ => 2) c8Graph).adjacency =
      c8Graph.adjacency ∧
    mkeys (computeEdgeLengths (fun _ _ => 2) c8Graph).edges =
      mkeys c8Graph.edges ∧
    (∀ k e, mget c8Graph.edges k = some e →
      ∃ e', mget (computeEdgeLengths (fun _ _ => 2) c8Graph).edges k =
          some e' ∧
        e'.id = e.id ∧ e'.from_ = e.from_ ∧ e'.fromHandle = e.fromHandle ∧
        e'.to_ = e.to_ ∧ e'.toHandle = e.toHandle) :=
  serialization_round_trip (fun _ _ => 2) c8Graph (by decide) (by decide)
    (by decide)

/-- C8 counterexample: the frozen claim quantifies over every graph whose
edges reference present nodes, but the round-trip already fails on a graph
whose source carries a schema-violating `spawnRate` of zero — the import
rejects the serialized output wholesale. -/
theorem serialization_round_trip_cex :
    EdgesClosed c8BadGraph ∧ WellKeyed c8BadGraph ∧
    deserializeGraph (fun _ _ => 0) (.ok (serializeGraph c8BadGraph)) =
      .error "Validation failed" :=
  ⟨fun e he => absurd he (List.not_mem_nil e), by decide, by decide⟩

-- ---------------------------------------------------------------------------
-- Import rejection (C9)
-- ---------------------------------------------------------------------------

/-- **C9** — import rejects bad input (amended): malformed JSON is rejected
with an "Invalid JSON" error; a payload whose `version` field is not the
number `1` (wrong, missing, or non-numeric) and any payload failing schema
validation are rejected wholesale with "Validation failed"; and the only
graphs ever returned are fully validated and completely rebuilt with
`buildSimGraph` plus recomputed edge lengths — never a partial graph.
(The frozen claim's "carries unknown fields" case is refuted separately:
the schema parses in strip mode and accepts unknown fields.) -/
theorem import_rejects_bad_input (dist : Position → Position → Rat) :
    (∀ e, deserializeGraph dist (.error e) =
      .error ("Invalid JSON: " ++ e)) ∧
    (∀ raw, raw.getField "version" ≠ some (.num 1) →
      deserializeGraph dist (.ok raw) = .error "Validation failed") ∧
    (∀ raw, decodeGraphPayload raw = none →
      deserializeGraph dist (.ok raw) = .error "Validation failed") ∧
    (∀ raw g', deserializeGraph dist (.ok raw) = .ok g' →
      ∃ nodes edges, decodeGraphPayload raw = some (nodes, edges) ∧
        g' = computeEdgeLengths dist (buildSimGraph nodes edges)) := by
  have hval : ∀ raw, decodeGraphPayload raw = none →
      deserializeGraph dist (.ok raw) = .error "Validation failed" := by
    intro raw hnone
    unfold deserializeGraph
    dsimp only
    rw [hnone]
  refine ⟨fun e => rfl, ?_, hval, ?_⟩
  · intro raw hver
    refine hval raw ?_
    rcases hv : raw.getField "version" with _ | vj
    · unfold decodeGraphPayload
      rw [hv]
      rfl
    · cases vj with
      | num q =>
          have hq : ¬ q = 1 := fun h1 => hver (by rw [hv, h1])
          unfold decodeGraphPayload
          rw [hv]
          have hgoal : (if q = 1 then
              ((raw.getField "nodes" >>= decodeArray decodeNode) >>=
                fun nodes =>
                  (raw.getField "edges" >>= decodeArray decodeEdge) >>=
                    fun edges => pure (nodes, edges))
            else (none : Option (List SimNode × List SimEdge))) = none := by
            rw [if_neg hq]
          exact hgoal
      | null =>
          unfold decodeGraphPayload
          rw [hv]
          rfl
      | bool b =>
          unfold decodeGraphPayload
          rw [hv]
          rfl
      | str s =>
          unfold decodeGraphPayload
          rw [hv]
          rfl
      | arr elems =>
          unfold decodeGraphPayload
          rw [hv]
          rfl
      | obj fields =>
          unfold decodeGraphPayload
          rw [hv]
          rfl
  · intro raw g' hok
    unfold deserializeGraph at hok
    dsimp only at hok
    obtain ⟨payload, hp⟩ | hp :
        (∃ p, decodeGraphPayload raw = some p) ∨
          decodeGraphPayload raw = none := by
      cases h2 : decodeGraphPayload raw
      · exact Or.inr rfl
      · exact Or.inl ⟨_, rfl⟩
    · rw [hp] at hok
      dsimp only at hok
      exact ⟨payload.1, payload.2, by rw [hp],
        (DeserializeResult.ok.inj hok).symm⟩
    · rw [hp] at hok
      cases hok

/-- C9 witness: the theorem applied to a malformed-JSON input and to a
wrong-version payload. -/
theorem import_rejects_bad_input_witness :
    deserializeGraph (fun _ _ => 0) (.error "unexpected token u") =
      .error "Invalid JSON: unexpected token u" ∧
    deserializeGraph (fun _ _ => 0)
      (.ok (.obj [("version", .num 2), ("nodes", .arr []),
        ("edges", .arr [])])) = .error "Validation failed" :=
  ⟨(import_rejects_bad_input (fun _ _ => 0)).1 "unexpected token u",
   (import_rejects_bad_input (fun _ _ => 0)).2.1 _ (by
     intro h
     have h2 : some (Json.num 2) = some (Json.num 1) := h
     injection h2 with h3
     injection h3 with h4
     exact absurd h4 (by norm_num))⟩

/-- C9 counterexample: an import carrying an unknown field is accepted, not
rejected — `z.object` parses in strip mode, so unknown keys are silently
ignored.  This refutes the frozen claim's "carries unknown fields" case. -/
theorem import_rejects_bad_input_cex :
    deserializeGraph (fun _ _ => 0) (.ok c9UnknownFieldJson) =
      .ok { nodes := [], edges := [], adjacency := [] } := rfl

end MarbleSim

